import Mathlib

/-!
# DPMI block manager (`src/dosext/dpmi/memory.c`): a shallow embedding

The C functions of `memory.c` are rendered as pure functions on an explicit
`State` (the block list of one root, the counters `mem_allocd` and
`pm_block_handle_used`, the host shared-memory namespace and the log of calls
made to the host and to the CPU emulator).

Conventions.

* `unsigned int` values are naturals reduced modulo `2^32`, `unsigned long`
  values modulo `2^64` (LP64), `uint16_t` attribute words modulo `2^16`; `int`
  results are integers obtained with `int32`.
* A pointer to a block descriptor is the position of the descriptor in the
  list that starts at `root->first_pm_block`.
* The answers of the external collaborators (the pool primitive `smalloc` and
  friends, `mprotect_mapping`, `get_hardware_ram`, `shm_open`, ...) are inputs,
  collected in the record `Host`.
* A failed `assert` and an access outside the attribute array end the run with
  a `Fault`.
* The libc heap (`malloc`, `realloc`, `strdup`) is taken not to fail, and the
  validity of heap pointers is not tracked; `realloc_pm_block` is the one place
  where this shows.
-/

namespace Dpmi

/-! ## Constants and machine arithmetic -/

def PAGE_SHIFT : Nat := 12

def PAGE_SIZE : Nat := 4096

def ATTR_SHR : Nat := 4

/-- Reserve of 4Mb: `static const int dpmi_reserved_space`. -/
def dpmi_reserved_space : Nat := 4 * 1024 * 1024

def PROT_NONE : Nat := 0

def PROT_READ : Nat := 1

def PROT_WRITE : Nat := 2

def PROT_EXEC : Nat := 4

/-- Truncation to `unsigned int`. -/
def u32 (n : Nat) : Nat := n % 4294967296

/-- Truncation to `unsigned long`. -/
def u64 (n : Nat) : Nat := n % 18446744073709551616

/-- Subtraction `a - b` of two `unsigned int` values. -/
def sub32 (a b : Nat) : Nat := (a % 4294967296 + 4294967296 - b % 4294967296) % 4294967296

/-- Subtraction `a - b` of two `unsigned long` values. -/
def sub64 (a b : Nat) : Nat :=
  (a % 18446744073709551616 + 18446744073709551616 - b % 18446744073709551616)
    % 18446744073709551616

/-- Conversion of an `unsigned int` value to `int`. -/
def int32 (n : Nat) : Int :=
  if n % 4294967296 < 2147483648 then ((n % 4294967296 : Nat) : Int)
  else ((n % 4294967296 : Nat) : Int) - 4294967296

/-- Conversion of an `int` to `unsigned int`. -/
def u32_of_int (i : Int) : Nat := (i % 4294967296).toNat

/-- Conversion of an `int` to `unsigned long` (sign extension). -/
def u64_of_int (i : Int) : Nat := (i % 18446744073709551616).toNat

/-- Modelled from the spec: the macro `PAGE_ALIGN` (its header is not part of the
sources at hand) rounds a byte count up to a multiple of the page size; here
on an `unsigned int` operand, so the sum wraps at `2^32`. -/
def PAGE_ALIGN (x : Nat) : Nat := (x + (PAGE_SIZE - 1)) % 4294967296 / PAGE_SIZE * PAGE_SIZE

/-- Modelled from the spec: the macro `PAGE_ALIGN` on an `unsigned long`
operand, where the sum wraps at `2^64`. -/
def PAGE_ALIGN64 (x : Nat) : Nat :=
  (x + (PAGE_SIZE - 1)) % 18446744073709551616 / PAGE_SIZE * PAGE_SIZE

/-! ## Data model -/

/-- Ways in which a run ends abnormally. -/
inductive Fault where
  | assertion
  | out_of_bounds
deriving DecidableEq, Repr

/-- Calls made to the host and to the CPU emulator, in the order issued. -/
inductive HostCall where
  | e_invalidate_full (addr size : Nat)
  | mprotect_mapping (addr size prot : Nat)
  | restore_mapping (addr size : Nat)
  | smfree (main_pool : Bool) (addr : Nat)
  | alias_mapping (addr size prot low_addr : Nat)
  | shm_unlink (name : String)
  | leavedos (code : Nat)
deriving DecidableEq, Repr

/-- The descriptor `dpmi_pm_block` of `dmemory.h`; `attrs` is the array of one
`u_short` per page, `shmname = none` is the null pointer. -/
structure dpmi_pm_block where
  handle : Nat := 0
  size : Nat := 0
  base : Nat := 0
  attrs : List Nat := []
  linear : Bool := false
  hwram : Bool := false
  shm : Bool := false
  shmname : Option String := none
  rshmname : Option String := none
  mapped : Bool := false
deriving DecidableEq, Repr

/-- Configuration values read by the block manager. `lin_rsv_base` is
`DOSADDR_REL(dpmi_lin_rsv_base)` and `lin_mem_rsv` the value of
`dpmi_lin_mem_rsv()` as an `unsigned int`. -/
structure Config where
  dpmi_total_memory : Nat
  lin_rsv_base : Nat
  lin_mem_rsv : Nat
  no_null_checks : Bool
deriving DecidableEq, Repr

/-- Answers of the external collaborators during one call.
`pool` is the area returned by the pool primitive (as a `dosaddr_t`, `none` for
`NULL`); `mprotect_ok addr` tells whether `mprotect_mapping` succeeds on the
page at `addr` inside `SetAttribsForPage`; `hwram` is the result of
`get_hardware_ram` (`none` for `-1`). -/
structure Host where
  pool : Option Nat
  mprotect_ok : Nat → Bool
  hwram : Option Nat
  shm_open_ok : Bool
  ftruncate_ok : Bool
  mmap_ok : Bool
  alias_ok : Bool

/-- The mutable state: the list of one root, the two file-scope counters, the
host shared-memory objects (name and size) and the log of host calls. -/
structure State where
  root : List dpmi_pm_block
  mem_allocd : Nat
  pm_block_handle_used : Nat
  shm_objects : List (String × Nat)
  log : List HostCall
deriving DecidableEq, Repr

/-! ## Utility routines -/

/-- `alloc_pm_block`: a zeroed descriptor with an attribute array of
`size >> PAGE_SHIFT` entries is put at the head of the list. -/
def alloc_pm_block (root : List dpmi_pm_block) (size : Nat) : List dpmi_pm_block :=
  { attrs := List.replicate (size >>> PAGE_SHIFT) 0, mapped := true } :: root

/-- The descriptor `alloc_pm_block` returns a pointer to: the head of the list. -/
def new_pm_block (size : Nat) : dpmi_pm_block :=
  { attrs := List.replicate (size >>> PAGE_SHIFT) 0, mapped := true }

/-- `realloc_pm_block`: the attribute array is resized to
`newsize >> PAGE_SHIFT` entries, the common part is kept. This is a model of
the contents of the array, not of the heap. What `realloc` does for zero
entries (a resize whose page-aligned size wraps to `0`) is
implementation-defined in C; here the descriptor keeps an empty array, as with
a C library that answers with an empty allocation. With glibc `realloc(p, 0)`
releases the array and returns `NULL`: the source then leaves the released
pointer in the descriptor, and a later `free_pm_block` or `realloc_pm_block`
of that descriptor passes it to the C library once more. The model does not
follow that, so from such a resize on a run of the model says nothing about
the source under glibc. -/
def realloc_pm_block (attrs : List Nat) (newsize : Nat) : List Nat :=
  (attrs ++ List.replicate (newsize >>> PAGE_SHIFT - attrs.length) 0).take
    (newsize >>> PAGE_SHIFT)

/-- `free_pm_block`: the descriptor at position `p` is unlinked. -/
def free_pm_block (root : List dpmi_pm_block) (p : Nat) : List dpmi_pm_block :=
  root.eraseIdx p

/-- `lookup_pm_block`: position and contents of the first descriptor whose
handle is `h`. -/
def lookup_pm_block : List dpmi_pm_block → Nat → Option (Nat × dpmi_pm_block)
  | [], _ => none
  | b :: bs, h =>
    if b.handle = h then some (0, b)
    else (lookup_pm_block bs h).map fun r => (r.1 + 1, r.2)

/-- `lookup_pm_block_by_addr`: first mapped descriptor whose range holds
`addr`; the sum `base + size` is an `unsigned int`. -/
def lookup_pm_block_by_addr : List dpmi_pm_block → Nat → Option (Nat × dpmi_pm_block)
  | [], _ => none
  | b :: bs, addr =>
    if b.mapped ∧ b.base ≤ addr ∧ addr < u32 (b.base + b.size) then some (0, b)
    else (lookup_pm_block_by_addr bs addr).map fun r => (r.1 + 1, r.2)

/-- `lookup_pm_block_by_shmname`. -/
def lookup_pm_block_by_shmname : List dpmi_pm_block → String → Option (Nat × dpmi_pm_block)
  | [], _ => none
  | b :: bs, name =>
    if b.shmname = some name then some (0, b)
    else (lookup_pm_block_by_shmname bs name).map fun r => (r.1 + 1, r.2)

/-- `count_shm_blocks`. -/
def count_shm_blocks (root : List dpmi_pm_block) (sname : String) : Nat :=
  (root.filter fun b => b.shmname = some sname).length

/-- `dpmi_free_memory`: the result is an `int`. -/
def dpmi_free_memory (cfg : Config) (mem_allocd : Nat) : Int :=
  if cfg.dpmi_total_memory ≤ mem_allocd then 0
  else int32 (sub32 cfg.dpmi_total_memory mem_allocd)

/-! ## Page attributes -/

/-- Local variables of `SetAttribsForPage` together with the two locations it
writes: `word` is `*old_attr_p`, `mem` is `mem_allocd`; `ret0` records that a
`return 0` was taken. -/
structure Locals where
  word : Nat
  mem : Nat
  change : Bool
  com : Nat
  prot : Nat
  ret0 : Bool
deriving DecidableEq, Repr

/-- The `switch (com)` of `SetAttribsForPage`, followed by `com &= 1` and the
initialisation of `prot`. -/
def switch_com (cfg : Config) (mem attr old_attr : Nat) : Except Fault Locals :=
  let com := attr &&& 3
  let old_com := old_attr &&& 1
  let prot := PROT_READ ||| PROT_EXEC
  if com = 0 then
    if old_com = 1 then
      if PAGE_SIZE ≤ mem then
        .ok ⟨old_attr &&& 0xFFF8, mem - PAGE_SIZE, true, com &&& 1, prot, false⟩
      else .error Fault.assertion
    else .ok ⟨old_attr &&& 0xFFF8, mem, false, com &&& 1, prot, false⟩
  else if com = 1 then
    if old_com = 0 then
      if dpmi_free_memory cfg mem < (PAGE_SIZE : Int) then
        .ok ⟨old_attr, mem, false, com &&& 1, prot, true⟩
      else
        .ok ⟨(old_attr &&& 0xFFF8) ||| 1, u32 (mem + PAGE_SIZE), true, com &&& 1, prot, false⟩
    else .ok ⟨(old_attr &&& 0xFFF8) ||| 1, mem, false, com &&& 1, prot, false⟩
  else if com = 2 then .ok ⟨old_attr, mem, false, com &&& 1, prot, false⟩
  else .ok ⟨old_attr, mem, false, old_com &&& 1, prot, false⟩

/-- The read-write part of `SetAttribsForPage`. -/
def rw_bits (attr old_attr : Nat) (l : Locals) : Locals :=
  if l.ret0 then l
  else if attr &&& 8 ≠ 0 then
    if old_attr &&& 8 = 0 then
      if l.com = 0 ∧ old_attr &&& 1 = 0 then { l with ret0 := true }
      else { l with change := true, word := l.word ||| 8, prot := l.prot ||| PROT_WRITE }
    else { l with prot := l.prot ||| PROT_WRITE }
  else
    if old_attr &&& 8 ≠ 0 then { l with change := true, word := l.word &&& 0xFFF7 }
    else l

/-- The no-execute part of `SetAttribsForPage`. -/
def nx_bits (attr old_attr : Nat) (l : Locals) : Locals :=
  if l.ret0 then l
  else if attr &&& 0x80 ≠ 0 then
    if old_attr &&& 0x80 = 0 then
      if l.com = 0 then { l with ret0 := true }
      else { l with change := true, word := l.word ||| 0x80, prot := l.prot &&& 3 }
    else { l with prot := l.prot &&& 3 }
  else
    if old_attr &&& 0x80 ≠ 0 then
      if l.com = 0 then { l with ret0 := true }
      else { l with change := true, word := l.word &&& 0xFF7F }
    else l

/-- The access/dirty part of `SetAttribsForPage`. -/
def acc_bits (attr : Nat) (l : Locals) : Locals :=
  if l.ret0 then l
  else if attr &&& 16 ≠ 0 then { l with word := (l.word &&& 0x0f) ||| (attr &&& 0xf0) }
  else l

/-- Result of `SetAttribsForPage`: the returned value, the attribute word and
the counter as the call leaves them, and the host calls it made. -/
structure PageRes where
  ret : Nat
  word : Nat
  mem_allocd : Nat
  log : List HostCall
deriving DecidableEq, Repr

/-- The tail of `SetAttribsForPage`: invalidation and host protection. -/
def apply_change (ptr : Nat) (ok : Bool) (l : Locals) : PageRes :=
  if l.ret0 then ⟨0, l.word, l.mem, []⟩
  else if l.change then
    if l.com ≠ 0 then
      if ok then
        ⟨1, l.word, l.mem, [.e_invalidate_full ptr PAGE_SIZE,
          .mprotect_mapping ptr PAGE_SIZE l.prot]⟩
      else
        ⟨0, l.word, l.mem, [.e_invalidate_full ptr PAGE_SIZE,
          .mprotect_mapping ptr PAGE_SIZE l.prot, .leavedos 2]⟩
    else
      if ok then
        ⟨1, l.word, l.mem, [.e_invalidate_full ptr PAGE_SIZE,
          .mprotect_mapping ptr PAGE_SIZE PROT_NONE]⟩
      else
        ⟨0, l.word, l.mem, [.e_invalidate_full ptr PAGE_SIZE,
          .mprotect_mapping ptr PAGE_SIZE PROT_NONE]⟩
  else ⟨1, l.word, l.mem, []⟩

/-- `SetAttribsForPage(ptr, attr, old_attr_p)` with `*old_attr_p = old_attr` and
`mem_allocd = mem` on entry; `ok` is the answer of `mprotect_mapping`. -/
def SetAttribsForPage (cfg : Config) (mem ptr attr old_attr : Nat) (ok : Bool) :
    Except Fault PageRes :=
  match switch_com cfg mem attr old_attr with
  | .error f => .error f
  | .ok l => .ok (apply_change ptr ok (acc_bits attr (nx_bits attr old_attr (rw_bits attr old_attr l))))

/-- The loop of `SetPageAttributes(block, offs, attrs, count)`: `n` iterations
remain, `i` is the loop variable, `words` the attribute array of the block.
The result holds the returned value, the attribute array, `mem_allocd` and the
log. -/
def SetPageAttributes_loop (cfg : Config) (host : Host) (base : Nat) (offs : Int)
    (attrs : List Nat) :
    Nat → Nat → List Nat → Nat → List HostCall →
      Except Fault (Nat × List Nat × Nat × List HostCall)
  | 0, _, words, mem, log => .ok (1, words, mem, log)
  | n + 1, i, words, mem, log =>
    let idx : Int := offs / 4096 + (i : Int)
    if idx < 0 then .error Fault.out_of_bounds
    else
      match words[idx.toNat]?, attrs[i]? with
      | some w, some a =>
        if w = a then SetPageAttributes_loop cfg host base offs attrs n (i + 1) words mem log
        else if w &&& ATTR_SHR ≠ 0 ∧ a &&& 7 ≠ 3 then .ok (0, words, mem, log)
        else
          let ptr := u32_of_int ((base : Int) + offs + ((i <<< PAGE_SHIFT : Nat) : Int))
          match SetAttribsForPage cfg mem ptr a w (host.mprotect_ok ptr) with
          | .error f => .error f
          | .ok r =>
            if r.ret = 0 then
              .ok (0, words.set idx.toNat r.word, r.mem_allocd, log ++ r.log)
            else
              SetPageAttributes_loop cfg host base offs attrs n (i + 1)
                (words.set idx.toNat r.word) r.mem_allocd (log ++ r.log)
      | _, _ => .error Fault.out_of_bounds

/-- `SetPageAttributes(block, offs, attrs, count)`. -/
def SetPageAttributes (cfg : Config) (host : Host) (block : dpmi_pm_block) (offs : Int)
    (attrs : List Nat) (count : Int) (mem : Nat) (log : List HostCall) :
    Except Fault (Nat × List Nat × Nat × List HostCall) :=
  SetPageAttributes_loop cfg host block.base offs attrs count.toNat 0 block.attrs mem log

/-- The pages of `restore_page_protection` that get `PROT_NONE`. -/
def prot_none_pages (base : Nat) : List Nat → Nat → List HostCall
  | [], _ => []
  | w :: ws, i =>
    (if w &&& 1 = 0 then
      [HostCall.mprotect_mapping (u32 (base + (i <<< PAGE_SHIFT))) PAGE_SIZE PROT_NONE]
     else []) ++ prot_none_pages base ws (i + 1)

/-- `restore_page_protection(block)`. -/
def restore_page_protection (block : dpmi_pm_block) : Except Fault (List HostCall) :=
  if block.attrs.length < block.size >>> PAGE_SHIFT then .error Fault.out_of_bounds
  else .ok (prot_none_pages block.base (block.attrs.take (block.size >>> PAGE_SHIFT)) 0)

/-! ## Allocation -/

/-- `DPMI_malloc(root, size)`; the result is the position of the new block. -/
def DPMI_malloc (cfg : Config) (host : Host) (s : State) (size : Nat) :
    Except Fault (Option Nat × State) :=
  let size := PAGE_ALIGN size
  if size > u32 (sub32 cfg.dpmi_total_memory s.mem_allocd + dpmi_reserved_space) then
    .ok (none, s)
  else
    let root1 := alloc_pm_block s.root size
    match host.pool with
    | none => .ok (none, { s with root := free_pm_block root1 0 })
    | some realbase =>
      .ok (some 0,
          { s with
            root := root1.set 0
              { new_pm_block size with
                base := realbase, linear := false
                attrs := List.replicate (size >>> PAGE_SHIFT) 9
                handle := s.pm_block_handle_used, size := size }
            mem_allocd := u32 (s.mem_allocd + size)
            pm_block_handle_used := u32 (s.pm_block_handle_used + 1) })

/-- `DPMI_mallocLinear(root, base, size, committed)`. -/
def DPMI_mallocLinear (cfg : Config) (host : Host) (s : State) (base size : Nat)
    (committed : Bool) : Except Fault (Option Nat × State) :=
  let size := PAGE_ALIGN size
  if base = 4294967295 then .ok (none, s)
  else if base ≠ 0 ∧ base < cfg.lin_rsv_base then .ok (none, s)
  else if base ≠ 0 ∧ base + size > u32 (cfg.lin_rsv_base + cfg.lin_mem_rsv) then .ok (none, s)
  else if committed ∧ size > u32_of_int (dpmi_free_memory cfg s.mem_allocd) then .ok (none, s)
  else
    let root1 := alloc_pm_block s.root size
    match host.pool with
    | none => .ok (none, { s with root := free_pm_block root1 0 })
    | some realbase =>
      .ok (some 0,
          { s with
            root := root1.set 0
              { new_pm_block size with
                base := realbase, linear := true
                attrs := List.replicate (size >>> PAGE_SHIFT) (if committed then 9 else 8)
                handle := s.pm_block_handle_used, size := size }
            mem_allocd := if committed then u32 (s.mem_allocd + size) else s.mem_allocd
            pm_block_handle_used := u32 (s.pm_block_handle_used + 1)
            log := s.log ++ [HostCall.mprotect_mapping realbase size
              (if committed then PROT_READ ||| PROT_WRITE ||| PROT_EXEC else PROT_NONE)] })

/-- `DPMI_mapHWRam(root, hwaddr, size)`; `size` is not page aligned here. -/
def DPMI_mapHWRam (_cfg : Config) (host : Host) (s : State) (_hwaddr size : Nat) :
    Except Fault (Option Nat × State) :=
  match host.hwram with
  | none => .ok (none, s)
  | some vbase =>
    let root1 := alloc_pm_block s.root size
    .ok (some 0,
        { s with
          root := root1.set 0
            { new_pm_block size with
              base := vbase, linear := true, hwram := true
              attrs := List.replicate (size >>> PAGE_SHIFT) 9
              handle := s.pm_block_handle_used, size := size }
          pm_block_handle_used := u32 (s.pm_block_handle_used + 1) })

/-! ## Release -/

/-- The host calls of `do_unmap_shm(block)`; the caller clears `mapped`. -/
def do_unmap_shm (block : dpmi_pm_block) : List HostCall :=
  [HostCall.restore_mapping block.base block.size, HostCall.smfree false block.base]

/-- `DPMI_unmapHWRam(root, vbase)`. -/
def DPMI_unmapHWRam (_cfg : Config) (_host : Host) (s : State) (vbase : Nat) :
    Except Fault (Int × State) :=
  match lookup_pm_block_by_addr s.root vbase with
  | none => .ok (-1, s)
  | some (p, block) =>
    if block.hwram then .ok (0, { s with root := free_pm_block s.root p })
    else if block.shm then
      if block.shmname.isNone then
        .ok (0, { s with root := free_pm_block s.root p, log := s.log ++ do_unmap_shm block })
      else
        .ok (0, { s with
          root := s.root.set p { block with mapped := false }
          log := s.log ++ do_unmap_shm block })
    else .ok (-1, s)

/-- The accounting loop shared by `DPMI_free` and `finish_realloc`: `n` entries
of `ws` are visited; each committed private page gives one page back. -/
def account_pages : List Nat → Nat → Nat → Except Fault Nat
  | _, 0, mem => .ok mem
  | [], _ + 1, _ => .error Fault.out_of_bounds
  | w :: ws, n + 1, mem =>
    if w &&& 7 = 1 then
      if PAGE_SIZE ≤ mem then account_pages ws n (mem - PAGE_SIZE)
      else .error Fault.assertion
    else account_pages ws n mem

/-- The `restore_mapping` calls `DPMI_free` makes for the mapped pages of a
linear block. -/
def restore_mapped_pages (base : Nat) : List Nat → Nat → List HostCall
  | [], _ => []
  | w :: ws, i =>
    (if w &&& 3 = 2 then [HostCall.restore_mapping (u32 (base + i * PAGE_SIZE)) PAGE_SIZE]
     else []) ++ restore_mapped_pages base ws (i + 1)

/-- The branch of `DPMI_free` that hands the memory back to the host. -/
def free_release (block : dpmi_pm_block) : Except Fault (List HostCall) :=
  if block.shm then
    if block.mapped then .ok (do_unmap_shm block) else .ok []
  else if block.linear then
    if block.attrs.length < block.size >>> PAGE_SHIFT then .error Fault.out_of_bounds
    else
      .ok (restore_mapped_pages block.base (block.attrs.take (block.size >>> PAGE_SHIFT)) 0
        ++ [HostCall.mprotect_mapping block.base block.size (PROT_READ ||| PROT_WRITE),
            HostCall.smfree true block.base])
  else .ok [HostCall.smfree false block.base]

/-- `DPMI_free(root, handle)`. -/
def DPMI_free (_cfg : Config) (_host : Host) (s : State) (handle : Nat) :
    Except Fault (Int × State) :=
  match lookup_pm_block s.root handle with
  | none => .ok (-1, s)
  | some (p, block) =>
    if block.hwram then .ok (-1, s)
    else if block.shmname.isSome then .ok (-1, s)
    else
      match free_release block with
      | .error f => .error f
      | .ok calls =>
        match account_pages block.attrs (block.size >>> PAGE_SHIFT) s.mem_allocd with
        | .error f => .error f
        | .ok mem =>
          .ok (0, { s with
            root := free_pm_block s.root p
            mem_allocd := mem
            log := s.log ++ [HostCall.e_invalidate_full block.base block.size] ++ calls })

/-! ## Shared memory -/

/-- The size of the host shared-memory object `name`, if it exists. -/
def shm_lookup : List (String × Nat) → String → Option Nat
  | [], _ => none
  | o :: os, name => if o.1 = name then some o.2 else shm_lookup os name

/-- Removal of the host shared-memory object `name` (`shm_unlink`). -/
def shm_remove (objs : List (String × Nat)) (name : String) : List (String × Nat) :=
  objs.filter fun o => o.1 ≠ name

/-- The size `DPMI_mallocShared` maps: the page-aligned request, capped by the
size `st_size` of an object that exists already. -/
def shm_size (size st_size : Nat) : Nat :=
  if st_size ≠ 0 then (if size > st_size then st_size else size) else size

/-- The `ftruncate` of `DPMI_mallocShared`: an empty object gets the size asked
for, an existing one keeps its size. -/
def shm_resize (objs : List (String × Nat)) (shmname : String) (size st_size : Nat) :
    List (String × Nat) :=
  if st_size ≠ 0 then objs else (shmname, size) :: shm_remove objs shmname

/-- The `shm_open` of `DPMI_mallocShared` with its retry. The host namespace is
the list of objects: `shm_open` with `O_CREAT` opens an existing object or
creates an empty one, and with `O_EXCL` it fails with `EEXIST` on an existing
one, upon which the object is unlinked and the open repeated. The result is
the namespace afterwards and the calls logged. -/
def shm_open_create (objs : List (String × Nat)) (shmname : String) (excl : Bool) :
    List (String × Nat) × List HostCall :=
  if excl ∧ (shm_lookup objs shmname).isSome then
    ((shmname, 0) :: shm_remove objs shmname, [HostCall.shm_unlink shmname])
  else if (shm_lookup objs shmname).isSome then (objs, [])
  else ((shmname, 0) :: objs, [])

/-- `DPMI_mallocShared(root, name, size, flags)`; `excl` is `flags & SHM_EXCL`,
`noexec` is `flags & SHM_NOEXEC`. -/
def DPMI_mallocShared (_cfg : Config) (host : Host) (s : State) (name : String)
    (size : Nat) (excl _noexec : Bool) : Except Fault (Option Nat × State) :=
  if size = 0 then .ok (none, s)
  else if ¬ host.shm_open_ok then
    .ok (none, { s with log := s.log ++ [HostCall.leavedos 2] })
  else
    match shm_open_create s.shm_objects ("/dosemu_" ++ name) excl with
    | (objs, calls) =>
      match (shm_lookup objs ("/dosemu_" ++ name)).getD 0 with
      | st_size =>
        if st_size ≠ 0 ∧ st_size % PAGE_SIZE ≠ 0 then .error Fault.assertion
        else if st_size = 0 ∧ ¬ host.ftruncate_ok then
          .ok (none, { s with shm_objects := objs, log := s.log ++ calls })
        else
          match host.pool with
          | none =>
            .ok (none, { s with
              shm_objects := shm_resize objs ("/dosemu_" ++ name) (PAGE_ALIGN size) st_size
              log := s.log ++ calls })
          | some addr =>
            if ¬ host.mmap_ok then
              .ok (none, { s with
                shm_objects := shm_resize objs ("/dosemu_" ++ name) (PAGE_ALIGN size) st_size
                log := s.log ++ calls ++ [HostCall.leavedos 2] })
            else
              .ok (some 0,
                { s with
                  root := (alloc_pm_block s.root (shm_size (PAGE_ALIGN size) st_size)).set 0
                    { new_pm_block (shm_size (PAGE_ALIGN size) st_size) with
                      attrs := List.replicate
                        (shm_size (PAGE_ALIGN size) st_size >>> PAGE_SHIFT) (0x09 ||| ATTR_SHR)
                      base := addr, size := shm_size (PAGE_ALIGN size) st_size
                      shm := true, linear := true
                      handle := s.pm_block_handle_used
                      shmname := some name, rshmname := some ("/dosemu_" ++ name) }
                  pm_block_handle_used := u32 (s.pm_block_handle_used + 1)
                  shm_objects := shm_resize objs ("/dosemu_" ++ name) (PAGE_ALIGN size) st_size
                  log := s.log ++ calls })

/-- `DPMI_freeShared(root, handle, unlnk)`. -/
def DPMI_freeShared (_cfg : Config) (_host : Host) (s : State) (handle : Nat)
    (unlnk : Bool) : Except Fault (Int × State) :=
  match lookup_pm_block s.root handle with
  | none => .ok (-1, s)
  | some (p, ptr) =>
    if ptr.shmname.isNone then .ok (-1, s)
    else
      let log1 := if ptr.mapped then s.log ++ do_unmap_shm ptr else s.log
      .ok (0, { s with
        root := free_pm_block s.root p
        shm_objects :=
          if unlnk then shm_remove s.shm_objects (ptr.rshmname.getD "") else s.shm_objects
        log := if unlnk then log1 ++ [HostCall.shm_unlink (ptr.rshmname.getD "")] else log1 })

/-- `DPMI_freeShPartial(root, handle, unlnk)`. -/
def DPMI_freeShPartial (_cfg : Config) (_host : Host) (s : State) (handle : Nat)
    (unlnk : Bool) : Except Fault (Int × State) :=
  match lookup_pm_block s.root handle with
  | none => .ok (-1, s)
  | some (p, ptr) =>
    if ptr.shmname.isNone then .ok (-1, s)
    else
      let objs := if unlnk then shm_remove s.shm_objects (ptr.rshmname.getD "") else s.shm_objects
      let log1 := if unlnk then s.log ++ [HostCall.shm_unlink (ptr.rshmname.getD "")] else s.log
      if ptr.mapped then
        .ok (0, { s with
          root := s.root.set p { ptr with shmname := none, rshmname := none }
          shm_objects := objs, log := log1 })
      else
        .ok (0, { s with root := free_pm_block s.root p, shm_objects := objs, log := log1 })

/-! ## Resizing -/

/-- The assignment loop `for (i = lo; i < hi; i++) ws[i] = v`. -/
def fill (ws : List Nat) (lo hi v : Nat) : List Nat :=
  if lo < hi then ws.take lo ++ List.replicate (hi - lo) v ++ ws.drop hi else ws

/-- `finish_realloc(block, newsize, committed)`: the new attribute array and
the new value of `mem_allocd`. `npages` and `new_npages` are `int`. -/
def finish_realloc (block : dpmi_pm_block) (newsize : Nat) (committed : Bool) (mem : Nat) :
    Except Fault (List Nat × Nat) :=
  let npages := int32 (block.size >>> PAGE_SHIFT)
  let new_npages := int32 (newsize >>> PAGE_SHIFT)
  if newsize > block.size then
    .ok (fill (realloc_pm_block block.attrs newsize) npages.toNat new_npages.toNat
          (if committed then 9 else 8),
        if committed then u32 (mem + (newsize - block.size)) else mem)
  else
    match account_pages (block.attrs.drop new_npages.toNat) (npages - new_npages).toNat mem with
    | .error f => .error f
    | .ok mem1 => .ok (realloc_pm_block block.attrs newsize, mem1)

/-- `DPMI_reallocLinear(root, handle, newsize, committed)`; `newsize` is an
`unsigned long`. -/
def DPMI_reallocLinear (cfg : Config) (host : Host) (s : State) (handle newsize : Nat)
    (committed : Bool) : Except Fault (Option Nat × State) :=
  if newsize = 0 then .ok (none, s)
  else
    match lookup_pm_block s.root handle with
    | none => .ok (none, s)
    | some (p, block) =>
      if ¬ block.linear then .ok (none, s)
      else
        let newsize := PAGE_ALIGN64 newsize
        if newsize = block.size then .ok (some p, s)
        else if newsize > block.size ∧ committed ∧
            sub64 newsize block.size > u64_of_int (dpmi_free_memory cfg s.mem_allocd) then
          .ok (none, s)
        else
          let log1 := s.log ++ [HostCall.e_invalidate_full block.base block.size,
            HostCall.mprotect_mapping block.base block.size
              (PROT_READ ||| PROT_WRITE ||| PROT_EXEC)]
          match host.pool with
          | none =>
            match restore_page_protection block with
            | .error f => .error f
            | .ok calls => .ok (none, { s with log := log1 ++ calls })
          | some ptr =>
            match finish_realloc block newsize committed s.mem_allocd with
            | .error f => .error f
            | .ok (attrs, mem) =>
              let block1 := { block with attrs := attrs, base := ptr, size := u32 newsize }
              match restore_page_protection block1 with
              | .error f => .error f
              | .ok calls =>
                .ok (some p, { s with
                  root := s.root.set p block1
                  mem_allocd := mem
                  log := log1 ++ [HostCall.mprotect_mapping block1.base block1.size
                    (PROT_READ ||| PROT_WRITE ||| PROT_EXEC)] ++ calls })

/-- `DPMI_realloc(root, handle, newsize)`; `newsize` is an `unsigned int`. -/
def DPMI_realloc (cfg : Config) (host : Host) (s : State) (handle newsize : Nat) :
    Except Fault (Option Nat × State) :=
  if newsize = 0 then .ok (none, s)
  else
    match lookup_pm_block s.root handle with
    | none => .ok (none, s)
    | some (p, block) =>
      if block.linear then DPMI_reallocLinear cfg host s handle newsize true
      else
        let newsize := PAGE_ALIGN newsize
        if newsize = block.size then .ok (some p, s)
        else if newsize > block.size ∧
            sub32 newsize block.size > u32_of_int (dpmi_free_memory cfg s.mem_allocd) then
          .ok (none, s)
        else
          let log1 := s.log ++ [HostCall.e_invalidate_full block.base block.size,
            HostCall.mprotect_mapping block.base block.size
              (PROT_READ ||| PROT_WRITE ||| PROT_EXEC)]
          match host.pool with
          | none => .ok (none, { s with log := log1 })
          | some ptr =>
            match finish_realloc block newsize true s.mem_allocd with
            | .error f => .error f
            | .ok (attrs, mem) =>
              let block1 := { block with attrs := attrs, base := ptr, size := newsize }
              match restore_page_protection block1 with
              | .error f => .error f
              | .ok calls =>
                .ok (some p, { s with
                  root := s.root.set p block1
                  mem_allocd := mem
                  log := log1 ++ calls })

/-- The loop of `DPMI_freeAll`, run for at most `fuel` iterations; every
iteration works on the block at the head of the list. -/
def DPMI_freeAll_loop (cfg : Config) (host : Host) : Nat → State → Except Fault State
  | 0, s => .ok s
  | fuel + 1, s =>
    match s.root with
    | [] => .ok s
    | b :: _ =>
      if b.hwram then
        DPMI_freeAll_loop cfg host fuel { s with root := free_pm_block s.root 0 }
      else if b.shmname.isSome then
        match DPMI_freeShared cfg host s b.handle true with
        | .error f => .error f
        | .ok r => DPMI_freeAll_loop cfg host fuel r.2
      else
        match DPMI_free cfg host s b.handle with
        | .error f => .error f
        | .ok r => DPMI_freeAll_loop cfg host fuel r.2

/-- `DPMI_freeAll(root)`, with one iteration allowed per block of the list. -/
def DPMI_freeAll (cfg : Config) (host : Host) (s : State) : Except Fault State :=
  DPMI_freeAll_loop cfg host s.root.length s

/-- The loop `for (i = lo; i < hi; i++) { ws[i] &= ~3; ws[i] |= 2; }`. -/
def map_pages (ws : List Nat) (lo hi : Nat) : Except Fault (List Nat) :=
  if lo < hi then
    if hi ≤ ws.length then
      .ok (ws.take lo ++ ((ws.drop lo).take (hi - lo)).map (fun w => (w &&& 0xFFFC) ||| 2)
        ++ ws.drop hi)
    else .error Fault.out_of_bounds
  else .ok ws

/-- `DPMI_MapConventionalMemory(root, handle, offset, low_addr, cnt)`; the
loop variable is an `int` compared with an `unsigned long`. -/
def DPMI_MapConventionalMemory (_cfg : Config) (host : Host) (s : State)
    (handle offset low_addr cnt : Nat) : Except Fault (Int × State) :=
  match lookup_pm_block s.root handle with
  | none => .ok (-2, s)
  | some (p, block) =>
    let log1 := s.log ++ [HostCall.e_invalidate_full (u32 (block.base + offset))
      (u64 (cnt * PAGE_SIZE))]
    let log2 := log1 ++ [HostCall.alias_mapping (u32 (block.base + offset))
      (u64 (cnt * PAGE_SIZE)) (PROT_READ ||| PROT_WRITE ||| PROT_EXEC) low_addr]
    if ¬ host.alias_ok then .ok (-1, { s with log := log2 })
    else
      let i0 := int32 (offset / PAGE_SIZE)
      let hi := u64 (cnt + offset / PAGE_SIZE)
      if i0 < 0 then
        if u64_of_int i0 < hi then .error Fault.out_of_bounds
        else .ok (0, { s with log := log2 })
      else
        match map_pages block.attrs i0.toNat hi with
        | .error f => .error f
        | .ok attrs =>
          .ok (0, { s with root := s.root.set p { block with attrs := attrs }, log := log2 })

/-- `DPMI_SetPageAttributes(root, handle, offs, attrs, count)`. -/
def DPMI_SetPageAttributes (cfg : Config) (host : Host) (s : State) (handle : Nat)
    (offs : Int) (attrs : List Nat) (count : Int) : Except Fault (Int × State) :=
  match lookup_pm_block s.root handle with
  | none => .ok (0, s)
  | some (p, block) =>
    if ¬ block.linear ∧ cfg.no_null_checks ∧ offs = 0 ∧ count = 1 then .ok (0, s)
    else
      match SetPageAttributes cfg host block offs attrs count s.mem_allocd s.log with
      | .error f => .error f
      | .ok r =>
        .ok (if r.1 = 0 then 0 else 1,
          { s with
            root := s.root.set p { block with attrs := r.2.1 }
            mem_allocd := r.2.2.1
            log := r.2.2.2 })

/-- `DPMI_GetPageAttributes(root, handle, offs, attrs, count)`: the returned
value and the words written to the caller's array. -/
def DPMI_GetPageAttributes (_cfg : Config) (s : State) (handle : Nat) (offs : Int)
    (count : Int) : Except Fault (Int × List Nat) :=
  match lookup_pm_block s.root handle with
  | none => .ok (0, [])
  | some (_, block) =>
    if count = 0 then .ok (1, [])
    else if count < 0 ∨ offs / 4096 < 0 ∨ (block.attrs.length : Int) < offs / 4096 + count then
      .error Fault.out_of_bounds
    else
      .ok (1, ((block.attrs.drop (offs / 4096).toNat).take count.toNat).map
        fun w => w &&& 0xFFEF)

/-! ## Runs of the block manager -/

/-- One call of the interface of `dmemory.h`, with its arguments. -/
inductive Call where
  | malloc (size : Nat)
  | mallocLinear (base size : Nat) (committed : Bool)
  | mapHWRam (hwaddr size : Nat)
  | unmapHWRam (vbase : Nat)
  | free (handle : Nat)
  | mallocShared (name : String) (size : Nat) (excl noexec : Bool)
  | freeShared (handle : Nat) (unlnk : Bool)
  | freeShPartial (handle : Nat) (unlnk : Bool)
  | realloc (handle newsize : Nat)
  | reallocLinear (handle newsize : Nat) (committed : Bool)
  | freeAll
  | mapConventionalMemory (handle offset low_addr cnt : Nat)
  | setPageAttributes (handle : Nat) (offs : Int) (attrs : List Nat) (count : Int)
deriving DecidableEq, Repr

/-- The state a call leaves behind, whatever value it returns. -/
def step (cfg : Config) (host : Host) (s : State) : Call → Except Fault State
  | .malloc size => (DPMI_malloc cfg host s size).map Prod.snd
  | .mallocLinear base size committed =>
    (DPMI_mallocLinear cfg host s base size committed).map Prod.snd
  | .mapHWRam hwaddr size => (DPMI_mapHWRam cfg host s hwaddr size).map Prod.snd
  | .unmapHWRam vbase => (DPMI_unmapHWRam cfg host s vbase).map Prod.snd
  | .free handle => (DPMI_free cfg host s handle).map Prod.snd
  | .mallocShared name size excl noexec =>
    (DPMI_mallocShared cfg host s name size excl noexec).map Prod.snd
  | .freeShared handle unlnk => (DPMI_freeShared cfg host s handle unlnk).map Prod.snd
  | .freeShPartial handle unlnk => (DPMI_freeShPartial cfg host s handle unlnk).map Prod.snd
  | .realloc handle newsize => (DPMI_realloc cfg host s handle newsize).map Prod.snd
  | .reallocLinear handle newsize committed =>
    (DPMI_reallocLinear cfg host s handle newsize committed).map Prod.snd
  | .freeAll => DPMI_freeAll cfg host s
  | .mapConventionalMemory handle offset low_addr cnt =>
    (DPMI_MapConventionalMemory cfg host s handle offset low_addr cnt).map Prod.snd
  | .setPageAttributes handle offs attrs count =>
    (DPMI_SetPageAttributes cfg host s handle offs attrs count).map Prod.snd

/-- The calls of the accounting claim: general and linear allocation, free,
the two resize calls and the attribute setter. -/
def Call.core : Call → Prop
  | .malloc _ => True
  | .mallocLinear _ _ _ => True
  | .free _ => True
  | .realloc _ _ => True
  | .reallocLinear _ _ _ => True
  | .setPageAttributes _ _ _ _ => True
  | _ => False

/-- What the invariants assume of the pool primitive during a call:
`smrealloc` hands out no area of `2^31` bytes or more. A resize of that extent
is what the budget test of `DPMI_reallocLinear`, comparing an `unsigned long`
with the `int` of `dpmi_free_memory`, can let through unchecked. -/
def pool_contract (host : Host) : Call → Prop
  | .realloc _ newsize => host.pool.isSome → PAGE_ALIGN64 newsize < 2147483648
  | .reallocLinear _ newsize _ => host.pool.isSome → PAGE_ALIGN64 newsize < 2147483648
  | _ => True

/-- States reached from an empty root with the counter at `0` by calls taken
from `allowed`, the pool honouring `pool_contract`; a call that returns a
failure value is a step as well. -/
inductive ReachableBy (cfg : Config) (allowed : Call → Prop) : State → Prop where
  | init (h : Nat) (objs : List (String × Nat)) : ReachableBy cfg allowed ⟨[], 0, h, objs, []⟩
  | call {s s' : State} (host : Host) (c : Call) :
      ReachableBy cfg allowed s → allowed c → pool_contract host c →
      step cfg host s c = .ok s' → ReachableBy cfg allowed s'

/-- States reached by any calls of the interface. -/
def Reachable (cfg : Config) (s : State) : Prop := ReachableBy cfg (fun _ => True) s

/-- Number of pages of a block whose attribute word has commit-type 1. -/
def committed_pages (b : dpmi_pm_block) : Nat :=
  (b.attrs.filter fun w => w &&& 3 = 1).length

/-- Number of committed pages over all blocks of a root. -/
def committed_total (root : List dpmi_pm_block) : Nat :=
  (root.map committed_pages).sum

/-! ## Invariants -/

/-- Sum of the commit bits (bit 0) of a list of attribute words. -/
def commit_bits (ws : List Nat) : Nat := (ws.map fun w => w % 2).sum

/-- Bits 1 and 2 (second commit-type bit, shared marker) are clear in every
word of the list. -/
def low_bits_ok (ws : List Nat) : Prop := ∀ w ∈ ws, w % 8 < 2

/-- The call changed nothing but the log: same block list (hence the same
attribute words), same counters, same shared-memory objects. -/
def unchanged (s s' : State) : Prop :=
  s'.root = s.root ∧ s'.mem_allocd = s.mem_allocd ∧
    s'.pm_block_handle_used = s.pm_block_handle_used ∧ s'.shm_objects = s.shm_objects

/-! ## Sample configuration and states -/

/-- A configuration with a budget of 1 MB and a linear window of 256 MB above
the first megabyte and the HMA. -/
def cfg_demo : Config := ⟨0x100000, 0x110000, 0x10000000, false⟩

/-- A host on which every collaborator succeeds; the pool answers with the
area at `0x20000000`. -/
def host_demo : Host := ⟨some 0x20000000, fun _ => true, some 0xA0000, true, true, true, true⟩

/-- The empty root with the counter at `0`. -/
def demo_empty : State := ⟨[], 0, 0, [], []⟩

/-- The state after `DPMI_malloc` of three pages on the empty root. -/
def demo_three : State :=
  ⟨[{ handle := 0, size := 12288, base := 0x20000000, attrs := [9, 9, 9], mapped := true }],
    12288, 1, [], []⟩

/-- The state after page 1 of the block of `demo_three` was decommitted. -/
def demo_decommitted : State :=
  ⟨[{ handle := 0, size := 12288, base := 0x20000000, attrs := [9, 0, 9], mapped := true }],
    8192, 1, [],
    [HostCall.e_invalidate_full 536875008 4096, HostCall.mprotect_mapping 536875008 4096 0]⟩

/-- The state after `DPMI_mapHWRam` of one page on the empty root. -/
def demo_hwram : State :=
  ⟨[{ handle := 0, size := 4096, base := 0xA0000, attrs := [9], linear := true, hwram := true,
      mapped := true }], 0, 1, [], []⟩


/-- The state after `DPMI_mallocShared` of one page named `X` on the empty
root. -/
def demo_shared : State :=
  ⟨[{ handle := 0, size := 4096, base := 0x20000000, attrs := [13], linear := true, shm := true,
      shmname := some "X", rshmname := some "/dosemu_X", mapped := true }],
    0, 1, [("/dosemu_X", 4096)], []⟩

/-- A root with one general block of two pages, the second committed but
read-only (word 1). -/
def demo_two : State :=
  ⟨[{ handle := 0, size := 8192, base := 0x20000000, attrs := [9, 1], mapped := true }],
    8192, 1, [], []⟩

/-- The block of `demo_three`. -/
def demo_three_block : dpmi_pm_block :=
  { handle := 0, size := 12288, base := 0x20000000, attrs := [9, 9, 9], mapped := true }

/-- The block of `demo_hwram`. -/
def demo_hwram_block : dpmi_pm_block :=
  { handle := 0, size := 4096, base := 0xA0000, attrs := [9], linear := true, hwram := true,
    mapped := true }

/-- The block of `demo_shared`. -/
def demo_shared_block : dpmi_pm_block :=
  { handle := 0, size := 4096, base := 0x20000000, attrs := [13], linear := true, shm := true,
    shmname := some "X", rshmname := some "/dosemu_X", mapped := true }

/-- The state after `DPMI_mapHWRam` of 100 bytes on the empty root. -/
def demo_hwram_small : State :=
  ⟨[{ handle := 0, size := 100, base := 0xA0000, attrs := [], linear := true, hwram := true,
      mapped := true }], 0, 1, [], []⟩

/-- A host like `host_demo` whose pool answers with the area at `0x20001000`. -/
def host_demo2 : Host := ⟨some 0x20001000, fun _ => true, some 0xA0000, true, true, true, true⟩

/-- The state after a second, exclusive `DPMI_mallocShared` of the name `X`
on `demo_shared`. -/
def demo_shared_twice : State :=
  ⟨[{ handle := 1, size := 4096, base := 0x20001000, attrs := [13], linear := true, shm := true,
      shmname := some "X", rshmname := some "/dosemu_X", mapped := true },
    demo_shared_block],
    0, 2, [("/dosemu_X", 4096)], [HostCall.shm_unlink "/dosemu_X"]⟩

/-- The state after `DPMI_freeShPartial` on the block of `demo_shared`. -/
def demo_shared_unnamed : State :=
  ⟨[{ handle := 0, size := 4096, base := 0x20000000, attrs := [13], linear := true, shm := true,
      shmname := none, rshmname := none, mapped := true }],
    0, 1, [("/dosemu_X", 4096)], []⟩

/-! ## Shape of the block list along a run -/

/-- The address ranges `[a, a + sa)` and `[b, b + sb)` do not meet. -/
def ranges_disjoint (a sa b sb : Nat) : Prop :=
  sa = 0 ∨ sb = 0 ∨ a + sa ≤ b ∨ b + sb ≤ a

/-- The size a call asks of the pool primitive, and the position of the block
whose area is being resized, if any; `none` for a call that does not consult
the pool. -/
def pool_request (s : State) : Call → Option (Nat × Option Nat)
  | .malloc size => some (PAGE_ALIGN size, none)
  | .mallocLinear _ size _ => some (PAGE_ALIGN size, none)
  | .mallocShared name size excl _ =>
    some (shm_size (PAGE_ALIGN size)
      ((shm_lookup (shm_open_create s.shm_objects ("/dosemu_" ++ name) excl).1
        ("/dosemu_" ++ name)).getD 0), none)
  | .realloc handle newsize =>
    match lookup_pm_block s.root handle with
    | none => none
    | some (p, b) =>
      if b.linear then some (PAGE_ALIGN64 newsize, some p) else some (PAGE_ALIGN newsize, some p)
  | .reallocLinear handle newsize _ =>
    match lookup_pm_block s.root handle with
    | none => none
    | some (p, _) => some (PAGE_ALIGN64 newsize, some p)
  | _ => none

/-- The pool hands out no overlapping areas: the area it grants to a call does
not meet the range of any mapped pool-backed block of the root, the block
being resized apart. -/
def pool_fresh (host : Host) (s : State) (c : Call) : Prop :=
  ∀ a sz skip, host.pool = some a → pool_request s c = some (sz, skip) →
    ∀ i x, s.root[i]? = some x → some i ≠ skip → x.mapped = true → x.hwram = false →
      ranges_disjoint a sz x.base x.size

/-- The ways one call changes the block list and the handle counter: blocks
are dropped; one block is rewritten in place, keeping its extent; one block is
moved to the area the pool granted; a block is put at the head. -/
inductive root_step (host : Host) (c : Call) (s s' : State) : Prop where
  | shrink : List.Sublist s'.root s.root →
      s'.pm_block_handle_used = s.pm_block_handle_used → root_step host c s s'
  | modify (p : Nat) (b b' : dpmi_pm_block) : s.root[p]? = some b →
      s'.root = s.root.set p b' → b'.handle = b.handle → b'.hwram = b.hwram →
      (b'.mapped = true → b.mapped = true) → b'.base = b.base → b'.size = b.size →
      s'.pm_block_handle_used = s.pm_block_handle_used → root_step host c s s'
  | resize (p : Nat) (b b' : dpmi_pm_block) (sz : Nat) : s.root[p]? = some b →
      s'.root = s.root.set p b' → b'.handle = b.handle → b'.hwram = b.hwram →
      host.pool = some b'.base → pool_request s c = some (sz, some p) → b'.size ≤ sz →
      s'.pm_block_handle_used = s.pm_block_handle_used → root_step host c s s'
  | create (b : dpmi_pm_block) : s'.root = b :: s.root →
      b.handle = s.pm_block_handle_used →
      s'.pm_block_handle_used = u32 (s.pm_block_handle_used + 1) →
      (b.hwram = true ∨ (host.pool = some b.base ∧ pool_request s c = some (b.size, none))) →
      root_step host c s s'

/-- States reached from an empty root by calls each of which meets the side
condition `side`. -/
inductive ReachableWith (cfg : Config) (side : State → Host → Call → Prop) : State → Prop where
  | init (h : Nat) (objs : List (String × Nat)) : ReachableWith cfg side ⟨[], 0, h, objs, []⟩
  | call {s s' : State} (host : Host) (c : Call) :
      ReachableWith cfg side s → side s host c →
      step cfg host s c = .ok s' → ReachableWith cfg side s'

/-- The handle counter does not wrap in the next call. -/
def no_wrap (s : State) (_host : Host) (_c : Call) : Prop :=
  s.pm_block_handle_used < 4294967295

/-- Two blocks that are both mapped and pool-backed have disjoint ranges. -/
def apart (a b : dpmi_pm_block) : Prop :=
  a.mapped = true → b.mapped = true → a.hwram = false → b.hwram = false →
    ranges_disjoint a.base a.size b.base b.size

/-- The state after `DPMI_mapHWRam` of the same page twice. -/
def demo_hwram_twice : State :=
  ⟨[{ handle := 1, size := 4096, base := 0xA0000, attrs := [9], linear := true, hwram := true,
      mapped := true }, demo_hwram_block], 0, 2, [], []⟩

/-- A general block of one committed page with handle `h` at address `base`. -/
def demo_page_block (h base : Nat) : dpmi_pm_block :=
  { handle := h, size := 4096, base := base, attrs := [9], mapped := true }

/-- A root holding the one-page block of handle `0`, with the counter at `c`. -/
def demo_kept (c : Nat) (log : List HostCall) : State :=
  ⟨[demo_page_block 0 0x20000000], 4096, c, [], log⟩

/-- The root of `demo_kept` with a second one-page block of handle `c` at its
head. -/
def demo_kept_two (c c' : Nat) (log : List HostCall) : State :=
  ⟨[demo_page_block c 0x20001000, demo_page_block 0 0x20000000], 8192, c', [], log⟩

/-! ## Host protection -/

/-- Modelled from the spec: the host protection an attribute word prescribes
for its page: no access when the commit bit is clear, otherwise read, with
write when the read-write bit is set and execute when the no-execute bit is
clear. -/
def word_prot (w : Nat) : Nat :=
  if w &&& 1 = 0 then PROT_NONE
  else PROT_READ ||| (if w &&& 8 ≠ 0 then PROT_WRITE else 0) |||
    (if w &&& 0x80 = 0 then PROT_EXEC else 0)

/-- The host protection of the page at `addr` after the calls of a log: the
one given by the last `mprotect_mapping` whose range holds the page; `cur` is
the protection before the log. -/
def page_prot (addr : Nat) : List HostCall → Option Nat → Option Nat
  | [], cur => cur
  | .mprotect_mapping a sz p :: cs, cur =>
    page_prot addr cs (if a ≤ addr ∧ addr < a + sz then some p else cur)
  | _ :: cs, cur => page_prot addr cs cur

/-- The state after the page of `demo_kept 1 []` was made read-only. -/
def demo_readonly : State :=
  ⟨[{ handle := 0, size := 4096, base := 0x20000000, attrs := [1], mapped := true }],
    4096, 1, [],
    [HostCall.e_invalidate_full 0x20000000 4096, HostCall.mprotect_mapping 0x20000000 4096 5]⟩

/-- The state after `DPMI_realloc` of the block of `demo_readonly` to two
pages. -/
def demo_readonly_grown : State :=
  ⟨[{ handle := 0, size := 8192, base := 0x20000000, attrs := [1, 9], mapped := true }],
    8192, 1, [],
    [HostCall.e_invalidate_full 0x20000000 4096, HostCall.mprotect_mapping 0x20000000 4096 5,
     HostCall.e_invalidate_full 0x20000000 4096, HostCall.mprotect_mapping 0x20000000 4096 7]⟩

/-- The state after `DPMI_MapConventionalMemory` of the page of
`demo_kept 1 []` onto the conventional address `0xA0000`. -/
def demo_mapped : State :=
  ⟨[{ handle := 0, size := 4096, base := 0x20000000, attrs := [10], mapped := true }],
    4096, 1, [],
    [HostCall.e_invalidate_full 0x20000000 4096,
     HostCall.alias_mapping 0x20000000 4096 7 0xA0000]⟩

/-- The state after `DPMI_free` of the block of `demo_mapped`. -/
def demo_mapped_freed : State :=
  ⟨[], 4096, 1, [],
    [HostCall.e_invalidate_full 0x20000000 4096,
     HostCall.alias_mapping 0x20000000 4096 7 0xA0000,
     HostCall.e_invalidate_full 0x20000000 4096, HostCall.smfree false 0x20000000]⟩

/-! ## The file backend of the mapping library -/

/-- `alias_mapping_file(cap, target, mapsize, protect, source)` up to its range
check: `none` is the rejection (`errno = EINVAL`, result `MAP_FAILED`, no
`mmap`), otherwise the file offset and the size handed to `mmap`. `mpool` and
`source` are addresses and `mapsize` a `size_t`; `offs` is an `off_t` and the
sum `offs + mapsize` is taken in `unsigned long`. -/
def alias_mapping_file (mpool_numpages mpool source mapsize : Nat) : Option (Nat × Nat) :=
  let offs : Int := (source : Int) - (mpool : Int)
  if offs < 0 ∨ u64 (u64_of_int offs + mapsize) ≥ mpool_numpages * PAGE_SIZE then none
  else some (offs.toNat, mapsize)

/-- The pages `DPMI_freeAll` gives back for a block: none for a hardware-RAM
block or a block with a shared name, otherwise the private committed pages
among the first `size >> PAGE_SHIFT` attribute words. -/
def freeAll_pages (b : dpmi_pm_block) : Nat :=
  if b.hwram = true ∨ b.shmname.isSome = true then 0
  else ((b.attrs.take (b.size / 4096)).filter fun w => w &&& 7 = 1).length

/-- The pages `DPMI_freeAll` gives back for a root. -/
def freeAll_total (root : List dpmi_pm_block) : Nat := (root.map freeAll_pages).sum

/-- A root with a hardware-RAM block, a shared block under its name, a shared
block that was partially freed and a general block of one committed page. -/
def demo_mixed : State :=
  ⟨[{ handle := 3, size := 4096, base := 0xA0000, attrs := [9], linear := true, hwram := true,
      mapped := true },
    { handle := 2, size := 4096, base := 0x20002000, attrs := [13], linear := true, shm := true,
      shmname := some "X", rshmname := some "/dosemu_X", mapped := true },
    { handle := 1, size := 4096, base := 0x20001000, attrs := [13], linear := true, shm := true,
      mapped := true },
    demo_page_block 0 0x20000000],
    4096, 4, [("/dosemu_X", 4096)], []⟩

/-- The state after `DPMI_malloc` of one page and `DPMI_mapHWRam` of one page
on the empty root. -/
def demo_with_hwram : State :=
  ⟨[{ handle := 1, size := 4096, base := 0xA0000, attrs := [9], linear := true, hwram := true,
      mapped := true }, demo_page_block 0 0x20000000], 4096, 2, [], []⟩

/-- The state after the page of the hardware-RAM block of `demo_with_hwram`
was decommitted: the counter is `0` although the general block still has its
committed page. -/
def demo_undercounted : State :=
  ⟨[{ handle := 1, size := 4096, base := 0xA0000, attrs := [8], linear := true, hwram := true,
      mapped := true }, demo_page_block 0 0x20000000], 0, 2, [],
    [HostCall.e_invalidate_full 0xA0000 4096, HostCall.mprotect_mapping 0xA0000 4096 0]⟩

/-- The handles a call hands out. The counter moves only in
`block->handle = pm_block_handle_used++`, so a handle is handed out exactly
when the counter changes, and it is the value the counter had. -/
def handed_out (s s' : State) : List Nat :=
  if s'.pm_block_handle_used = s.pm_block_handle_used then [] else [s.pm_block_handle_used]

/-- Runs from an empty root by calls each of which meets the side condition
`side`, together with the handles handed out so far, the latest first. -/
inductive RunWith (cfg : Config) (side : State → Host → Call → Prop) :
    State → List Nat → Prop where
  | init (h : Nat) (objs : List (String × Nat)) : RunWith cfg side ⟨[], 0, h, objs, []⟩ []
  | call {s s' : State} {hs : List Nat} (host : Host) (c : Call) :
      RunWith cfg side s hs → side s host c →
      step cfg host s c = .ok s' → RunWith cfg side s' (handed_out s s' ++ hs)

theorem and7 (x : Nat) : x &&& 7 = x % 8 := Nat.and_pow_two_sub_one_eq_mod x 3

theorem and3 (x : Nat) : x &&& 3 = x % 4 := Nat.and_pow_two_sub_one_eq_mod x 2

theorem and1 (x : Nat) : x &&& 1 = x % 2 := Nat.and_pow_two_sub_one_eq_mod x 1

theorem mod_pow_and (k x m : Nat) : (x &&& m) % 2 ^ k = (x % 2 ^ k) &&& (m % 2 ^ k) := by
  apply Nat.eq_of_testBit_eq; intro i
  simp only [Nat.testBit_mod_two_pow, Nat.testBit_and]
  cases decide (i < k) <;> simp

theorem mod_pow_or (k x m : Nat) : (x ||| m) % 2 ^ k = (x % 2 ^ k) ||| (m % 2 ^ k) := by
  apply Nat.eq_of_testBit_eq; intro i
  simp only [Nat.testBit_mod_two_pow, Nat.testBit_or]
  cases decide (i < k) <;> simp

theorem mod8_and (x m : Nat) : (x &&& m) % 8 = (x % 8) &&& (m % 8) := mod_pow_and 3 x m

theorem mod8_or (x m : Nat) : (x ||| m) % 8 = (x % 8) ||| (m % 8) := mod_pow_or 3 x m

theorem mod8_and7 (x : Nat) : (x % 8) &&& 7 = x % 8 := by rw [and7, Nat.mod_mod]

theorem shr_page (x : Nat) : x >>> PAGE_SHIFT = x / 4096 := by
  simp [PAGE_SHIFT, Nat.shiftRight_eq_div_pow]

theorem shl_page (x : Nat) : x <<< PAGE_SHIFT = x * 4096 := by
  simp [PAGE_SHIFT, Nat.shiftLeft_eq]

/-! ## `SetAttribsForPage` -/

theorem rw_bits_word (attr old_attr : Nat) (l : Locals) :
    (rw_bits attr old_attr l).word % 8 = l.word % 8 := by
  unfold rw_bits
  split_ifs <;> simp [mod8_and, mod8_or, mod8_and7]

theorem rw_bits_mem (attr old_attr : Nat) (l : Locals) :
    (rw_bits attr old_attr l).mem = l.mem := by
  unfold rw_bits
  split_ifs <;> rfl

theorem nx_bits_word (attr old_attr : Nat) (l : Locals) :
    (nx_bits attr old_attr l).word % 8 = l.word % 8 := by
  unfold nx_bits
  split_ifs <;> simp [mod8_and, mod8_or, mod8_and7]

theorem nx_bits_mem (attr old_attr : Nat) (l : Locals) :
    (nx_bits attr old_attr l).mem = l.mem := by
  unfold nx_bits
  split_ifs <;> rfl

theorem acc_bits_word (attr : Nat) (l : Locals) :
    (acc_bits attr l).word % 8 = l.word % 8 := by
  unfold acc_bits
  split_ifs <;> simp [mod8_and, mod8_or, mod8_and7]

theorem acc_bits_mem (attr : Nat) (l : Locals) : (acc_bits attr l).mem = l.mem := by
  unfold acc_bits
  split_ifs <;> rfl

theorem apply_change_word (ptr : Nat) (ok : Bool) (l : Locals) :
    (apply_change ptr ok l).word = l.word := by
  unfold apply_change
  split_ifs <;> rfl

theorem apply_change_mem (ptr : Nat) (ok : Bool) (l : Locals) :
    (apply_change ptr ok l).mem_allocd = l.mem := by
  unfold apply_change
  split_ifs <;> rfl

/-- The low three bits of the word and the counter are settled by the
`switch (com)`. -/
theorem SetAttribsForPage_switch {cfg : Config} {mem ptr attr old_attr : Nat} {ok : Bool}
    {r : PageRes} (h : SetAttribsForPage cfg mem ptr attr old_attr ok = .ok r) :
    ∃ l, switch_com cfg mem attr old_attr = .ok l ∧ r.word % 8 = l.word % 8 ∧
      r.mem_allocd = l.mem := by
  unfold SetAttribsForPage at h
  cases hs : switch_com cfg mem attr old_attr with
  | error f => rw [hs] at h; cases h
  | ok l =>
    rw [hs] at h
    injection h with h
    subst h
    exact ⟨l, rfl, by
      rw [apply_change_word, acc_bits_word, nx_bits_word, rw_bits_word], by
      rw [apply_change_mem, acc_bits_mem, nx_bits_mem, rw_bits_mem]⟩

theorem free_memory_page {cfg : Config} {mem : Nat} (hT : cfg.dpmi_total_memory < 4294967296)
    (h : ¬ dpmi_free_memory cfg mem < (PAGE_SIZE : Int)) :
    mem + 4096 ≤ cfg.dpmi_total_memory := by
  unfold dpmi_free_memory int32 sub32 PAGE_SIZE at h
  split_ifs at h <;> omega

/-- The `switch (com)` moves the counter by one page exactly when it moves the
commit bit, and leaves the low three bits `0`, `1` or as they were. -/
theorem switch_com_account {cfg : Config} {mem attr old_attr : Nat} {l : Locals}
    (hT : cfg.dpmi_total_memory < 4294967296)
    (h : switch_com cfg mem attr old_attr = .ok l) :
    l.mem + 4096 * (old_attr % 2) = mem + 4096 * (l.word % 2) ∧
    (l.word % 8 = 0 ∨ l.word % 8 = 1 ∨ l.word % 8 = old_attr % 8) ∧
    (l.mem ≤ mem ∨ l.mem ≤ cfg.dpmi_total_memory) := by
  unfold switch_com at h
  simp only [and3, and1] at h
  have h0 : (old_attr &&& 65528) % 8 = 0 := by simp [mod8_and]
  have h1 : ((old_attr &&& 65528) ||| 1) % 8 = 1 := by simp [mod8_and, mod8_or]
  have hp := @free_memory_page cfg mem hT
  simp only [PAGE_SIZE] at hp h
  split_ifs at h with c0 o1 hm c1 o0 hf c2 <;> cases h <;>
    (dsimp only; try simp only [u32]
     all_goals (first | omega | simp))


/-! ## Lists of blocks and of words -/

theorem sum_map_set {α : Type} (f : α → Nat) :
    ∀ (l : List α) (k : Nat) (a a' : α), l[k]? = some a →
      ((l.set k a').map f).sum + f a = (l.map f).sum + f a'
  | [], _, _, _, h => by simp at h
  | x :: xs, 0, a, a', h => by
    simp at h; subst h; simp; omega
  | x :: xs, k + 1, a, a', h => by
    simp at h
    have := sum_map_set f xs k a a' h
    simp only [List.set_cons_succ, List.map_cons, List.sum_cons]; omega

theorem lookup_pm_block_some :
    ∀ (root : List dpmi_pm_block) (h p : Nat) (b : dpmi_pm_block),
      lookup_pm_block root h = some (p, b) → root[p]? = some b ∧ b.handle = h
  | [], _, _, _, hl => by simp [lookup_pm_block] at hl
  | x :: xs, h, p, b, hl => by
    unfold lookup_pm_block at hl
    split_ifs at hl with hx
    · cases hl; exact ⟨by simp, hx⟩
    · cases hr : lookup_pm_block xs h with
      | none => rw [hr] at hl; cases hl
      | some r =>
        rw [hr] at hl
        obtain ⟨q, c⟩ := r
        cases hl
        have := lookup_pm_block_some xs h q c hr
        simpa using this

theorem mem_of_getElem? {α : Type} {l : List α} {k : Nat} {a : α} (h : l[k]? = some a) :
    a ∈ l := by
  rw [List.getElem?_eq_some_iff] at h
  obtain ⟨hk, rfl⟩ := h
  exact List.getElem_mem hk

theorem mem_set_cases {α : Type} {l : List α} {k : Nat} {a x : α} (h : x ∈ l.set k a) :
    x = a ∨ x ∈ l := by
  rcases List.mem_or_eq_of_mem_set h with h | h
  · exact Or.inr h
  · exact Or.inl h

theorem commit_bits_set {ws : List Nat} {k w : Nat} (w' : Nat) (h : ws[k]? = some w) :
    commit_bits (ws.set k w') + w % 2 = commit_bits ws + w' % 2 :=
  sum_map_set (fun w => w % 2) ws k w w' h

theorem low_bits_ok_set {ws : List Nat} {k w' : Nat} (h : low_bits_ok ws) (hw : w' % 8 < 2) :
    low_bits_ok (ws.set k w') := by
  intro x hx
  rcases mem_set_cases hx with rfl | hx
  · exact hw
  · exact h x hx
/-- One page through `SetAttribsForPage`: the counter follows the commit bit. -/
theorem SetAttribsForPage_account {cfg : Config} {mem ptr attr old_attr : Nat} {ok : Bool}
    {r : PageRes} (hT : cfg.dpmi_total_memory < 4294967296)
    (h : SetAttribsForPage cfg mem ptr attr old_attr ok = .ok r) :
    r.mem_allocd + 4096 * (old_attr % 2) = mem + 4096 * (r.word % 2) ∧
    (r.word % 8 = 0 ∨ r.word % 8 = 1 ∨ r.word % 8 = old_attr % 8) ∧
    (r.mem_allocd ≤ mem ∨ r.mem_allocd ≤ cfg.dpmi_total_memory) := by
  obtain ⟨l, hl, hw, hm⟩ := SetAttribsForPage_switch h
  have := switch_com_account hT hl
  omega

theorem SetPageAttributes_loop_inv (cfg : Config) (hT : cfg.dpmi_total_memory < 4294967296)
    (host : Host) (base : Nat) (offs : Int) (attrs : List Nat) :
    ∀ (n i : Nat) (words : List Nat) (mem : Nat) (log : List HostCall)
      (r : Nat × List Nat × Nat × List HostCall),
      SetPageAttributes_loop cfg host base offs attrs n i words mem log = .ok r →
      r.2.1.length = words.length ∧
      (r.2.2.1 ≤ mem ∨ r.2.2.1 ≤ cfg.dpmi_total_memory) ∧
      (low_bits_ok words → low_bits_ok r.2.1 ∧
        r.2.2.1 + 4096 * commit_bits words = mem + 4096 * commit_bits r.2.1) := by
  intro n
  induction n with
  | zero =>
    intro i words mem log r h
    simp only [SetPageAttributes_loop] at h
    cases h
    exact ⟨rfl, Or.inl (Nat.le_refl _), fun hl => ⟨hl, rfl⟩⟩
  | succ n ih =>
    intro i words mem log r h
    simp only [SetPageAttributes_loop] at h
    split_ifs at h with hneg
    split at h
    · rename_i w a hw ha
      split_ifs at h with heq hshr
      · exact ih _ _ _ _ _ h
      · cases h
        exact ⟨rfl, Or.inl (Nat.le_refl _), fun hl => ⟨hl, rfl⟩⟩
      · split at h
        · cases h
        · rename_i pr hpr
          have hacc := SetAttribsForPage_account hT hpr
          have hset := commit_bits_set pr.word hw
          split_ifs at h with hret
          · cases h
            dsimp only
            refine ⟨by simp, by omega, fun hl => ⟨?_, by omega⟩⟩
            have := hl w (mem_of_getElem? hw)
            exact low_bits_ok_set hl (by omega)
          · obtain ⟨h1, h2, h3⟩ := ih _ _ _ _ _ h
            refine ⟨by simpa using h1, by omega, fun hl => ?_⟩
            have := hl w (mem_of_getElem? hw)
            obtain ⟨h4, h5⟩ := h3 (low_bits_ok_set hl (by omega))
            exact ⟨h4, by omega⟩
    · cases h
/-! ## Arithmetic of the budget checks -/

theorem PAGE_ALIGN_spec (x : Nat) :
    PAGE_ALIGN x % 4096 = 0 ∧ PAGE_ALIGN x < 4294967296 ∧
      PAGE_ALIGN x / 4096 * 4096 = PAGE_ALIGN x := by
  unfold PAGE_ALIGN PAGE_SIZE
  omega

theorem u32_free_le (cfg : Config) (mem : Nat) (hT : cfg.dpmi_total_memory < 4294967296) :
    u32_of_int (dpmi_free_memory cfg mem) + mem ≤ max cfg.dpmi_total_memory mem := by
  unfold u32_of_int dpmi_free_memory int32 sub32
  split_ifs <;> omega

theorem u64_free_le (cfg : Config) (mem d : Nat) (hT : cfg.dpmi_total_memory < 4294967296)
    (hd : d < 2147483648) (h : d ≤ u64_of_int (dpmi_free_memory cfg mem)) :
    d + mem ≤ max cfg.dpmi_total_memory mem := by
  unfold u64_of_int dpmi_free_memory int32 sub32 at h
  split_ifs at h <;> omega

theorem malloc_budget {cfg : Config} {mem size : Nat}
    (hTR : cfg.dpmi_total_memory + dpmi_reserved_space < 4294967296)
    (hm : mem ≤ cfg.dpmi_total_memory + dpmi_reserved_space)
    (h : ¬ size > u32 (sub32 cfg.dpmi_total_memory mem + dpmi_reserved_space)) :
    mem + size ≤ cfg.dpmi_total_memory + dpmi_reserved_space := by
  unfold u32 sub32 dpmi_reserved_space at *
  omega
/-! ## Allocation -/

/-- The block `DPMI_malloc` links in when it succeeds. -/
theorem DPMI_malloc_cases {cfg : Config} {host : Host} {s s' : State} {size : Nat}
    {r : Option Nat} (h : DPMI_malloc cfg host s size = .ok (r, s')) :
    (r = none ∧ s' = s) ∨
    (∃ realbase, host.pool = some realbase ∧ r = some 0 ∧
      ¬ PAGE_ALIGN size > u32 (sub32 cfg.dpmi_total_memory s.mem_allocd + dpmi_reserved_space) ∧
      s' = { s with
        root := { handle := s.pm_block_handle_used, size := PAGE_ALIGN size, base := realbase,
                  attrs := List.replicate (PAGE_ALIGN size / 4096) 9, mapped := true } :: s.root
        mem_allocd := u32 (s.mem_allocd + PAGE_ALIGN size)
        pm_block_handle_used := u32 (s.pm_block_handle_used + 1) }) := by
  unfold DPMI_malloc at h
  simp only [alloc_pm_block, free_pm_block, new_pm_block, shr_page] at h
  split_ifs at h with hb
  · cases h; exact Or.inl ⟨rfl, rfl⟩
  · split at h
    · cases h; exact Or.inl ⟨rfl, rfl⟩
    · rename_i realbase hp
      cases h
      exact Or.inr ⟨realbase, hp, rfl, hb, rfl⟩

theorem DPMI_malloc_bound {cfg : Config} {host : Host} {s s' : State} {size : Nat}
    {r : Option Nat}
    (hTR : cfg.dpmi_total_memory + dpmi_reserved_space < 4294967296)
    (hm : s.mem_allocd ≤ cfg.dpmi_total_memory + dpmi_reserved_space)
    (h : DPMI_malloc cfg host s size = .ok (r, s')) :
    s'.mem_allocd ≤ cfg.dpmi_total_memory + dpmi_reserved_space := by
  rcases DPMI_malloc_cases h with ⟨_, rfl⟩ | ⟨realbase, _, _, hb, rfl⟩
  · exact hm
  · have := malloc_budget hTR hm hb
    simp only [u32]; omega

/-- The block `DPMI_mallocLinear` links in when it succeeds. -/
theorem DPMI_mallocLinear_cases {cfg : Config} {host : Host} {s s' : State} {base size : Nat}
    {committed : Bool} {r : Option Nat}
    (h : DPMI_mallocLinear cfg host s base size committed = .ok (r, s')) :
    (r = none ∧ s' = s) ∨
    (∃ realbase, host.pool = some realbase ∧ r = some 0 ∧
      ¬ (committed ∧ PAGE_ALIGN size > u32_of_int (dpmi_free_memory cfg s.mem_allocd)) ∧
      ¬ (base ≠ 0 ∧ base < cfg.lin_rsv_base) ∧
      ¬ (base ≠ 0 ∧ base + PAGE_ALIGN size > u32 (cfg.lin_rsv_base + cfg.lin_mem_rsv)) ∧
      s' = { s with
        root := { handle := s.pm_block_handle_used, size := PAGE_ALIGN size, base := realbase,
                  attrs := List.replicate (PAGE_ALIGN size / 4096) (if committed then 9 else 8),
                  linear := true, mapped := true } :: s.root
        mem_allocd := if committed then u32 (s.mem_allocd + PAGE_ALIGN size) else s.mem_allocd
        pm_block_handle_used := u32 (s.pm_block_handle_used + 1)
        log := s.log ++ [HostCall.mprotect_mapping realbase (PAGE_ALIGN size)
          (if committed then PROT_READ ||| PROT_WRITE ||| PROT_EXEC else PROT_NONE)] }) := by
  unfold DPMI_mallocLinear at h
  simp only [alloc_pm_block, free_pm_block, new_pm_block, shr_page] at h
  split at h
  · cases h; exact Or.inl ⟨rfl, rfl⟩
  split at h
  · cases h; exact Or.inl ⟨rfl, rfl⟩
  split at h
  · cases h; exact Or.inl ⟨rfl, rfl⟩
  split at h
  · cases h; exact Or.inl ⟨rfl, rfl⟩
  rename_i h1 h2 h3 h4
  split at h
  · cases h; exact Or.inl ⟨rfl, rfl⟩
  · rename_i realbase hp
    cases h
    exact Or.inr ⟨realbase, hp, rfl, h4, h2, h3, rfl⟩

theorem DPMI_mallocLinear_bound {cfg : Config} {host : Host} {s s' : State} {base size : Nat}
    {committed : Bool} {r : Option Nat}
    (hTR : cfg.dpmi_total_memory + dpmi_reserved_space < 4294967296)
    (hm : s.mem_allocd ≤ cfg.dpmi_total_memory + dpmi_reserved_space)
    (h : DPMI_mallocLinear cfg host s base size committed = .ok (r, s')) :
    s'.mem_allocd ≤ cfg.dpmi_total_memory + dpmi_reserved_space := by
  rcases DPMI_mallocLinear_cases h with ⟨_, rfl⟩ | ⟨realbase, _, _, hb, _, _, rfl⟩
  · exact hm
  · have := u32_free_le cfg s.mem_allocd (by omega)
    cases committed
    · simpa using hm
    · simp only [true_and, not_lt, gt_iff_lt] at hb
      simp only [u32, if_true]; omega

theorem commit_bits_cons (w : Nat) (ws : List Nat) :
    commit_bits (w :: ws) = w % 2 + commit_bits ws := by
  simp [commit_bits]

theorem account_pages_spec (ws : List Nat) :
    ∀ (n mem mem' : Nat), account_pages ws n mem = .ok mem' →
      mem' ≤ mem ∧ (low_bits_ok ws → mem' + 4096 * commit_bits (ws.take n) = mem) := by
  induction ws with
  | nil =>
    intro n mem mem' h
    cases n with
    | zero => simp only [account_pages] at h; cases h; simp [commit_bits]
    | succ n => simp only [account_pages] at h; cases h
  | cons w ws ih =>
    intro n mem mem' h
    cases n with
    | zero => simp only [account_pages] at h; cases h; simp [commit_bits]
    | succ n =>
      simp only [account_pages, and7, PAGE_SIZE] at h
      by_cases hw : w % 8 = 1
      · rw [if_pos hw] at h
        by_cases hm : 4096 ≤ mem
        · rw [if_pos hm] at h
          obtain ⟨h1, h2⟩ := ih _ _ _ h
          refine ⟨by omega, fun hl => ?_⟩
          have := h2 (fun x hx => hl x (List.mem_cons_of_mem _ hx))
          simp only [List.take_succ_cons, commit_bits_cons]
          omega
        · rw [if_neg hm] at h; cases h
      · rw [if_neg hw] at h
        obtain ⟨h1, h2⟩ := ih _ _ _ h
        refine ⟨h1, fun hl => ?_⟩
        have := h2 (fun x hx => hl x (List.mem_cons_of_mem _ hx))
        have := hl w (List.mem_cons_self _ _)
        simp only [List.take_succ_cons, commit_bits_cons]
        omega
/-- The two ways `DPMI_free` returns: a refusal that changes nothing, or the
removal of the block found. -/
theorem DPMI_free_cases {cfg : Config} {host : Host} {s s' : State} {handle : Nat} {r : Int}
    (h : DPMI_free cfg host s handle = .ok (r, s')) :
    (r = -1 ∧ s' = s ∧
      (lookup_pm_block s.root handle = none ∨
        ∃ p block, lookup_pm_block s.root handle = some (p, block) ∧
          (block.hwram = true ∨ block.shmname.isSome = true))) ∨
    (∃ p block calls mem, lookup_pm_block s.root handle = some (p, block) ∧
      block.hwram = false ∧ block.shmname = none ∧
      free_release block = .ok calls ∧
      account_pages block.attrs (block.size / 4096) s.mem_allocd = .ok mem ∧
      r = 0 ∧
      s' = { s with
        root := s.root.eraseIdx p
        mem_allocd := mem
        log := s.log ++ [HostCall.e_invalidate_full block.base block.size] ++ calls }) := by
  unfold DPMI_free at h
  simp only [free_pm_block, shr_page] at h
  split at h
  · rename_i hl
    cases h; exact Or.inl ⟨rfl, rfl, Or.inl hl⟩
  · rename_i p block hl
    split at h
    · rename_i hh
      cases h; exact Or.inl ⟨rfl, rfl, Or.inr ⟨p, block, hl, Or.inl hh⟩⟩
    split at h
    · rename_i hh hn
      cases h; exact Or.inl ⟨rfl, rfl, Or.inr ⟨p, block, hl, Or.inr hn⟩⟩
    rename_i hh hn
    split at h
    · cases h
    rename_i calls hc
    split at h
    · cases h
    rename_i mem hm
    cases h
    refine Or.inr ⟨p, block, calls, mem, hl, by simpa using hh, ?_, hc, hm, rfl, rfl⟩
    cases hsn : block.shmname with
    | none => rfl
    | some x => simp [hsn] at hn

theorem DPMI_free_bound {cfg : Config} {host : Host} {s s' : State} {handle : Nat} {r : Int}
    (h : DPMI_free cfg host s handle = .ok (r, s')) : s'.mem_allocd ≤ s.mem_allocd := by
  rcases DPMI_free_cases h with ⟨_, rfl, _⟩ | ⟨p, block, calls, mem, _, _, _, _, hm, _, rfl⟩
  · exact Nat.le_refl _
  · exact (account_pages_spec _ _ _ _ hm).1

theorem int32_pages {x : Nat} (h : x < 4294967296) : int32 (x / 4096) = ((x / 4096 : Nat) : Int) := by
  unfold int32
  split_ifs <;> omega

theorem realloc_pm_block_grow {attrs : List Nat} {newsize : Nat}
    (h : attrs.length ≤ newsize / 4096) :
    realloc_pm_block attrs newsize =
      attrs ++ List.replicate (newsize / 4096 - attrs.length) 0 := by
  unfold realloc_pm_block
  rw [shr_page]
  apply List.take_of_length_le
  simp; omega

theorem realloc_pm_block_shrink {attrs : List Nat} {newsize : Nat}
    (h : newsize / 4096 ≤ attrs.length) :
    realloc_pm_block attrs newsize = attrs.take (newsize / 4096) := by
  unfold realloc_pm_block
  rw [shr_page]
  have : newsize / 4096 - attrs.length = 0 := by omega
  rw [this]; simp

theorem fill_grow {attrs : List Nat} {n v : Nat} (h : attrs.length < n) :
    fill (attrs ++ List.replicate (n - attrs.length) 0) attrs.length n v =
      attrs ++ List.replicate (n - attrs.length) v := by
  unfold fill
  rw [if_pos h]
  have h1 : (attrs ++ List.replicate (n - attrs.length) 0).length ≤ n := by
    simp only [List.length_append, List.length_replicate]; omega
  rw [List.drop_of_length_le h1, List.take_left']
  · simp
  · rfl

/-- Growth of a well-shaped block in `finish_realloc`. -/
theorem finish_realloc_grow {b : dpmi_pm_block} {newsize mem : Nat} (c : Bool)
    (hlen : b.attrs.length = b.size / 4096) (hal : b.size % 4096 = 0)
    (hn : newsize % 4096 = 0) (hlt : newsize < 4294967296) (hg : newsize > b.size) :
    finish_realloc b newsize c mem =
      .ok (b.attrs ++ List.replicate (newsize / 4096 - b.size / 4096) (if c then 9 else 8),
        if c then u32 (mem + (newsize - b.size)) else mem) := by
  unfold finish_realloc
  simp only [shr_page]
  rw [int32_pages hlt, int32_pages (by omega : b.size < 4294967296)]
  simp only [Int.toNat_ofNat, if_pos hg]
  rw [realloc_pm_block_grow (by omega), hlen.symm, fill_grow (by omega)]

/-- Shrinking of a well-shaped block in `finish_realloc`. -/
theorem finish_realloc_shrink {b : dpmi_pm_block} {newsize mem : Nat} (c : Bool)
    (hlen : b.attrs.length = b.size / 4096) (hsz : b.size < 4294967296)
    (hg : ¬ newsize > b.size) :
    finish_realloc b newsize c mem =
      match account_pages (b.attrs.drop (newsize / 4096)) (b.size / 4096 - newsize / 4096) mem with
      | .error f => .error f
      | .ok mem1 => .ok (b.attrs.take (newsize / 4096), mem1) := by
  unfold finish_realloc
  simp only [shr_page]
  rw [int32_pages (by omega : newsize < 4294967296), int32_pages hsz]
  simp only [Int.toNat_ofNat, if_neg hg]
  have h1 : newsize / 4096 ≤ b.attrs.length := by
    rw [hlen]; exact Nat.div_le_div_right (by omega)
  rw [realloc_pm_block_shrink h1]
  have h2 : ((b.size / 4096 : Nat) - (newsize / 4096 : Nat) : Int).toNat =
      b.size / 4096 - newsize / 4096 := by omega
  rw [h2]

/-- The counter after `finish_realloc`, whatever the shape of the block. -/
theorem finish_realloc_mem {b : dpmi_pm_block} {newsize mem : Nat} {c : Bool}
    {r : List Nat × Nat} (h : finish_realloc b newsize c mem = .ok r) :
    (newsize > b.size ∧ r.2 = if c then u32 (mem + (newsize - b.size)) else mem) ∨
      (¬ newsize > b.size ∧ r.2 ≤ mem) := by
  unfold finish_realloc at h
  dsimp only at h
  by_cases hg : newsize > b.size
  · rw [if_pos hg] at h
    cases h; exact Or.inl ⟨hg, rfl⟩
  · rw [if_neg hg] at h
    split at h
    · cases h
    · rename_i mem1 hm
      cases h
      exact Or.inr ⟨hg, (account_pages_spec _ _ _ _ hm).1⟩
theorem unchanged_refl (s : State) : unchanged s s := ⟨rfl, rfl, rfl, rfl⟩

/-- The ways `DPMI_reallocLinear` returns: without touching the blocks, or
with the block found resized through `finish_realloc`. -/
theorem DPMI_reallocLinear_cases {cfg : Config} {host : Host} {s s' : State}
    {handle newsize : Nat} {c : Bool} {r : Option Nat}
    (h : DPMI_reallocLinear cfg host s handle newsize c = .ok (r, s')) :
    (unchanged s s' ∧ (r = none ∨ ∃ p block, lookup_pm_block s.root handle = some (p, block) ∧
        block.linear = true ∧ PAGE_ALIGN64 newsize = block.size ∧ r = some p ∧ s' = s)) ∨
    (∃ p block ptr attrs mem calls, newsize ≠ 0 ∧
      lookup_pm_block s.root handle = some (p, block) ∧
      block.linear = true ∧ host.pool = some ptr ∧ PAGE_ALIGN64 newsize ≠ block.size ∧
      ¬ (PAGE_ALIGN64 newsize > block.size ∧ c ∧
          sub64 (PAGE_ALIGN64 newsize) block.size >
            u64_of_int (dpmi_free_memory cfg s.mem_allocd)) ∧
      finish_realloc block (PAGE_ALIGN64 newsize) c s.mem_allocd = .ok (attrs, mem) ∧
      restore_page_protection
        { block with attrs := attrs, base := ptr, size := u32 (PAGE_ALIGN64 newsize) } =
          .ok calls ∧
      r = some p ∧
      s' = { s with
        root := s.root.set p
          { block with attrs := attrs, base := ptr, size := u32 (PAGE_ALIGN64 newsize) }
        mem_allocd := mem
        log := s.log ++ [HostCall.e_invalidate_full block.base block.size,
            HostCall.mprotect_mapping block.base block.size
              (PROT_READ ||| PROT_WRITE ||| PROT_EXEC)] ++
          [HostCall.mprotect_mapping ptr (u32 (PAGE_ALIGN64 newsize))
            (PROT_READ ||| PROT_WRITE ||| PROT_EXEC)] ++ calls }) := by
  unfold DPMI_reallocLinear at h
  dsimp only at h
  split at h
  · cases h; exact Or.inl ⟨unchanged_refl s, Or.inl rfl⟩
  rename_i hn0
  split at h
  · cases h; exact Or.inl ⟨unchanged_refl s, Or.inl rfl⟩
  rename_i p block hl
  split at h
  · cases h; exact Or.inl ⟨unchanged_refl s, Or.inl rfl⟩
  rename_i hlin
  split at h
  · rename_i heq
    cases h
    exact Or.inl ⟨unchanged_refl s, Or.inr ⟨p, block, hl, by simpa using hlin, heq, rfl, rfl⟩⟩
  rename_i hne
  split at h
  · cases h; exact Or.inl ⟨unchanged_refl s, Or.inl rfl⟩
  rename_i hbud
  split at h
  · split at h
    · cases h
    · cases h; exact Or.inl ⟨⟨rfl, rfl, rfl, rfl⟩, Or.inl rfl⟩
  · rename_i ptr hp
    split at h
    · cases h
    rename_i attrs mem hf
    split at h
    · cases h
    rename_i calls hr
    cases h
    exact Or.inr ⟨p, block, ptr, attrs, mem, calls, hn0, hl, by simpa using hlin, hp, hne, hbud,
      hf, hr, rfl, rfl⟩
/-- The ways `DPMI_realloc` returns: through `DPMI_reallocLinear` for a linear
block, without touching the blocks, or with the block found resized. -/
theorem DPMI_realloc_cases {cfg : Config} {host : Host} {s s' : State}
    {handle newsize : Nat} {r : Option Nat}
    (h : DPMI_realloc cfg host s handle newsize = .ok (r, s')) :
    (∃ p block, lookup_pm_block s.root handle = some (p, block) ∧ block.linear = true ∧
      DPMI_reallocLinear cfg host s handle newsize true = .ok (r, s')) ∨
    (unchanged s s' ∧ (r = none ∨ ∃ p block, lookup_pm_block s.root handle = some (p, block) ∧
        block.linear = false ∧ PAGE_ALIGN newsize = block.size ∧ r = some p ∧ s' = s)) ∨
    (∃ p block ptr attrs mem calls, newsize ≠ 0 ∧
      lookup_pm_block s.root handle = some (p, block) ∧
      block.linear = false ∧ host.pool = some ptr ∧ PAGE_ALIGN newsize ≠ block.size ∧
      ¬ (PAGE_ALIGN newsize > block.size ∧
          sub32 (PAGE_ALIGN newsize) block.size >
            u32_of_int (dpmi_free_memory cfg s.mem_allocd)) ∧
      finish_realloc block (PAGE_ALIGN newsize) true s.mem_allocd = .ok (attrs, mem) ∧
      restore_page_protection
        { block with attrs := attrs, base := ptr, size := PAGE_ALIGN newsize } = .ok calls ∧
      r = some p ∧
      s' = { s with
        root := s.root.set p { block with attrs := attrs, base := ptr, size := PAGE_ALIGN newsize }
        mem_allocd := mem
        log := s.log ++ [HostCall.e_invalidate_full block.base block.size,
            HostCall.mprotect_mapping block.base block.size
              (PROT_READ ||| PROT_WRITE ||| PROT_EXEC)] ++ calls }) := by
  unfold DPMI_realloc at h
  dsimp only at h
  split at h
  · cases h; exact Or.inr (Or.inl ⟨unchanged_refl s, Or.inl rfl⟩)
  rename_i hn0
  split at h
  · cases h; exact Or.inr (Or.inl ⟨unchanged_refl s, Or.inl rfl⟩)
  rename_i p block hl
  split at h
  · rename_i hlin
    exact Or.inl ⟨p, block, hl, hlin, h⟩
  rename_i hlin
  split at h
  · rename_i heq
    cases h
    exact Or.inr (Or.inl ⟨unchanged_refl s,
      Or.inr ⟨p, block, hl, by simpa using hlin, heq, rfl, rfl⟩⟩)
  rename_i hne
  split at h
  · cases h; exact Or.inr (Or.inl ⟨unchanged_refl s, Or.inl rfl⟩)
  rename_i hbud
  split at h
  · cases h; exact Or.inr (Or.inl ⟨⟨rfl, rfl, rfl, rfl⟩, Or.inl rfl⟩)
  · rename_i ptr hp
    split at h
    · cases h
    rename_i attrs mem hf
    split at h
    · cases h
    rename_i calls hr
    cases h
    exact Or.inr (Or.inr ⟨p, block, ptr, attrs, mem, calls, hn0, hl, by simpa using hlin, hp,
      hne, hbud, hf, hr, rfl, rfl⟩)

theorem sub64_of_lt {a b : Nat} (ha : a < 18446744073709551616) (h : b < a) :
    sub64 a b = a - b := by
  unfold sub64; omega

theorem sub32_of_lt {a b : Nat} (ha : a < 4294967296) (h : b < a) : sub32 a b = a - b := by
  unfold sub32; omega

theorem DPMI_reallocLinear_bound {cfg : Config} {host : Host} {s s' : State}
    {handle newsize : Nat} {c : Bool} {r : Option Nat}
    (hTR : cfg.dpmi_total_memory + dpmi_reserved_space < 4294967296)
    (hm : s.mem_allocd ≤ cfg.dpmi_total_memory + dpmi_reserved_space)
    (hpool : host.pool.isSome → PAGE_ALIGN64 newsize < 2147483648)
    (h : DPMI_reallocLinear cfg host s handle newsize c = .ok (r, s')) :
    s'.mem_allocd ≤ cfg.dpmi_total_memory + dpmi_reserved_space := by
  rcases DPMI_reallocLinear_cases h with ⟨⟨_, h2, _⟩, _⟩ |
    ⟨p, block, ptr, attrs, mem, calls, _, hl, hlin, hp, hne, hbud, hf, _, _, rfl⟩
  · rw [h2]; exact hm
  · have hns := hpool (by simp [hp])
    dsimp only
    rcases finish_realloc_mem hf with ⟨hg, he⟩ | ⟨_, he⟩
    · dsimp only at he
      rw [he]
      cases c
      · simpa using hm
      · simp only [hg, true_and, not_lt, gt_iff_lt] at hbud
        rw [sub64_of_lt (by omega) hg] at hbud
        have := u64_free_le cfg s.mem_allocd (PAGE_ALIGN64 newsize - block.size)
          (by omega) (by omega) hbud
        simp only [u32, if_true]
        omega
    · dsimp only at he; omega

theorem DPMI_realloc_bound {cfg : Config} {host : Host} {s s' : State}
    {handle newsize : Nat} {r : Option Nat}
    (hTR : cfg.dpmi_total_memory + dpmi_reserved_space < 4294967296)
    (hm : s.mem_allocd ≤ cfg.dpmi_total_memory + dpmi_reserved_space)
    (hpool : host.pool.isSome → PAGE_ALIGN64 newsize < 2147483648)
    (h : DPMI_realloc cfg host s handle newsize = .ok (r, s')) :
    s'.mem_allocd ≤ cfg.dpmi_total_memory + dpmi_reserved_space := by
  rcases DPMI_realloc_cases h with ⟨_, _, _, _, hl⟩ | ⟨⟨_, h2, _⟩, _⟩ |
    ⟨p, block, ptr, attrs, mem, calls, _, hl, hlin, hp, hne, hbud, hf, _, _, rfl⟩
  · exact DPMI_reallocLinear_bound hTR hm hpool hl
  · rw [h2]; exact hm
  · dsimp only
    obtain ⟨_, ha2, _⟩ := PAGE_ALIGN_spec newsize
    rcases finish_realloc_mem hf with ⟨hg, he⟩ | ⟨_, he⟩
    · dsimp only at he
      rw [he]
      simp only [hg, true_and, not_lt, gt_iff_lt] at hbud
      rw [sub32_of_lt ha2 hg] at hbud
      have := u32_free_le cfg s.mem_allocd (by omega)
      simp only [u32, if_true]
      omega
    · dsimp only at he; omega

theorem DPMI_SetPageAttributes_cases {cfg : Config} {host : Host} {s s' : State}
    {handle : Nat} {offs count : Int} {attrs : List Nat} {r : Int}
    (h : DPMI_SetPageAttributes cfg host s handle offs attrs count = .ok (r, s')) :
    (r = 0 ∧ s' = s ∧ (lookup_pm_block s.root handle = none ∨
      ∃ p block, lookup_pm_block s.root handle = some (p, block) ∧
        block.linear = false ∧ cfg.no_null_checks = true ∧ offs = 0 ∧ count = 1)) ∨
    (∃ p block res, lookup_pm_block s.root handle = some (p, block) ∧
      SetPageAttributes_loop cfg host block.base offs attrs count.toNat 0 block.attrs
        s.mem_allocd s.log = .ok res ∧
      r = (if res.1 = 0 then 0 else 1) ∧
      s' = { s with
        root := s.root.set p { block with attrs := res.2.1 }
        mem_allocd := res.2.2.1
        log := res.2.2.2 }) := by
  unfold DPMI_SetPageAttributes SetPageAttributes at h
  split at h
  · rename_i hl
    cases h; exact Or.inl ⟨rfl, rfl, Or.inl hl⟩
  rename_i p block hl
  split at h
  · rename_i hg
    cases h
    exact Or.inl ⟨rfl, rfl, Or.inr ⟨p, block, hl, by simpa using hg.1, hg.2.1, hg.2.2.1, hg.2.2.2⟩⟩
  split at h
  · cases h
  rename_i res hr
  cases h
  exact Or.inr ⟨p, block, res, hl, hr, rfl, rfl⟩

theorem DPMI_SetPageAttributes_bound {cfg : Config} {host : Host} {s s' : State}
    {handle : Nat} {offs count : Int} {attrs : List Nat} {r : Int}
    (hTR : cfg.dpmi_total_memory + dpmi_reserved_space < 4294967296)
    (hm : s.mem_allocd ≤ cfg.dpmi_total_memory + dpmi_reserved_space)
    (h : DPMI_SetPageAttributes cfg host s handle offs attrs count = .ok (r, s')) :
    s'.mem_allocd ≤ cfg.dpmi_total_memory + dpmi_reserved_space := by
  rcases DPMI_SetPageAttributes_cases h with ⟨_, rfl, _⟩ | ⟨p, block, res, _, hr, _, rfl⟩
  · exact hm
  · obtain ⟨_, h2, _⟩ := SetPageAttributes_loop_inv cfg (by omega) _ _ _ _ _ _ _ _ _ _ hr
    dsimp only
    omega

theorem DPMI_mapHWRam_mem {cfg : Config} {host : Host} {s s' : State} {hwaddr size : Nat}
    {r : Option Nat} (h : DPMI_mapHWRam cfg host s hwaddr size = .ok (r, s')) :
    s'.mem_allocd = s.mem_allocd := by
  unfold DPMI_mapHWRam at h
  split at h <;> cases h <;> rfl

theorem DPMI_unmapHWRam_mem {cfg : Config} {host : Host} {s s' : State} {vbase : Nat}
    {r : Int} (h : DPMI_unmapHWRam cfg host s vbase = .ok (r, s')) :
    s'.mem_allocd = s.mem_allocd := by
  unfold DPMI_unmapHWRam at h
  split at h
  · cases h; rfl
  · split_ifs at h <;> cases h <;> rfl

theorem DPMI_mallocShared_mem {cfg : Config} {host : Host} {s s' : State} {name : String}
    {size : Nat} {excl noexec : Bool} {r : Option Nat}
    (h : DPMI_mallocShared cfg host s name size excl noexec = .ok (r, s')) :
    s'.mem_allocd = s.mem_allocd := by
  unfold DPMI_mallocShared at h
  repeat' first
    | (cases h; done)
    | (cases h; rfl)
    | split at h
    | (dsimp only at h; split at h)

theorem DPMI_freeShared_mem {cfg : Config} {host : Host} {s s' : State} {handle : Nat}
    {unlnk : Bool} {r : Int} (h : DPMI_freeShared cfg host s handle unlnk = .ok (r, s')) :
    s'.mem_allocd = s.mem_allocd := by
  unfold DPMI_freeShared at h
  split at h
  · cases h; rfl
  · split at h <;> cases h <;> rfl

theorem DPMI_freeShPartial_mem {cfg : Config} {host : Host} {s s' : State} {handle : Nat}
    {unlnk : Bool} {r : Int} (h : DPMI_freeShPartial cfg host s handle unlnk = .ok (r, s')) :
    s'.mem_allocd = s.mem_allocd := by
  unfold DPMI_freeShPartial at h
  dsimp only at h
  split at h
  · cases h; rfl
  · split at h
    · cases h; rfl
    · split at h <;> cases h <;> rfl

theorem DPMI_MapConventionalMemory_mem {cfg : Config} {host : Host} {s s' : State}
    {handle offset low_addr cnt : Nat} {r : Int}
    (h : DPMI_MapConventionalMemory cfg host s handle offset low_addr cnt = .ok (r, s')) :
    s'.mem_allocd = s.mem_allocd := by
  unfold DPMI_MapConventionalMemory at h
  dsimp only at h
  split at h
  · cases h; rfl
  · split at h
    · cases h; rfl
    · split at h
      · split at h <;> cases h; rfl
      · split at h <;> cases h; rfl

theorem DPMI_freeAll_loop_bound {cfg : Config} {host : Host} :
    ∀ (fuel : Nat) (s s' : State), DPMI_freeAll_loop cfg host fuel s = .ok s' →
      s'.mem_allocd ≤ s.mem_allocd := by
  intro fuel
  induction fuel with
  | zero =>
    intro s s' h
    simp only [DPMI_freeAll_loop] at h
    cases h; exact Nat.le_refl _
  | succ fuel ih =>
    intro s s' h
    simp only [DPMI_freeAll_loop] at h
    split at h
    · cases h; exact Nat.le_refl _
    · split at h
      · have := ih _ _ h
        exact this
      · split at h
        · split at h
          · cases h
          · rename_i r hr
            have h1 := ih _ _ h
            have h2 := @DPMI_freeShared_mem cfg host _ r.2 _ _ r.1 hr
            omega
        · split at h
          · cases h
          · rename_i r hr
            have h1 := ih _ _ h
            have h2 := @DPMI_free_bound cfg host _ r.2 _ r.1 hr
            omega
/-! ## Reachable states -/

theorem map_snd_ok {α : Type} {x : Except Fault (α × State)} {s' : State}
    (h : x.map Prod.snd = .ok s') : ∃ r, x = .ok (r, s') := by
  cases x with
  | error f => cases h
  | ok v =>
    obtain ⟨r, t⟩ := v
    cases h
    exact ⟨r, rfl⟩

theorem step_bound {cfg : Config} {host : Host} {s s' : State} {c : Call}
    (hTR : cfg.dpmi_total_memory + dpmi_reserved_space < 4294967296)
    (hm : s.mem_allocd ≤ cfg.dpmi_total_memory + dpmi_reserved_space)
    (hc : pool_contract host c) (h : step cfg host s c = .ok s') :
    s'.mem_allocd ≤ cfg.dpmi_total_memory + dpmi_reserved_space := by
  cases c with
  | malloc size =>
    obtain ⟨r, hr⟩ := map_snd_ok h
    exact DPMI_malloc_bound hTR hm hr
  | mallocLinear base size committed =>
    obtain ⟨r, hr⟩ := map_snd_ok h
    exact DPMI_mallocLinear_bound hTR hm hr
  | mapHWRam hwaddr size =>
    obtain ⟨r, hr⟩ := map_snd_ok h
    rw [DPMI_mapHWRam_mem hr]; exact hm
  | unmapHWRam vbase =>
    obtain ⟨r, hr⟩ := map_snd_ok h
    rw [DPMI_unmapHWRam_mem hr]; exact hm
  | free handle =>
    obtain ⟨r, hr⟩ := map_snd_ok h
    have := DPMI_free_bound hr
    omega
  | mallocShared name size excl noexec =>
    obtain ⟨r, hr⟩ := map_snd_ok h
    rw [DPMI_mallocShared_mem hr]; exact hm
  | freeShared handle unlnk =>
    obtain ⟨r, hr⟩ := map_snd_ok h
    rw [DPMI_freeShared_mem hr]; exact hm
  | freeShPartial handle unlnk =>
    obtain ⟨r, hr⟩ := map_snd_ok h
    rw [DPMI_freeShPartial_mem hr]; exact hm
  | realloc handle newsize =>
    obtain ⟨r, hr⟩ := map_snd_ok h
    exact DPMI_realloc_bound hTR hm hc hr
  | reallocLinear handle newsize committed =>
    obtain ⟨r, hr⟩ := map_snd_ok h
    exact DPMI_reallocLinear_bound hTR hm hc hr
  | freeAll =>
    have := DPMI_freeAll_loop_bound _ _ _ h
    omega
  | mapConventionalMemory handle offset low_addr cnt =>
    obtain ⟨r, hr⟩ := map_snd_ok h
    rw [DPMI_MapConventionalMemory_mem hr]; exact hm
  | setPageAttributes handle offs attrs count =>
    obtain ⟨r, hr⟩ := map_snd_ok h
    exact DPMI_SetPageAttributes_bound hTR hm hr

/-- The counter stays within budget plus headroom along every run. -/
theorem ReachableBy_bound {cfg : Config} {allowed : Call → Prop} {s : State}
    (hTR : cfg.dpmi_total_memory + dpmi_reserved_space < 4294967296)
    (h : ReachableBy cfg allowed s) :
    s.mem_allocd ≤ cfg.dpmi_total_memory + dpmi_reserved_space := by
  induction h with
  | init h objs => exact Nat.zero_le _
  | call host c _ _ hc hs ih => exact step_bound hTR ih hc hs

theorem demo_decommitted_reachable (allowed : Call → Prop)
    (h1 : allowed (Call.malloc 12288)) (h2 : allowed (Call.setPageAttributes 0 4096 [0] 1)) :
    ReachableBy cfg_demo allowed demo_decommitted :=
  ReachableBy.call host_demo (Call.setPageAttributes 0 4096 [0] 1)
    (ReachableBy.call host_demo (Call.malloc 12288) (ReachableBy.init 0 []) h1 trivial
      (by rfl : step cfg_demo host_demo demo_empty (Call.malloc 12288) = .ok demo_three))
    h2 trivial (by rfl)

/-- The counter stays within budget plus headroom as long as no resize is
granted an area of `2^31` bytes or more: in every state reached through the
calls of the block manager with the pool honouring `pool_contract`, the
committed-byte counter is at most `dpmi_total_memory + dpmi_reserved_space`,
provided that sum fits in 32 bits. -/
theorem counter_within_budget (cfg : Config) (s : State)
    (hTR : cfg.dpmi_total_memory + dpmi_reserved_space < 4294967296)
    (h : Reachable cfg s) :
    s.mem_allocd ≤ cfg.dpmi_total_memory + dpmi_reserved_space :=
  ReachableBy_bound hTR h

/-- An instance of `counter_within_budget`: the state with two committed pages
under a budget of 1 MB. -/
theorem counter_within_budget_witness :
    cfg_demo.dpmi_total_memory + dpmi_reserved_space < 4294967296 ∧
      demo_decommitted.mem_allocd ≤ cfg_demo.dpmi_total_memory + dpmi_reserved_space :=
  ⟨by decide, counter_within_budget cfg_demo demo_decommitted (by decide)
    (demo_decommitted_reachable (fun _ => True) trivial trivial)⟩

/-- C3: the counter can underflow. After `DPMI_mapHWRam` of one page on the
empty root (counter 0, the page marked committed but not counted), the
request to decommit that page through `DPMI_SetPageAttributes` reaches the
decrement of `SetAttribsForPage` with `mem_allocd < PAGE_SIZE`: the assertion
`mem_allocd >= PAGE_SIZE` fails. -/
theorem hwram_decommit_fails_assertion :
    Reachable cfg_demo demo_hwram ∧
      DPMI_SetPageAttributes cfg_demo host_demo demo_hwram 0 0 [0] 1 =
        .error Fault.assertion :=
  ⟨ReachableBy.call host_demo (Call.mapHWRam 0xA0000 4096) (ReachableBy.init 0 []) trivial
      trivial (by rfl), by rfl⟩

/-- A request for one page, spelt out. -/
theorem SetPageAttributes_loop_one (cfg : Config) (host : Host) (base : Nat) (offs : Int)
    (a i w : Nat) (words : List Nat) (mem : Nat) (log : List HostCall)
    (hi : offs / 4096 = (i : Int)) (hw : words[i]? = some w) :
    SetPageAttributes_loop cfg host base offs [a] 1 0 words mem log =
      if w = a then .ok (1, words, mem, log)
      else if w &&& ATTR_SHR ≠ 0 ∧ a &&& 7 ≠ 3 then .ok (0, words, mem, log)
      else
        match SetAttribsForPage cfg mem (u32_of_int ((base : Int) + offs)) a w
            (host.mprotect_ok (u32_of_int ((base : Int) + offs))) with
        | .error f => .error f
        | .ok r =>
          .ok (if r.ret = 0 then 0 else 1, words.set i r.word, r.mem_allocd, log ++ r.log) := by
  simp only [SetPageAttributes_loop, hi, Nat.cast_zero, add_zero, Int.toNat_ofNat, hw,
    List.getElem?_cons_zero, Nat.zero_shiftLeft]
  have hneg : ¬ ((i : Int) < 0) := by omega
  rw [if_neg hneg]
  by_cases h1 : w = a
  · rw [if_pos h1, if_pos h1]
  · rw [if_neg h1, if_neg h1]
    by_cases h2 : w &&& ATTR_SHR ≠ 0 ∧ a &&& 7 ≠ 3
    · rw [if_pos h2, if_pos h2]
    · rw [if_neg h2, if_neg h2]
      cases SetAttribsForPage cfg mem (u32_of_int ((base : Int) + offs)) a w
          (host.mprotect_ok (u32_of_int ((base : Int) + offs))) with
      | error f => rfl
      | ok r =>
        dsimp only
        by_cases h3 : r.ret = 0
        · rw [if_pos h3, if_pos h3]
        · rw [if_neg h3, if_neg h3]

/-- Decommit of a committed page in `SetAttribsForPage`. -/
theorem SetAttribsForPage_decommit {cfg : Config} {mem ptr attr old_attr : Nat} {ok : Bool}
    {r : PageRes} (ha : attr % 4 = 0) (hw : old_attr % 2 = 1)
    (h : SetAttribsForPage cfg mem ptr attr old_attr ok = .ok r) :
    r.word % 8 = 0 ∧ r.mem_allocd + 4096 = mem := by
  obtain ⟨l, hl, h1, h2⟩ := SetAttribsForPage_switch h
  unfold switch_com at hl
  simp only [and3, and1, ha, hw, if_true, PAGE_SIZE] at hl
  have h0 : (old_attr &&& 65528) % 8 = 0 := by simp [mod8_and]
  split_ifs at hl with hm
  · cases hl
    dsimp only at h1 h2
    omega

theorem lookup_pm_block_set :
    ∀ (root : List dpmi_pm_block) (h p : Nat) (b b' : dpmi_pm_block),
      lookup_pm_block root h = some (p, b) → b'.handle = b.handle →
      lookup_pm_block (root.set p b') h = some (p, b')
  | [], _, _, _, _, hl, _ => by simp [lookup_pm_block] at hl
  | x :: xs, h, p, b, b', hl, hh => by
    unfold lookup_pm_block at hl
    split_ifs at hl with hx
    · cases hl
      simp [lookup_pm_block, hh, hx]
    · cases hr : lookup_pm_block xs h with
      | none => rw [hr] at hl; cases hl
      | some r =>
        rw [hr] at hl
        obtain ⟨q, c⟩ := r
        cases hl
        have := lookup_pm_block_set xs h q c b' hr hh
        simp [lookup_pm_block, hx, this]

/-- C5: for a block found by its handle and an in-range page `i` of it whose
commit-type is 1, a successful `DPMI_SetPageAttributes` call on that page alone
with commit-type 0 lowers the counter by one page, leaves page `i` with
commit-type 0 (also as `DPMI_GetPageAttributes` reports it) and changes no
other attribute word of this or any other block. -/
theorem decommit_one_page (cfg : Config) (host : Host) (s s' : State) (handle : Nat)
    (offs : Int) (attr p i w : Nat) (b : dpmi_pm_block)
    (hl : lookup_pm_block s.root handle = some (p, b))
    (hi : offs / 4096 = (i : Int)) (hw : b.attrs[i]? = some w)
    (hcom : w &&& 3 = 1) (hreq : attr &&& 3 = 0)
    (h : DPMI_SetPageAttributes cfg host s handle offs [attr] 1 = .ok (1, s')) :
    s'.mem_allocd + PAGE_SIZE = s.mem_allocd ∧
    ∃ w', w' &&& 3 = 0 ∧
      s'.root = s.root.set p { b with attrs := b.attrs.set i w' } ∧
      DPMI_GetPageAttributes cfg s' handle offs 1 = .ok (1, [w' &&& 0xFFEF]) ∧
      (w' &&& 0xFFEF) &&& 3 = 0 := by
  rcases DPMI_SetPageAttributes_cases h with ⟨h0, _⟩ | ⟨p', b', res, hl', hr, hret, rfl⟩
  · cases h0
  · rw [hl] at hl'
    cases hl'
    rw [Int.toNat_one, SetPageAttributes_loop_one cfg host b.base offs attr i w b.attrs _ _ hi hw]
      at hr
    simp only [and3] at hcom hreq
    have hne : w ≠ attr := by intro he; rw [he] at hcom; omega
    rw [if_neg hne] at hr
    split_ifs at hr with hshr
    · cases hr
      simp at hret
    · split at hr
      · cases hr
      · rename_i pr hpr
        cases hr
        obtain ⟨d1, d2⟩ := SetAttribsForPage_decommit hreq (by omega) hpr
        have hlen : i < b.attrs.length := by
          rw [List.getElem?_eq_some_iff] at hw
          exact hw.1
        refine ⟨by dsimp only; simp only [PAGE_SIZE]; omega, pr.word, ?_, rfl, ?_, ?_⟩
        · rw [and3]; omega
        · unfold DPMI_GetPageAttributes
          dsimp only
          rw [lookup_pm_block_set s.root handle p b { b with attrs := b.attrs.set i pr.word } hl rfl]
          simp only [one_ne_zero, if_false, hi, Int.toNat_ofNat, Int.toNat_one]
          rw [if_neg]
          · have : (List.drop i (b.attrs.set i pr.word)).take 1 = [pr.word] := by
              rw [List.drop_eq_getElem_cons (by simpa using hlen)]
              simp
            rw [this]
            rfl
          · simp only [List.length_set]
            omega
        · have := mod_pow_and 2 pr.word 65519
          simp only [and3] at this ⊢
          norm_num at this ⊢
          rw [this, and3]
          omega

/-- Witness of C5: page 1 of a block of three committed pages is decommitted. -/
theorem decommit_one_page_witness :
    DPMI_SetPageAttributes cfg_demo host_demo demo_three 0 4096 [0] 1 =
        .ok (1, demo_decommitted) ∧
    (demo_decommitted.mem_allocd + PAGE_SIZE = demo_three.mem_allocd ∧
    ∃ w', w' &&& 3 = 0 ∧
      demo_decommitted.root = demo_three.root.set 0
        { ({ handle := 0, size := 12288, base := 0x20000000, attrs := [9, 9, 9],
              mapped := true } : dpmi_pm_block) with
          attrs := ([9, 9, 9] : List Nat).set 1 w' } ∧
      DPMI_GetPageAttributes cfg_demo demo_decommitted 0 4096 1 = .ok (1, [w' &&& 0xFFEF]) ∧
      (w' &&& 0xFFEF) &&& 3 = 0) :=
  ⟨by rfl, decommit_one_page cfg_demo host_demo demo_three demo_decommitted 0 4096 0 0 1 9
    { handle := 0, size := 12288, base := 0x20000000, attrs := [9, 9, 9], mapped := true }
    (by rfl) (by decide) (by rfl) (by decide) (by decide) (by rfl)⟩

/-- A commit that finds no page of budget left is refused before anything is
written. -/
theorem budget_rejection_keeps_state (cfg : Config) (mem ptr attr old_attr : Nat) (ok : Bool)
    (ha : attr &&& 3 = 1) (hw : old_attr &&& 1 = 0)
    (hf : dpmi_free_memory cfg mem < (PAGE_SIZE : Int)) :
    SetAttribsForPage cfg mem ptr attr old_attr ok = .ok ⟨0, old_attr, mem, []⟩ := by
  unfold SetAttribsForPage switch_com
  simp only [ha, hw, hf, if_true, one_ne_zero, if_false]
  simp [rw_bits, nx_bits, acc_bits, apply_change]

/-- C6: setting one page's attributes is not transactional. On a committed
read-write page (word 9) with the counter at one page, the request `0x80`
(commit-type 0, no-execute set) is rejected by the no-execute policy check
("Not changing NX(+) on uncommitted page": the value returned is 0 and no host
call is made), yet the word has become 0 and the counter has lost the page;
the same through `DPMI_SetPageAttributes` on page 1 of a block of three
pages. -/
theorem rejection_after_mutation :
    SetAttribsForPage cfg_demo 4096 0x20000000 0x80 9 true = .ok ⟨0, 0, 0, []⟩ ∧
    DPMI_SetPageAttributes cfg_demo host_demo demo_three 0 4096 [0x80] 1 =
      .ok (0, { demo_decommitted with log := [] }) :=
  ⟨by rfl, by rfl⟩

theorem set_getElem?_self {α : Type} :
    ∀ (l : List α) (k : Nat) (a : α), l[k]? = some a → l.set k a = l
  | [], _, _, h => by simp at h
  | x :: xs, 0, a, h => by simp at h; subst h; rfl
  | x :: xs, k + 1, a, h => by
    simp at h
    simp [set_getElem?_self xs k a h]

/-- C8: address stability. For a block that is not linear, a non-zero new size
whose page-aligned value is below the current size, and a pool whose
`smrealloc` returns the area it was given when shrinking, a successful
`DPMI_realloc` returns the same descriptor with its base (and handle)
unchanged and the aligned size. -/
theorem shrink_keeps_base (cfg : Config) (host : Host) (s s' : State)
    (handle newsize p q : Nat) (b : dpmi_pm_block)
    (hl : lookup_pm_block s.root handle = some (p, b)) (hlin : b.linear = false)
    (hs : PAGE_ALIGN newsize < b.size)
    (hpool : ∀ ptr, host.pool = some ptr → ptr = b.base)
    (h : DPMI_realloc cfg host s handle newsize = .ok (some q, s')) :
    q = p ∧ ∃ b', s'.root[p]? = some b' ∧ b'.base = b.base ∧ b'.handle = b.handle ∧
      b'.size = PAGE_ALIGN newsize := by
  rcases DPMI_realloc_cases h with ⟨p', b', hl', hlin', _⟩ | ⟨_, h0 | ⟨p', b', hl', _, heq, _, _⟩⟩ |
    ⟨p', b', ptr, attrs, mem, calls, _, hl', _, hp, _, _, _, _, hq, rfl⟩
  · rw [hl] at hl'; cases hl'
    rw [hlin] at hlin'; cases hlin'
  · cases h0
  · rw [hl] at hl'; cases hl'
    omega
  · rw [hl] at hl'; cases hl'
    cases hq
    have hpp := (lookup_pm_block_some _ _ _ _ hl).1
    have hlt : p < s.root.length := by
      rw [List.getElem?_eq_some_iff] at hpp
      exact hpp.1
    refine ⟨rfl, { b with attrs := attrs, base := ptr, size := PAGE_ALIGN newsize }, ?_,
      hpool ptr hp, rfl, rfl⟩
    dsimp only
    rw [List.getElem?_set_self hlt]

/-- Witness of C8: the block of three pages is shrunk to one page. -/
theorem shrink_keeps_base_witness :
    ∃ s', DPMI_realloc cfg_demo host_demo demo_three 0 4096 = .ok (some 0, s') ∧
      ((0 : Nat) = 0 ∧ ∃ b', s'.root[0]? = some b' ∧ b'.base = 0x20000000 ∧ b'.handle = 0 ∧
        b'.size = PAGE_ALIGN 4096) :=
  ⟨_, by rfl, shrink_keeps_base cfg_demo host_demo demo_three _ 0 4096 0 0
    { handle := 0, size := 12288, base := 0x20000000, attrs := [9, 9, 9], mapped := true }
    (by rfl) (by rfl) (by decide)
    (fun ptr hp => by cases hp; rfl) (by rfl)⟩

/-- The accounting loop gives back one page per visited word whose low three
bits are 1. -/
theorem account_pages_count (ws : List Nat) :
    ∀ (n mem mem' : Nat), account_pages ws n mem = .ok mem' →
      mem' + 4096 * ((ws.take n).filter fun w => w &&& 7 = 1).length = mem := by
  induction ws with
  | nil =>
    intro n mem mem' h
    cases n with
    | zero => simp only [account_pages] at h; cases h; simp
    | succ n => simp only [account_pages] at h; cases h
  | cons w ws ih =>
    intro n mem mem' h
    cases n with
    | zero => simp only [account_pages] at h; cases h; simp
    | succ n =>
      simp only [account_pages, PAGE_SIZE] at h
      by_cases hw : w &&& 7 = 1
      · rw [if_pos hw] at h
        by_cases hm : 4096 ≤ mem
        · rw [if_pos hm] at h
          have := ih _ _ _ h
          simp only [List.take_succ_cons, List.filter_cons, hw, decide_True, if_true,
            List.length_cons]
          omega
        · rw [if_neg hm] at h; cases h
      · rw [if_neg hw] at h
        have := ih _ _ _ h
        simp only [List.take_succ_cons, List.filter_cons, hw, decide_False, if_false,
          Bool.false_eq_true]
        exact this

theorem filter_commit_eq (ws : List Nat) (h : ∀ w ∈ ws, w &&& ATTR_SHR = 0) :
    (ws.filter fun w => w &&& 7 = 1) = ws.filter fun w => w &&& 3 = 1 := by
  apply List.filter_congr
  intro w hw
  have h4 := h w hw
  have e1 := mod_pow_and 3 w 4
  have e2 : w % 8 &&& 4 = 4 * (w % 8 / 4) := by
    have : w % 8 < 8 := Nat.mod_lt _ (by decide)
    interval_cases (w % 8) <;> rfl
  simp only [ATTR_SHR] at h4
  rw [h4] at e1
  norm_num at e1
  simp only [and7, and3]
  have : (decide (w % 8 = 1)) = decide (w % 4 = 1) := by
    apply decide_eq_decide.mpr
    omega
  exact this

/-- What a successful `DPMI_realloc` does to a well-shaped block that is not
linear. -/
theorem DPMI_realloc_general {cfg : Config} {host : Host} {s s' : State}
    {handle newsize p q : Nat} {b : dpmi_pm_block}
    (hT : cfg.dpmi_total_memory < 4294967296)
    (hl : lookup_pm_block s.root handle = some (p, b)) (hlin : b.linear = false)
    (hlen : b.attrs.length = b.size / 4096) (hal : b.size % 4096 = 0)
    (hsz : b.size < 4294967296)
    (h : DPMI_realloc cfg host s handle newsize = .ok (some q, s')) :
    q = p ∧ (PAGE_ALIGN newsize = b.size → s' = s) ∧
    (PAGE_ALIGN newsize ≠ b.size → ∃ ptr attrs, host.pool = some ptr ∧
      s'.root = s.root.set p { b with attrs := attrs, base := ptr, size := PAGE_ALIGN newsize } ∧
      (PAGE_ALIGN newsize > b.size →
        attrs = b.attrs ++ List.replicate (PAGE_ALIGN newsize / 4096 - b.size / 4096) 9 ∧
        s'.mem_allocd = s.mem_allocd + (PAGE_ALIGN newsize / 4096 - b.size / 4096) * 4096) ∧
      (PAGE_ALIGN newsize < b.size →
        attrs = b.attrs.take (PAGE_ALIGN newsize / 4096) ∧
        s'.mem_allocd + 4096 *
          ((b.attrs.drop (PAGE_ALIGN newsize / 4096)).filter fun w => w &&& 7 = 1).length =
            s.mem_allocd)) := by
  obtain ⟨ha1, ha2, _⟩ := PAGE_ALIGN_spec newsize
  rcases DPMI_realloc_cases h with ⟨p', b', hl', hlin', _⟩ | ⟨_, h0 | ⟨p', b', hl', _, heq, hq, hs⟩⟩ |
    ⟨p', b', ptr, attrs, mem, calls, _, hl', _, hp, hne, hbud, hf, _, hq, rfl⟩
  · rw [hl] at hl'; cases hl'
    rw [hlin] at hlin'; cases hlin'
  · cases h0
  · rw [hl] at hl'; cases hl'
    cases hq
    exact ⟨rfl, fun _ => hs, fun hne => absurd heq hne⟩
  · rw [hl] at hl'; cases hl'
    cases hq
    refine ⟨rfl, fun heq => absurd heq hne, fun _ => ⟨ptr, attrs, hp, rfl, ?_, ?_⟩⟩
    · intro hg
      rw [finish_realloc_grow true hlen hal ha1 ha2 hg] at hf
      cases hf
      simp only [hg, true_and, not_lt, gt_iff_lt] at hbud
      rw [sub32_of_lt ha2 hg] at hbud
      have := u32_free_le cfg s.mem_allocd hT
      refine ⟨rfl, ?_⟩
      simp only [u32, if_true]
      omega
    · intro hlt
      rw [finish_realloc_shrink true hlen hsz (by omega)] at hf
      split at hf
      · cases hf
      · rename_i mem1 hm
        cases hf
        have hc := account_pages_count _ _ _ _ hm
        have h4 : (b.attrs.drop (PAGE_ALIGN newsize / 4096)).length =
            b.size / 4096 - PAGE_ALIGN newsize / 4096 := by
          simp only [List.length_drop]; omega
        rw [← h4, List.take_length] at hc
        exact ⟨rfl, hc⟩

/-- C9: a successful `DPMI_realloc` of a general block (not linear, one word
per page, no shared marker) from `n` to `m` pages keeps the first `min n m`
attribute words; growing appends the word 9 for each new page and raises the
counter by `m - n` pages, shrinking lowers the counter by one page for each
dropped page with commit-type 1. Hence a block of two pages resized to one
page and back to two has the word 9 on its second page. -/
theorem realloc_attributes :
    (∀ (cfg : Config) (host : Host) (s s' : State) (handle newsize p q : Nat)
      (b : dpmi_pm_block),
      cfg.dpmi_total_memory < 4294967296 →
      lookup_pm_block s.root handle = some (p, b) → b.linear = false →
      b.attrs.length = b.size / PAGE_SIZE → b.size % PAGE_SIZE = 0 → b.size < 4294967296 →
      (∀ w ∈ b.attrs, w &&& ATTR_SHR = 0) →
      DPMI_realloc cfg host s handle newsize = .ok (some q, s') →
      q = p ∧ ∃ b', s'.root = s.root.set p b' ∧ b'.handle = b.handle ∧
        b'.size = PAGE_ALIGN newsize ∧
        (PAGE_ALIGN newsize / PAGE_SIZE > b.size / PAGE_SIZE →
          b'.attrs = b.attrs ++
            List.replicate (PAGE_ALIGN newsize / PAGE_SIZE - b.size / PAGE_SIZE) 9 ∧
          s'.mem_allocd =
            s.mem_allocd + (PAGE_ALIGN newsize / PAGE_SIZE - b.size / PAGE_SIZE) * PAGE_SIZE) ∧
        (PAGE_ALIGN newsize / PAGE_SIZE < b.size / PAGE_SIZE →
          b'.attrs = b.attrs.take (PAGE_ALIGN newsize / PAGE_SIZE) ∧
          s'.mem_allocd + PAGE_SIZE *
            ((b.attrs.drop (PAGE_ALIGN newsize / PAGE_SIZE)).filter
              fun w => w &&& 3 = 1).length = s.mem_allocd)) ∧
    (∀ (cfg : Config) (host1 host2 : Host) (s s1 s2 : State) (handle sz1 sz2 p q1 q2 : Nat)
      (b : dpmi_pm_block),
      cfg.dpmi_total_memory < 4294967296 →
      lookup_pm_block s.root handle = some (p, b) → b.linear = false →
      b.attrs.length = 2 → b.size = 2 * PAGE_SIZE →
      PAGE_ALIGN sz1 = PAGE_SIZE → PAGE_ALIGN sz2 = 2 * PAGE_SIZE →
      DPMI_realloc cfg host1 s handle sz1 = .ok (some q1, s1) →
      DPMI_realloc cfg host2 s1 handle sz2 = .ok (some q2, s2) →
      ∃ b2, s2.root[p]? = some b2 ∧ b2.size = 2 * PAGE_SIZE ∧ b2.attrs[1]? = some 9 ∧
        b2.attrs[0]? = b.attrs[0]?) := by
  constructor
  · intro cfg host s s' handle newsize p q b hT hl hlin hlen hal hsz hshr h
    simp only [PAGE_SIZE] at *
    obtain ⟨ha1, ha2, _⟩ := PAGE_ALIGN_spec newsize
    obtain ⟨hq, h1, h2⟩ := DPMI_realloc_general hT hl hlin hlen hal hsz h
    refine ⟨hq, ?_⟩
    by_cases he : PAGE_ALIGN newsize = b.size
    · refine ⟨b, ?_, rfl, he.symm, fun hg => ?_, fun hg => ?_⟩
      · rw [h1 he, set_getElem?_self _ _ _ (lookup_pm_block_some _ _ _ _ hl).1]
      · rw [he] at hg; omega
      · rw [he] at hg; omega
    · obtain ⟨ptr, attrs, _, hr, hgrow, hshrink⟩ := h2 he
      refine ⟨_, hr, rfl, rfl, fun hg => hgrow (by omega), fun hg => ?_⟩
      obtain ⟨e1, e2⟩ := hshrink (by omega)
      refine ⟨e1, ?_⟩
      rw [← filter_commit_eq _ (fun w hw => hshr w (List.mem_of_mem_drop hw))]
      exact e2
  · intro cfg host1 host2 s s1 s2 handle sz1 sz2 p q1 q2 b hT hl hlin hlen hsize ha1 ha2 h1 h2
    simp only [PAGE_SIZE] at *
    obtain ⟨_, _, k1⟩ := DPMI_realloc_general hT hl hlin (by omega) (by omega) (by omega) h1
    obtain ⟨ptr1, attrs1, _, hr1, _, hs1⟩ := k1 (by omega)
    obtain ⟨e1, _⟩ := hs1 (by omega)
    rw [ha1] at e1 hr1
    have hl1 := lookup_pm_block_set s.root handle p b
      { b with attrs := attrs1, base := ptr1, size := 4096 } hl rfl
    rw [← hr1] at hl1
    have hlen1 : attrs1.length = 1 := by
      rw [e1]; simp only [List.length_take]; omega
    obtain ⟨_, _, k2⟩ := DPMI_realloc_general hT hl1 hlin (by dsimp only; omega) (by dsimp only)
      (by dsimp only; omega) h2
    obtain ⟨ptr2, attrs2, _, hr2, hg2, _⟩ := k2 (by dsimp only; omega)
    obtain ⟨e2, _⟩ := hg2 (by dsimp only; omega)
    dsimp only at e2 hr2
    rw [ha2] at e2 hr2
    have hp1 := (lookup_pm_block_some _ _ _ _ hl1).1
    have hlt : p < s1.root.length := by
      rw [List.getElem?_eq_some_iff] at hp1
      exact hp1.1
    refine ⟨_, by rw [hr2, List.getElem?_set_self hlt], rfl, ?_, ?_⟩
    · dsimp only
      rw [e2, List.getElem?_append_right (by omega)]
      simp [hlen1]
    · dsimp only
      rw [e2, List.getElem?_append_left (by omega), e1]
      simp

/-- Witness of C9: a block of two pages whose second page is read-only is
resized to one page and back to two; the second page then has the word 9. -/
theorem realloc_attributes_witness :
    ∃ s1 s2, DPMI_realloc cfg_demo host_demo demo_two 0 4096 = .ok (some 0, s1) ∧
      DPMI_realloc cfg_demo host_demo s1 0 8192 = .ok (some 0, s2) ∧
      ∃ b2, s2.root[0]? = some b2 ∧ b2.size = 2 * PAGE_SIZE ∧ b2.attrs[1]? = some 9 ∧
        b2.attrs[0]? = ([9, 1] : List Nat)[0]? :=
  ⟨_, _, by rfl, by rfl,
    realloc_attributes.2 cfg_demo host_demo host_demo demo_two _ _ 0 4096 8192 0 0 0
      { handle := 0, size := 8192, base := 0x20000000, attrs := [9, 1], mapped := true }
      (by decide) (by rfl) (by rfl) (by rfl) (by rfl) (by decide) (by decide) (by rfl) (by rfl)⟩

theorem lookup_pm_block_none :
    ∀ (root : List dpmi_pm_block) (h : Nat), (∀ b ∈ root, b.handle ≠ h) →
      lookup_pm_block root h = none
  | [], _, _ => rfl
  | x :: xs, h, hn => by
    unfold lookup_pm_block
    rw [if_neg (hn x (List.mem_cons_self _ _)),
      lookup_pm_block_none xs h (fun b hb => hn b (List.mem_cons_of_mem _ hb))]
    rfl

theorem lookup_pm_block_by_addr_none :
    ∀ (root : List dpmi_pm_block) (addr : Nat),
      (∀ b ∈ root, ¬ (b.mapped = true ∧ b.base ≤ addr ∧ addr < b.base + b.size)) →
      lookup_pm_block_by_addr root addr = none
  | [], _, _ => rfl
  | x :: xs, addr, hn => by
    unfold lookup_pm_block_by_addr
    have hx := hn x (List.mem_cons_self _ _)
    have hle : u32 (x.base + x.size) ≤ x.base + x.size := Nat.mod_le _ _
    rw [if_neg (fun hc => hx ⟨hc.1, hc.2.1, by omega⟩),
      lookup_pm_block_by_addr_none xs addr (fun b hb => hn b (List.mem_cons_of_mem _ hb))]
    rfl

/-- C11: for a handle that no block of the root carries, `DPMI_free`,
`DPMI_freeShared`, `DPMI_freeShPartial` return -1, `DPMI_realloc` and
`DPMI_reallocLinear` return `NULL`, `DPMI_MapConventionalMemory` returns -2,
`DPMI_SetPageAttributes` and `DPMI_GetPageAttributes` return 0, and the state
(block list, attribute words, counter) is what it was; `DPMI_unmapHWRam`
returns -1 without any change for an address inside no mapped block. -/
theorem unknown_handle_fails (cfg : Config) (host : Host) (s : State) (handle : Nat)
    (hn : ∀ b ∈ s.root, b.handle ≠ handle) :
    DPMI_free cfg host s handle = .ok (-1, s) ∧
    (∀ unlnk, DPMI_freeShared cfg host s handle unlnk = .ok (-1, s)) ∧
    (∀ unlnk, DPMI_freeShPartial cfg host s handle unlnk = .ok (-1, s)) ∧
    (∀ newsize, DPMI_realloc cfg host s handle newsize = .ok (none, s)) ∧
    (∀ newsize committed,
      DPMI_reallocLinear cfg host s handle newsize committed = .ok (none, s)) ∧
    (∀ offset low_addr cnt,
      DPMI_MapConventionalMemory cfg host s handle offset low_addr cnt = .ok (-2, s)) ∧
    (∀ offs attrs count,
      DPMI_SetPageAttributes cfg host s handle offs attrs count = .ok (0, s)) ∧
    (∀ offs count, DPMI_GetPageAttributes cfg s handle offs count = .ok (0, [])) ∧
    (∀ vbase, (∀ b ∈ s.root, ¬ (b.mapped = true ∧ b.base ≤ vbase ∧ vbase < b.base + b.size)) →
      DPMI_unmapHWRam cfg host s vbase = .ok (-1, s)) := by
  have hl := lookup_pm_block_none s.root handle hn
  refine ⟨?_, ?_, ?_, ?_, ?_, ?_, ?_, ?_, ?_⟩
  · simp only [DPMI_free, hl]
  · intro unlnk; simp only [DPMI_freeShared, hl]
  · intro unlnk; simp only [DPMI_freeShPartial, hl]
  · intro newsize
    unfold DPMI_realloc
    by_cases h0 : newsize = 0
    · rw [if_pos h0]
    · rw [if_neg h0]; simp only [hl]
  · intro newsize committed
    unfold DPMI_reallocLinear
    by_cases h0 : newsize = 0
    · rw [if_pos h0]
    · rw [if_neg h0]; simp only [hl]
  · intro offset low_addr cnt; simp only [DPMI_MapConventionalMemory, hl]
  · intro offs attrs count; simp only [DPMI_SetPageAttributes, hl]
  · intro offs count; simp only [DPMI_GetPageAttributes, hl]
  · intro vbase hv
    simp only [DPMI_unmapHWRam, lookup_pm_block_by_addr_none s.root vbase hv]

/-- Witness of C11: handle 7 on a root whose only block has handle 0. -/
theorem unknown_handle_fails_witness :
    DPMI_free cfg_demo host_demo demo_three 7 = .ok (-1, demo_three) ∧
    DPMI_unmapHWRam cfg_demo host_demo demo_three 0x1000 = .ok (-1, demo_three) :=
  have h := unknown_handle_fails cfg_demo host_demo demo_three 7 (by decide)
  ⟨h.1, h.2.2.2.2.2.2.2.2 0x1000 (by decide)⟩

/-- The accounting loop runs through when the array covers the pages visited
and the counter covers the committed private pages among them. -/
theorem account_pages_total (ws : List Nat) :
    ∀ (n mem : Nat), n ≤ ws.length →
      4096 * ((ws.take n).filter fun w => w &&& 7 = 1).length ≤ mem →
      account_pages ws n mem =
        .ok (mem - 4096 * ((ws.take n).filter fun w => w &&& 7 = 1).length) := by
  induction ws with
  | nil =>
    intro n mem hn _
    have : n = 0 := by simpa using hn
    subst this
    simp [account_pages]
  | cons w ws ih =>
    intro n mem hn hm
    cases n with
    | zero => simp [account_pages]
    | succ n =>
      have hn' : n ≤ ws.length := by simpa using hn
      simp only [account_pages, PAGE_SIZE]
      simp only [List.take_succ_cons, List.filter_cons] at hm ⊢
      by_cases hw : w &&& 7 = 1
      · simp only [hw, decide_True, if_true, List.length_cons] at hm ⊢
        rw [if_pos (by omega), ih n (mem - 4096) hn' (by omega)]
        have he : mem - 4096 -
            4096 * (List.filter (fun w => decide (w &&& 7 = 1)) (List.take n ws)).length =
            mem - 4096 *
              ((List.filter (fun w => decide (w &&& 7 = 1)) (List.take n ws)).length + 1) := by
          omega
        rw [he]
      · simp only [hw, decide_False, if_false, Bool.false_eq_true] at hm ⊢
        exact ih n mem hn' hm

theorem free_release_total (b : dpmi_pm_block) (h : b.size / 4096 ≤ b.attrs.length) :
    ∃ calls, free_release b = .ok calls := by
  unfold free_release
  rw [shr_page]
  split_ifs <;> first | exact ⟨_, rfl⟩ | omega

/-- `DPMI_free` on a block it accepts, when nothing aborts. -/
theorem DPMI_free_total {cfg : Config} {host : Host} {s : State} {handle p : Nat}
    {b : dpmi_pm_block} (hl : lookup_pm_block s.root handle = some (p, b))
    (hh : b.hwram = false) (hs : b.shmname = none) (hlen : b.size / 4096 ≤ b.attrs.length)
    (hm : 4096 * ((b.attrs.take (b.size / 4096)).filter fun w => w &&& 7 = 1).length ≤
      s.mem_allocd) :
    ∃ calls, DPMI_free cfg host s handle = .ok (0, { s with
      root := s.root.eraseIdx p
      mem_allocd := s.mem_allocd -
        4096 * ((b.attrs.take (b.size / 4096)).filter fun w => w &&& 7 = 1).length
      log := s.log ++ [HostCall.e_invalidate_full b.base b.size] ++ calls }) := by
  obtain ⟨calls, hc⟩ := free_release_total b hlen
  refine ⟨calls, ?_⟩
  unfold DPMI_free
  simp only [hl, hh, hs, hc, shr_page, account_pages_total _ _ _ hlen hm, free_pm_block]
  rfl

/-- The returns of `DPMI_free`: it returns -1, leaving the state as it was,
exactly when the handle is unknown or names a hardware-RAM block or a block
that still has a shared name; whenever it returns in any other case the value
is 0, and it does return there as long as the attribute array covers the pages
of the block and the counter covers its committed private pages. -/
theorem free_fails_exactly (cfg : Config) (host : Host) (s : State) (handle : Nat) :
    (DPMI_free cfg host s handle = .ok (-1, s) ↔
      (lookup_pm_block s.root handle = none ∨
        ∃ p b, lookup_pm_block s.root handle = some (p, b) ∧
          (b.hwram = true ∨ b.shmname.isSome = true))) ∧
    (∀ r s', DPMI_free cfg host s handle = .ok (r, s') →
      (r = -1 ∧ s' = s ∧ (lookup_pm_block s.root handle = none ∨
        ∃ p b, lookup_pm_block s.root handle = some (p, b) ∧
          (b.hwram = true ∨ b.shmname.isSome = true))) ∨
      (r = 0 ∧ ∃ p b, lookup_pm_block s.root handle = some (p, b) ∧
        b.hwram = false ∧ b.shmname = none)) ∧
    (∀ p b, lookup_pm_block s.root handle = some (p, b) → b.hwram = false →
      b.shmname = none → b.size / PAGE_SIZE ≤ b.attrs.length →
      PAGE_SIZE * ((b.attrs.take (b.size / PAGE_SIZE)).filter fun w => w &&& 7 = 1).length ≤
        s.mem_allocd →
      ∃ s', DPMI_free cfg host s handle = .ok (0, s')) := by
  refine ⟨⟨fun h => ?_, fun h => ?_⟩, fun r s' h => ?_, fun p b hl hh hs hlen hm => ?_⟩
  · rcases DPMI_free_cases h with ⟨_, _, hc⟩ | ⟨_, _, _, _, _, _, _, _, _, h0, _⟩
    · exact hc
    · cases h0
  · rcases h with hl | ⟨p, b, hl, hb⟩
    · simp only [DPMI_free, hl]
    · unfold DPMI_free
      simp only [hl]
      rcases hb with hb | hb
      · rw [if_pos hb]
      · by_cases hw : b.hwram = true
        · rw [if_pos hw]
        · rw [if_neg hw, if_pos hb]
  · rcases DPMI_free_cases h with ⟨h1, h2, hc⟩ | ⟨p, b, _, _, hl, hh, hs, _, _, h0, _⟩
    · exact Or.inl ⟨h1, h2, hc⟩
    · exact Or.inr ⟨h0, p, b, hl, hh, hs⟩
  · simp only [PAGE_SIZE] at hlen hm
    obtain ⟨calls, hc⟩ := @DPMI_free_total cfg host s handle p b hl hh hs hlen hm
    exact ⟨_, hc⟩

/-- An instance of `free_fails_exactly`: the three-page block is freed, the
hardware-RAM block is refused. -/
theorem free_fails_exactly_witness :
    (∃ s', DPMI_free cfg_demo host_demo demo_three 0 = .ok (0, s')) ∧
    DPMI_free cfg_demo host_demo demo_hwram 0 = .ok (-1, demo_hwram) :=
  ⟨(free_fails_exactly cfg_demo host_demo demo_three 0).2.2 0
      demo_three_block (by rfl) (by rfl) (by rfl) (by decide) (by decide),
    (free_fails_exactly cfg_demo host_demo demo_hwram 0).1.mpr
      (Or.inr ⟨0, demo_hwram_block, by rfl, Or.inl rfl⟩)⟩

/-- What `DPMI_free` does when the counter covers the block: for a general or
linear block `b` found by its handle (one attribute
word per page, no shared marker, its committed pages covered by the counter),
`DPMI_free` returns 0, lowers the counter by one page for every page of `b`
with commit-type 1 and removes exactly `b`: the other blocks stay as they are
and in their order; when no other block carries the handle a later lookup of
it fails, and when no other mapped block meets the range of `b` a later
lookup of an address inside that range fails. Consequently `DPMI_malloc`
followed at once by `DPMI_free` of the new handle restores the counter and
the block list. -/
theorem free_removes_block :
    (∀ (cfg : Config) (host : Host) (s : State) (handle p : Nat) (b : dpmi_pm_block),
      lookup_pm_block s.root handle = some (p, b) →
      b.hwram = false → b.shm = false → b.shmname = none →
      b.attrs.length = b.size / PAGE_SIZE → (∀ w ∈ b.attrs, w &&& ATTR_SHR = 0) →
      PAGE_SIZE * committed_pages b ≤ s.mem_allocd →
      ∃ s', DPMI_free cfg host s handle = .ok (0, s') ∧
        s'.mem_allocd + PAGE_SIZE * committed_pages b = s.mem_allocd ∧
        s'.root = s.root.eraseIdx p ∧
        s'.pm_block_handle_used = s.pm_block_handle_used ∧
        ((∀ b' ∈ s.root.eraseIdx p, b'.handle ≠ handle) →
          lookup_pm_block s'.root handle = none) ∧
        ((∀ b' ∈ s.root.eraseIdx p, b'.mapped = true →
            b'.base + b'.size ≤ b.base ∨ b.base + b.size ≤ b'.base) →
          ∀ addr, b.base ≤ addr → addr < b.base + b.size →
            lookup_pm_block_by_addr s'.root addr = none)) ∧
    (∀ (cfg : Config) (host host2 : Host) (s s1 : State) (size p : Nat),
      cfg.dpmi_total_memory + dpmi_reserved_space < 4294967296 →
      s.mem_allocd ≤ cfg.dpmi_total_memory + dpmi_reserved_space →
      DPMI_malloc cfg host s size = .ok (some p, s1) →
      ∃ s2, DPMI_free cfg host2 s1 s.pm_block_handle_used = .ok (0, s2) ∧
        s2.root = s.root ∧ s2.mem_allocd = s.mem_allocd) := by
  constructor
  · intro cfg host s handle p b hl hh hshm hs hlen hshr hm
    simp only [PAGE_SIZE] at hlen hm ⊢
    have hcp : committed_pages b =
        ((b.attrs.take (b.size / 4096)).filter fun w => w &&& 7 = 1).length := by
      unfold committed_pages
      rw [← hlen, List.take_length, filter_commit_eq _ hshr]
    rw [hcp] at hm ⊢
    obtain ⟨calls, hc⟩ := @DPMI_free_total cfg host s handle p b hl hh hs (by omega) hm
    refine ⟨_, hc, ?_, rfl, rfl, fun hu => ?_, fun hd addr h1 h2 => ?_⟩
    · dsimp only; omega
    · exact lookup_pm_block_none _ _ hu
    · apply lookup_pm_block_by_addr_none
      intro b' hb' hc'
      have := hd b' hb' hc'.1
      omega
  · intro cfg host host2 s s1 size p hTR hm h
    rcases DPMI_malloc_cases h with ⟨h0, _⟩ | ⟨realbase, _, _, hb, rfl⟩
    · cases h0
    · have hbud := malloc_budget hTR hm hb
      obtain ⟨ha1, ha2, ha3⟩ := PAGE_ALIGN_spec size
      have hcount : ((List.replicate (PAGE_ALIGN size / 4096) 9).take
          (PAGE_ALIGN size / 4096)).filter (fun w => w &&& 7 = 1) =
          List.replicate (PAGE_ALIGN size / 4096) 9 := by
        rw [List.take_replicate, Nat.min_self]
        apply List.filter_eq_self.mpr
        intro w hw
        rw [(List.mem_replicate.mp hw).2]
        rfl
      obtain ⟨calls, hc⟩ := @DPMI_free_total cfg host2
        ⟨{ handle := s.pm_block_handle_used, size := PAGE_ALIGN size, base := realbase,
            attrs := List.replicate (PAGE_ALIGN size / 4096) 9, mapped := true } :: s.root,
          u32 (s.mem_allocd + PAGE_ALIGN size), u32 (s.pm_block_handle_used + 1),
          s.shm_objects, s.log⟩
        s.pm_block_handle_used 0
        { handle := s.pm_block_handle_used, size := PAGE_ALIGN size, base := realbase,
          attrs := List.replicate (PAGE_ALIGN size / 4096) 9, mapped := true }
        (by simp [lookup_pm_block]) rfl rfl (by simp)
        (by dsimp only; rw [hcount]; simp only [List.length_replicate, u32]; omega)
      refine ⟨_, hc, rfl, ?_⟩
      dsimp only
      rw [hcount]
      simp only [List.length_replicate, u32]
      omega

/-- An instance of `free_removes_block`: the block of three committed pages is
freed. -/
theorem free_removes_block_witness :
    ∃ s', DPMI_free cfg_demo host_demo demo_three 0 = .ok (0, s') ∧
      s'.mem_allocd + PAGE_SIZE * committed_pages demo_three_block = demo_three.mem_allocd ∧
      s'.root = demo_three.root.eraseIdx 0 ∧
      s'.pm_block_handle_used = demo_three.pm_block_handle_used ∧
      ((∀ b' ∈ demo_three.root.eraseIdx 0, b'.handle ≠ 0) →
        lookup_pm_block s'.root 0 = none) ∧
      ((∀ b' ∈ demo_three.root.eraseIdx 0, b'.mapped = true →
          b'.base + b'.size ≤ demo_three_block.base ∨
            demo_three_block.base + demo_three_block.size ≤ b'.base) →
        ∀ addr, demo_three_block.base ≤ addr →
          addr < demo_three_block.base + demo_three_block.size →
          lookup_pm_block_by_addr s'.root addr = none) :=
  free_removes_block.1 cfg_demo host_demo demo_three 0 0 demo_three_block
    (by rfl) (by rfl) (by rfl) (by rfl) (by decide) (by decide) (by decide)

/-- C17: an attribute-only request (commit-type field 3) always returns from
`SetAttribsForPage`, with success or failure, and leaves bits 0-2 of the
stored word and the committed-byte counter as they were. -/
theorem attribute_only_keeps_commit (cfg : Config) (mem ptr attr old_attr : Nat) (ok : Bool)
    (h3 : attr &&& 3 = 3) :
    ∃ r, SetAttribsForPage cfg mem ptr attr old_attr ok = .ok r ∧
      r.word &&& 7 = old_attr &&& 7 ∧ r.mem_allocd = mem := by
  have hs : switch_com cfg mem attr old_attr =
      .ok ⟨old_attr, mem, false, old_attr &&& 1 &&& 1, PROT_READ ||| PROT_EXEC, false⟩ := by
    unfold switch_com
    simp only [h3]
    rfl
  refine ⟨_, by unfold SetAttribsForPage; rw [hs], ?_, ?_⟩
  · rw [and7, and7, apply_change_word, acc_bits_word, nx_bits_word, rw_bits_word]
  · rw [apply_change_mem, acc_bits_mem, nx_bits_mem, rw_bits_mem]

/-- Witness of C17: read-write is taken from a committed page. -/
theorem attribute_only_keeps_commit_witness :
    (3 : Nat) &&& 3 = 3 ∧
    ∃ r, SetAttribsForPage cfg_demo 4096 0x20000000 3 9 true = .ok r ∧
      r.word &&& 7 = 9 &&& 7 ∧ r.mem_allocd = 4096 :=
  ⟨by decide, attribute_only_keeps_commit cfg_demo 4096 0x20000000 3 9 true (by decide)⟩

/-- C18 fails as stated: with the set-access-bits flag the request `0x19` is
applied successfully to the word 9; bits 4-7 of the stored word are then 1,
which is bits 4-7 of the request and not its low nibble 9. -/
theorem access_bits_not_low_nibble :
    (0x19 : Nat) &&& 16 ≠ 0 ∧
    SetAttribsForPage cfg_demo 4096 0x20000000 0x19 9 true = .ok ⟨1, 0x19, 4096, []⟩ ∧
    (0x19 : Nat) >>> 4 &&& 0xf ≠ 0x19 &&& 0xf :=
  ⟨by decide, by rfl, by decide⟩

theorem clear_flag_bits (attr : Nat) :
    (attr &&& 0xFFEF) &&& 3 = attr &&& 3 ∧ (attr &&& 0xFFEF) &&& 8 = attr &&& 8 ∧
    (attr &&& 0xFFEF) &&& 0x80 = attr &&& 0x80 ∧ (attr &&& 0xFFEF) &&& 16 = 0 := by
  refine ⟨?_, ?_, ?_, ?_⟩ <;> rw [Nat.and_assoc]
  · rfl
  · rfl
  · rfl
  · exact Nat.and_zero attr

theorem rw_bits_clear_flag (attr old_attr : Nat) (l : Locals) :
    rw_bits (attr &&& 0xFFEF) old_attr l = rw_bits attr old_attr l := by
  unfold rw_bits
  rw [(clear_flag_bits attr).2.1]

theorem nx_bits_clear_flag (attr old_attr : Nat) (l : Locals) :
    nx_bits (attr &&& 0xFFEF) old_attr l = nx_bits attr old_attr l := by
  unfold nx_bits
  rw [(clear_flag_bits attr).2.2.1]

theorem switch_com_clear_flag (cfg : Config) (mem attr old_attr : Nat) :
    switch_com cfg mem (attr &&& 0xFFEF) old_attr = switch_com cfg mem attr old_attr := by
  unfold switch_com
  rw [(clear_flag_bits attr).1]

theorem acc_nibbles (x a : Nat) :
    ((x &&& 0x0f) ||| (a &&& 0xf0)) &&& 0xf0 = a &&& 0xf0 ∧
    ((x &&& 0x0f) ||| (a &&& 0xf0)) &&& 0x0f = x &&& 0x0f ∧
    ((x &&& 0x0f) ||| (a &&& 0xf0)) / 256 = 0 := by
  refine ⟨?_, ?_, ?_⟩
  · have e : (15 &&& 240 : Nat) = 0 := by decide
    rw [Nat.and_distrib_right, Nat.and_assoc, Nat.and_assoc, e]
    simp
  · have e : (240 &&& 15 : Nat) = 0 := by decide
    rw [Nat.and_distrib_right, Nat.and_assoc, Nat.and_assoc, e]
    simp
  · have h1 : x &&& 0x0f < 2 ^ 8 := Nat.and_lt_two_pow x (by decide)
    have h2 : a &&& 0xf0 < 2 ^ 8 := Nat.and_lt_two_pow a (by decide)
    have := Nat.or_lt_two_pow h1 h2
    omega

/-- C18 (amended): when a request with the set-access-bits flag (bit 4) is
applied successfully, bits 4-7 of the stored word are bits 4-7 of the
request, bits 8-15 are cleared, and bits 0-3 as well as the returned value
and the counter are those the same request without the flag leaves. -/
theorem access_bits_overwrite (cfg : Config) (mem ptr attr old_attr : Nat) (ok : Bool)
    (r : PageRes) (hflag : attr &&& 16 ≠ 0)
    (h : SetAttribsForPage cfg mem ptr attr old_attr ok = .ok r) (hret : r.ret = 1) :
    r.word &&& 0xf0 = attr &&& 0xf0 ∧ r.word / 256 = 0 ∧
    ∃ r', SetAttribsForPage cfg mem ptr (attr &&& 0xFFEF) old_attr ok = .ok r' ∧
      r'.ret = 1 ∧ r'.word &&& 0x0f = r.word &&& 0x0f ∧ r'.mem_allocd = r.mem_allocd := by
  unfold SetAttribsForPage at h ⊢
  rw [switch_com_clear_flag]
  cases hs : switch_com cfg mem attr old_attr with
  | error f => rw [hs] at h; cases h
  | ok l =>
    rw [hs] at h
    dsimp only at h ⊢
    rw [rw_bits_clear_flag, nx_bits_clear_flag]
    generalize nx_bits attr old_attr (rw_bits attr old_attr l) = x at h ⊢
    injection h with h
    subst h
    have hz := (clear_flag_bits attr).2.2.2
    by_cases h0 : x.ret0 = true
    · simp [apply_change, acc_bits, h0] at hret
    · have e1 : acc_bits attr x = { x with word := (x.word &&& 0x0f) ||| (attr &&& 0xf0) } := by
        unfold acc_bits
        rw [if_neg h0, if_pos hflag]
      have e2 : acc_bits (attr &&& 0xFFEF) x = x := by
        unfold acc_bits
        rw [if_neg h0, if_neg (by rw [hz]; simp)]
      rw [e1] at hret ⊢
      rw [e2]
      obtain ⟨n1, n2, n3⟩ := acc_nibbles x.word attr
      refine ⟨by rw [apply_change_word]; exact n1, by rw [apply_change_word]; exact n3,
        _, rfl, ?_, ?_, ?_⟩
      · unfold apply_change at hret ⊢
        dsimp only at hret ⊢
        split_ifs at hret ⊢ <;> rfl
      · rw [apply_change_word, apply_change_word]; exact n2.symm
      · rw [apply_change_mem, apply_change_mem]

/-- Witness of C18 (amended): the request `0x19` on the word 9. -/
theorem access_bits_overwrite_witness :
    (⟨1, 0x19, 4096, []⟩ : PageRes).word &&& 0xf0 = 0x19 &&& 0xf0 ∧
    (⟨1, 0x19, 4096, []⟩ : PageRes).word / 256 = 0 ∧
    ∃ r', SetAttribsForPage cfg_demo 4096 0x20000000 (0x19 &&& 0xFFEF) 9 true = .ok r' ∧
      r'.ret = 1 ∧ r'.word &&& 0x0f = (⟨1, 0x19, 4096, []⟩ : PageRes).word &&& 0x0f ∧
      r'.mem_allocd = (⟨1, 0x19, 4096, []⟩ : PageRes).mem_allocd :=
  access_bits_overwrite cfg_demo 4096 0x20000000 0x19 9 true ⟨1, 0x19, 4096, []⟩ (by decide)
    (by rfl) (by rfl)

/-- C16: a block size need not be a page multiple. `DPMI_mapHWRam` with the
size 100 on the empty root succeeds (the provider granting the range) and
leaves, in a reachable state, a block of 100 bytes with no attribute word:
unlike the other allocators it stores the size without `PAGE_ALIGN`. -/
theorem hwram_size_not_aligned :
    DPMI_mapHWRam cfg_demo host_demo demo_empty 0xA0000 100 = .ok (some 0, demo_hwram_small) ∧
    Reachable cfg_demo demo_hwram_small ∧
    ∃ b ∈ demo_hwram_small.root, b.size % PAGE_SIZE ≠ 0 :=
  ⟨by rfl,
    ReachableBy.call host_demo (Call.mapHWRam 0xA0000 100) (ReachableBy.init 0 []) trivial
      trivial (by rfl),
    ⟨_, List.mem_cons_self _ _, by decide⟩⟩

/-- C20 fails as stated: `DPMI_freeShPartial` on the mapped shared block of
`demo_shared` returns 0 but leaves the block mapped and without its name (no
longer found by `lookup_pm_block_by_shmname`), and a second
`DPMI_freeShPartial` on the same handle returns -1 and removes nothing. -/
theorem freeShPartial_keeps_mapping :
    DPMI_freeShPartial cfg_demo host_demo demo_shared 0 false = .ok (0, demo_shared_unnamed) ∧
    (∀ b ∈ demo_shared_unnamed.root, b.mapped = true) ∧
    lookup_pm_block_by_shmname demo_shared_unnamed.root "X" = none ∧
    DPMI_freeShPartial cfg_demo host_demo demo_shared_unnamed 0 false =
      .ok (-1, demo_shared_unnamed) :=
  ⟨by rfl, by decide, by rfl, by rfl⟩

/-- C20 (amended): for a mapped shared block that has its name,
`DPMI_freeShPartial` on its handle returns 0, clears the shared name and the
resolved name and leaves the block in the root, still mapped; a second
`DPMI_freeShPartial` on the same handle returns -1 and changes nothing. On a
named block that is not mapped, `DPMI_freeShPartial` returns 0 and removes the
block from the root. -/
theorem freeShPartial_releases_name (cfg : Config) (host host2 : Host) (s : State)
    (handle p : Nat) (b : dpmi_pm_block) (unlnk unlnk2 : Bool)
    (hl : lookup_pm_block s.root handle = some (p, b)) (hname : b.shmname.isSome = true) :
    (b.mapped = true →
      ∃ s1, DPMI_freeShPartial cfg host s handle unlnk = .ok (0, s1) ∧
        s1.root = s.root.set p { b with shmname := none, rshmname := none } ∧
        s1.mem_allocd = s.mem_allocd ∧
        lookup_pm_block s1.root handle =
          some (p, { b with shmname := none, rshmname := none }) ∧
        DPMI_freeShPartial cfg host2 s1 handle unlnk2 = .ok (-1, s1)) ∧
    (b.mapped = false →
      ∃ s1, DPMI_freeShPartial cfg host s handle unlnk = .ok (0, s1) ∧
        s1.root = s.root.eraseIdx p ∧ s1.mem_allocd = s.mem_allocd) := by
  have hn : ¬ b.shmname.isNone = true := by
    cases hb : b.shmname with
    | none => rw [hb] at hname; cases hname
    | some x => simp
  constructor
  · intro hm
    have hl1 := lookup_pm_block_set s.root handle p b
      { b with shmname := none, rshmname := none } hl rfl
    refine ⟨{ s with
      root := s.root.set p { b with shmname := none, rshmname := none }
      shm_objects :=
        if unlnk then shm_remove s.shm_objects (b.rshmname.getD "") else s.shm_objects
      log := if unlnk then s.log ++ [HostCall.shm_unlink (b.rshmname.getD "")] else s.log },
      ?_, rfl, rfl, hl1, ?_⟩
    · unfold DPMI_freeShPartial
      simp only [hl, hn, if_false, hm, if_true]
      rfl
    · unfold DPMI_freeShPartial
      dsimp only
      rw [hl1]
      simp
  · intro hm
    refine ⟨{ s with
      root := s.root.eraseIdx p
      shm_objects :=
        if unlnk then shm_remove s.shm_objects (b.rshmname.getD "") else s.shm_objects
      log := if unlnk then s.log ++ [HostCall.shm_unlink (b.rshmname.getD "")] else s.log },
      ?_, rfl, rfl⟩
    unfold DPMI_freeShPartial
    simp only [hl, hn, if_false, hm, free_pm_block]
    rfl

/-- Witness of C20 (amended): the mapped shared block `X`. -/
theorem freeShPartial_releases_name_witness :
    ∃ s1, DPMI_freeShPartial cfg_demo host_demo demo_shared 0 false = .ok (0, s1) ∧
      s1.root = demo_shared.root.set 0
        { demo_shared_block with shmname := none, rshmname := none } ∧
      s1.mem_allocd = demo_shared.mem_allocd ∧
      lookup_pm_block s1.root 0 =
        some (0, { demo_shared_block with shmname := none, rshmname := none }) ∧
      DPMI_freeShPartial cfg_demo host_demo s1 0 true = .ok (-1, s1) :=
  (freeShPartial_releases_name cfg_demo host_demo host_demo demo_shared 0 0 demo_shared_block
    false true (by rfl) (by rfl)).1 (by rfl)

theorem shm_lookup_cons_self (objs : List (String × Nat)) (name : String) (v : Nat) :
    shm_lookup ((name, v) :: objs) name = some v := by
  simp [shm_lookup]

theorem shm_open_create_isSome (objs : List (String × Nat)) (name : String) (excl : Bool) :
    (shm_lookup (shm_open_create objs name excl).1 name).isSome = true := by
  unfold shm_open_create
  split_ifs with h1 h2
  · simp [shm_lookup_cons_self]
  · exact h2
  · simp [shm_lookup_cons_self]

theorem shm_resize_isSome (objs : List (String × Nat)) (name : String) (size st : Nat)
    (h : (shm_lookup objs name).isSome = true) :
    (shm_lookup (shm_resize objs name size st) name).isSome = true := by
  unfold shm_resize
  split_ifs
  · exact h
  · simp [shm_lookup_cons_self]

/-- After a successful `DPMI_mallocShared` the object of that name exists. -/
theorem DPMI_mallocShared_object {cfg : Config} {host : Host} {s s' : State} {name : String}
    {size p : Nat} {excl noexec : Bool}
    (h : DPMI_mallocShared cfg host s name size excl noexec = .ok (some p, s')) :
    (shm_lookup s'.shm_objects ("/dosemu_" ++ name)).isSome = true := by
  unfold DPMI_mallocShared at h
  split at h
  · cases h
  split at h
  · cases h
  have hc := shm_open_create_isSome s.shm_objects ("/dosemu_" ++ name) excl
  split at h
  rename_i objs calls heq
  rw [heq] at hc
  dsimp only at h hc
  split at h
  · cases h
  split at h
  · cases h
  split at h
  · cases h
  split at h
  · cases h
  · cases h
    exact shm_resize_isSome _ _ _ _ hc

/-- An exclusive `DPMI_mallocShared` of a name whose object exists, on a host
where every step succeeds. -/
theorem DPMI_mallocShared_excl_existing (cfg : Config) (host : Host) (s : State)
    (name : String) (size addr : Nat) (noexec : Bool) (hsz : size ≠ 0)
    (hex : (shm_lookup s.shm_objects ("/dosemu_" ++ name)).isSome = true)
    (h1 : host.shm_open_ok = true) (h2 : host.ftruncate_ok = true)
    (h3 : host.pool = some addr) (h4 : host.mmap_ok = true) :
    DPMI_mallocShared cfg host s name size true noexec =
      .ok (some 0, { s with
        root := { handle := s.pm_block_handle_used, size := PAGE_ALIGN size, base := addr,
                  attrs := List.replicate (PAGE_ALIGN size / 4096) 13, linear := true,
                  shm := true, shmname := some name,
                  rshmname := some ("/dosemu_" ++ name), mapped := true } :: s.root
        pm_block_handle_used := u32 (s.pm_block_handle_used + 1)
        shm_objects := ("/dosemu_" ++ name, PAGE_ALIGN size) ::
          shm_remove ((("/dosemu_" ++ name), 0) ::
            shm_remove s.shm_objects ("/dosemu_" ++ name)) ("/dosemu_" ++ name)
        log := s.log ++ [HostCall.shm_unlink ("/dosemu_" ++ name)] }) := by
  have hc : shm_open_create s.shm_objects ("/dosemu_" ++ name) true =
      ((("/dosemu_" ++ name), 0) :: shm_remove s.shm_objects ("/dosemu_" ++ name),
        [HostCall.shm_unlink ("/dosemu_" ++ name)]) := by
    unfold shm_open_create
    rw [if_pos ⟨rfl, hex⟩]
  unfold DPMI_mallocShared
  rw [if_neg hsz, if_neg (by simp [h1]), hc]
  simp only [shm_lookup_cons_self, Option.getD_some, h2, h3, h4, shm_size, shm_resize,
    alloc_pm_block, new_pm_block, shr_page, ATTR_SHR, PAGE_SIZE]
  simp

/-- C19 fails as stated: after `DPMI_mallocShared` of the name `X`, a second
`DPMI_mallocShared` of `X` with the exclusive flag does not fail; it unlinks
the existing object and returns a second block named `X`. -/
theorem exclusive_shared_retry_succeeds :
    DPMI_mallocShared cfg_demo host_demo demo_empty "X" 4096 false false =
      .ok (some 0, demo_shared) ∧
    DPMI_mallocShared cfg_demo host_demo2 demo_shared "X" 4096 true false =
      .ok (some 0, demo_shared_twice) ∧
    count_shm_blocks demo_shared_twice.root "X" = 2 ∧
    HostCall.shm_unlink "/dosemu_X" ∈ demo_shared_twice.log :=
  ⟨by rfl, by rfl, by rfl, by decide⟩

/-- C19 (amended): after a successful `DPMI_mallocShared` of the name `X`, a
second `DPMI_mallocShared` of `X` with the exclusive flag meets `EEXIST`,
unlinks the existing object as a presumed orphan and opens the name again;
when the host steps succeed the call returns a second block named `X` of the
page-aligned size asked for, on a fresh object of that size, and the earlier
block stays in the root. -/
theorem exclusive_shared_unlinks (cfg : Config) (host1 host2 : Host) (s s1 : State)
    (name : String) (size1 size2 p addr : Nat) (excl1 noexec1 noexec2 : Bool)
    (h : DPMI_mallocShared cfg host1 s name size1 excl1 noexec1 = .ok (some p, s1))
    (hsz : size2 ≠ 0) (h1 : host2.shm_open_ok = true) (h2 : host2.ftruncate_ok = true)
    (h3 : host2.pool = some addr) (h4 : host2.mmap_ok = true) :
    ∃ s2 b, DPMI_mallocShared cfg host2 s1 name size2 true noexec2 = .ok (some 0, s2) ∧
      s2.root = b :: s1.root ∧ b.shmname = some name ∧ b.size = PAGE_ALIGN size2 ∧
      b.handle = s1.pm_block_handle_used ∧
      s2.log = s1.log ++ [HostCall.shm_unlink ("/dosemu_" ++ name)] ∧
      shm_lookup s2.shm_objects ("/dosemu_" ++ name) = some (PAGE_ALIGN size2) ∧
      count_shm_blocks s2.root name = count_shm_blocks s1.root name + 1 := by
  have hex := DPMI_mallocShared_object h
  refine ⟨_, _, DPMI_mallocShared_excl_existing cfg host2 s1 name size2 addr noexec2 hsz hex
    h1 h2 h3 h4, rfl, rfl, rfl, rfl, rfl, shm_lookup_cons_self _ _ _, ?_⟩
  simp [count_shm_blocks]

/-- Witness of C19 (amended): the name `X` allocated twice, the second time
exclusively. -/
theorem exclusive_shared_unlinks_witness :
    ∃ s2 b, DPMI_mallocShared cfg_demo host_demo2 demo_shared "X" 4096 true false =
        .ok (some 0, s2) ∧
      s2.root = b :: demo_shared.root ∧ b.shmname = some "X" ∧ b.size = PAGE_ALIGN 4096 ∧
      b.handle = demo_shared.pm_block_handle_used ∧
      s2.log = demo_shared.log ++ [HostCall.shm_unlink ("/dosemu_" ++ "X")] ∧
      shm_lookup s2.shm_objects ("/dosemu_" ++ "X") = some (PAGE_ALIGN 4096) ∧
      count_shm_blocks s2.root "X" = count_shm_blocks demo_shared.root "X" + 1 :=
  exclusive_shared_unlinks cfg_demo host_demo host_demo2 demo_empty demo_shared "X" 4096 4096 0
    0x20001000 false false false (by rfl) (by decide) (by rfl) (by rfl) (by rfl) (by rfl)

/-! ## How each call changes the block list -/

theorem root_step_same {host : Host} {c : Call} {s s' : State} (h1 : s'.root = s.root)
    (h2 : s'.pm_block_handle_used = s.pm_block_handle_used) : root_step host c s s' :=
  root_step.shrink (h1 ▸ List.Sublist.refl _) h2

theorem root_step_erase {host : Host} {c : Call} {s s' : State} (p : Nat)
    (h1 : s'.root = s.root.eraseIdx p)
    (h2 : s'.pm_block_handle_used = s.pm_block_handle_used) : root_step host c s s' :=
  root_step.shrink (by rw [h1]; exact List.eraseIdx_sublist _ _) h2

theorem DPMI_malloc_shape {cfg : Config} {host : Host} {s s' : State} {size : Nat}
    {r : Option Nat} (h : DPMI_malloc cfg host s size = .ok (r, s')) :
    root_step host (.malloc size) s s' := by
  rcases DPMI_malloc_cases h with ⟨_, rfl⟩ | ⟨realbase, hp, _, _, rfl⟩
  · exact root_step_same rfl rfl
  · exact root_step.create _ rfl rfl rfl (Or.inr ⟨hp, rfl⟩)

theorem DPMI_mallocLinear_shape {cfg : Config} {host : Host} {s s' : State} {base size : Nat}
    {committed : Bool} {r : Option Nat}
    (h : DPMI_mallocLinear cfg host s base size committed = .ok (r, s')) :
    root_step host (.mallocLinear base size committed) s s' := by
  rcases DPMI_mallocLinear_cases h with ⟨_, rfl⟩ | ⟨realbase, hp, _, _, _, _, rfl⟩
  · exact root_step_same rfl rfl
  · exact root_step.create _ rfl rfl rfl (Or.inr ⟨hp, rfl⟩)

theorem DPMI_mapHWRam_shape {cfg : Config} {host : Host} {s s' : State} {hwaddr size : Nat}
    {r : Option Nat} (h : DPMI_mapHWRam cfg host s hwaddr size = .ok (r, s')) :
    root_step host (.mapHWRam hwaddr size) s s' := by
  unfold DPMI_mapHWRam at h
  split at h
  · cases h; exact root_step_same rfl rfl
  · cases h
    exact root_step.create _ rfl rfl rfl (Or.inl rfl)

theorem lookup_pm_block_by_addr_some :
    ∀ (root : List dpmi_pm_block) (addr p : Nat) (b : dpmi_pm_block),
      lookup_pm_block_by_addr root addr = some (p, b) → root[p]? = some b
  | [], _, _, _, hl => by simp [lookup_pm_block_by_addr] at hl
  | x :: xs, addr, p, b, hl => by
    unfold lookup_pm_block_by_addr at hl
    split_ifs at hl with hx
    · cases hl; simp
    · cases hr : lookup_pm_block_by_addr xs addr with
      | none => rw [hr] at hl; cases hl
      | some r =>
        rw [hr] at hl
        obtain ⟨q, c⟩ := r
        cases hl
        have := lookup_pm_block_by_addr_some xs addr q c hr
        simpa using this

theorem DPMI_unmapHWRam_shape {cfg : Config} {host : Host} {s s' : State} {vbase : Nat}
    {r : Int} (h : DPMI_unmapHWRam cfg host s vbase = .ok (r, s')) :
    root_step host (.unmapHWRam vbase) s s' := by
  unfold DPMI_unmapHWRam at h
  split at h
  · cases h; exact root_step_same rfl rfl
  · rename_i p block hl
    have hp := lookup_pm_block_by_addr_some _ _ _ _ hl
    split at h
    · cases h; exact root_step_erase p rfl rfl
    split at h
    · split at h
      · cases h; exact root_step_erase p rfl rfl
      · cases h
        exact root_step.modify p block { block with mapped := false } hp rfl rfl rfl
          (fun hc => by cases hc) rfl rfl rfl
    · cases h; exact root_step_same rfl rfl

theorem DPMI_free_shape {cfg : Config} {host : Host} {s s' : State} {handle : Nat} {r : Int}
    (h : DPMI_free cfg host s handle = .ok (r, s')) : root_step host (.free handle) s s' := by
  rcases DPMI_free_cases h with ⟨_, rfl, _⟩ | ⟨p, _, _, _, _, _, _, _, _, _, rfl⟩
  · exact root_step_same rfl rfl
  · exact root_step_erase p rfl rfl

theorem DPMI_mallocShared_shape {cfg : Config} {host : Host} {s s' : State} {name : String}
    {size : Nat} {excl noexec : Bool} {r : Option Nat}
    (h : DPMI_mallocShared cfg host s name size excl noexec = .ok (r, s')) :
    root_step host (.mallocShared name size excl noexec) s s' := by
  unfold DPMI_mallocShared at h
  split at h
  · cases h; exact root_step_same rfl rfl
  split at h
  · cases h; exact root_step_same rfl rfl
  split at h
  rename_i objs calls heq
  dsimp only at h
  split at h
  · cases h
  split at h
  · cases h; exact root_step_same rfl rfl
  split at h
  · cases h; exact root_step_same rfl rfl
  rename_i addr hp
  split at h
  · cases h; exact root_step_same rfl rfl
  · cases h
    refine root_step.create _ rfl rfl rfl (Or.inr ⟨hp, ?_⟩)
    simp only [pool_request, heq]

theorem DPMI_freeShared_shape {cfg : Config} {host : Host} {s s' : State} {handle : Nat}
    {unlnk : Bool} {r : Int} (h : DPMI_freeShared cfg host s handle unlnk = .ok (r, s')) :
    root_step host (.freeShared handle unlnk) s s' := by
  unfold DPMI_freeShared at h
  split at h
  · cases h; exact root_step_same rfl rfl
  · rename_i p ptr hl
    split at h
    · cases h; exact root_step_same rfl rfl
    · cases h; exact root_step_erase p rfl rfl

theorem DPMI_freeShPartial_shape {cfg : Config} {host : Host} {s s' : State} {handle : Nat}
    {unlnk : Bool} {r : Int} (h : DPMI_freeShPartial cfg host s handle unlnk = .ok (r, s')) :
    root_step host (.freeShPartial handle unlnk) s s' := by
  unfold DPMI_freeShPartial at h
  dsimp only at h
  split at h
  · cases h; exact root_step_same rfl rfl
  · rename_i p ptr hl
    have hp := (lookup_pm_block_some _ _ _ _ hl).1
    split at h
    · cases h; exact root_step_same rfl rfl
    · split at h
      · cases h
        exact root_step.modify p ptr { ptr with shmname := none, rshmname := none } hp rfl rfl
          rfl (fun hc => hc) rfl rfl rfl
      · cases h; exact root_step_erase p rfl rfl

theorem DPMI_reallocLinear_shape {cfg : Config} {host : Host} {s s' : State}
    {handle newsize : Nat} {committed : Bool} {r : Option Nat} (c : Call)
    (hreq : ∀ p b, lookup_pm_block s.root handle = some (p, b) → b.linear = true →
      pool_request s c = some (PAGE_ALIGN64 newsize, some p))
    (h : DPMI_reallocLinear cfg host s handle newsize committed = .ok (r, s')) :
    root_step host c s s' := by
  rcases DPMI_reallocLinear_cases h with ⟨⟨h1, _, h3, _⟩, _⟩ |
    ⟨p, block, ptr, attrs, mem, calls, _, hl, hlin, hp, _, _, _, _, _, rfl⟩
  · exact root_step_same h1 h3
  · exact root_step.resize p block _ (PAGE_ALIGN64 newsize) (lookup_pm_block_some _ _ _ _ hl).1
      rfl rfl rfl hp (hreq p block hl hlin) (Nat.mod_le _ _) rfl

theorem DPMI_realloc_shape {cfg : Config} {host : Host} {s s' : State}
    {handle newsize : Nat} {r : Option Nat}
    (h : DPMI_realloc cfg host s handle newsize = .ok (r, s')) :
    root_step host (.realloc handle newsize) s s' := by
  rcases DPMI_realloc_cases h with ⟨_, _, _, _, hl⟩ | ⟨⟨h1, _, h3, _⟩, _⟩ |
    ⟨p, block, ptr, attrs, mem, calls, _, hl, hlin, hp, _, _, _, _, _, rfl⟩
  · refine DPMI_reallocLinear_shape _ ?_ hl
    intro p b hlk hb
    simp only [pool_request, hlk, hb, if_true]
  · exact root_step_same h1 h3
  · refine root_step.resize p block _ (PAGE_ALIGN newsize) (lookup_pm_block_some _ _ _ _ hl).1
      rfl rfl rfl hp ?_ (Nat.le_refl _) rfl
    simp only [pool_request, hl, hlin, Bool.false_eq_true, if_false]

theorem DPMI_freeShared_sub {cfg : Config} {host : Host} {s s' : State} {handle : Nat}
    {unlnk : Bool} {r : Int} (h : DPMI_freeShared cfg host s handle unlnk = .ok (r, s')) :
    List.Sublist s'.root s.root ∧ s'.pm_block_handle_used = s.pm_block_handle_used := by
  unfold DPMI_freeShared at h
  split at h
  · cases h; exact ⟨List.Sublist.refl _, rfl⟩
  · split at h
    · cases h; exact ⟨List.Sublist.refl _, rfl⟩
    · cases h; exact ⟨List.eraseIdx_sublist _ _, rfl⟩

theorem DPMI_freeAll_loop_shape {cfg : Config} {host : Host} :
    ∀ (fuel : Nat) (s s' : State), DPMI_freeAll_loop cfg host fuel s = .ok s' →
      List.Sublist s'.root s.root ∧ s'.pm_block_handle_used = s.pm_block_handle_used := by
  intro fuel
  induction fuel with
  | zero =>
    intro s s' h
    simp only [DPMI_freeAll_loop] at h
    cases h; exact ⟨List.Sublist.refl _, rfl⟩
  | succ fuel ih =>
    intro s s' h
    simp only [DPMI_freeAll_loop] at h
    split at h
    · cases h; exact ⟨List.Sublist.refl _, rfl⟩
    · split at h
      · obtain ⟨h1, h2⟩ := ih _ _ h
        exact ⟨h1.trans (List.eraseIdx_sublist _ _), h2⟩
      · split at h
        · split at h
          · cases h
          · rename_i r hr
            obtain ⟨h1, h2⟩ := ih _ _ h
            obtain ⟨k1, k2⟩ := @DPMI_freeShared_sub cfg host s r.2 _ true r.1 hr
            exact ⟨h1.trans k1, h2.trans k2⟩
        · split at h
          · cases h
          · rename_i r hr
            obtain ⟨h1, h2⟩ := ih _ _ h
            rcases @DPMI_free_cases cfg host s r.2 _ r.1 hr with ⟨_, k, _⟩ | ⟨p, _, _, _, _, _, _, _, _, _, k⟩
            · rw [k] at h1 h2; exact ⟨h1, h2⟩
            · rw [k] at h1 h2; exact ⟨h1.trans (List.eraseIdx_sublist _ _), h2⟩

theorem DPMI_MapConventionalMemory_shape {cfg : Config} {host : Host} {s s' : State}
    {handle offset low_addr cnt : Nat} {r : Int} {c : Call}
    (h : DPMI_MapConventionalMemory cfg host s handle offset low_addr cnt = .ok (r, s')) :
    root_step host c s s' := by
  unfold DPMI_MapConventionalMemory at h
  split at h
  · cases h; exact root_step_same rfl rfl
  · rename_i p block hl
    have hp := (lookup_pm_block_some _ _ _ _ hl).1
    dsimp only at h
    split at h
    · cases h; exact root_step_same rfl rfl
    · split at h
      · split at h
        · cases h
        · cases h; exact root_step_same rfl rfl
      · split at h
        · cases h
        · cases h
          exact root_step.modify p block _ hp rfl rfl rfl (fun hc => hc) rfl rfl rfl

theorem DPMI_SetPageAttributes_shape {cfg : Config} {host : Host} {s s' : State}
    {handle : Nat} {offs count : Int} {attrs : List Nat} {r : Int} {c : Call}
    (h : DPMI_SetPageAttributes cfg host s handle offs attrs count = .ok (r, s')) :
    root_step host c s s' := by
  unfold DPMI_SetPageAttributes at h
  split at h
  · cases h; exact root_step_same rfl rfl
  · rename_i p block hl
    have hp := (lookup_pm_block_some _ _ _ _ hl).1
    split at h
    · cases h; exact root_step_same rfl rfl
    · split at h
      · cases h
      · cases h
        exact root_step.modify p block _ hp rfl rfl rfl (fun hc => hc) rfl rfl rfl

theorem step_root_step {cfg : Config} {host : Host} {s s' : State} {c : Call}
    (h : step cfg host s c = .ok s') : root_step host c s s' := by
  cases c with
  | malloc size =>
    simp only [step] at h
    cases hr : DPMI_malloc cfg host s size with
    | error f => rw [hr] at h; cases h
    | ok r => rw [hr] at h; cases h; exact DPMI_malloc_shape hr
  | mallocLinear base size committed =>
    simp only [step] at h
    cases hr : DPMI_mallocLinear cfg host s base size committed with
    | error f => rw [hr] at h; cases h
    | ok r => rw [hr] at h; cases h; exact DPMI_mallocLinear_shape hr
  | mapHWRam hwaddr size =>
    simp only [step] at h
    cases hr : DPMI_mapHWRam cfg host s hwaddr size with
    | error f => rw [hr] at h; cases h
    | ok r => rw [hr] at h; cases h; exact DPMI_mapHWRam_shape hr
  | unmapHWRam vbase =>
    simp only [step] at h
    cases hr : DPMI_unmapHWRam cfg host s vbase with
    | error f => rw [hr] at h; cases h
    | ok r => rw [hr] at h; cases h; exact DPMI_unmapHWRam_shape hr
  | free handle =>
    simp only [step] at h
    cases hr : DPMI_free cfg host s handle with
    | error f => rw [hr] at h; cases h
    | ok r => rw [hr] at h; cases h; exact DPMI_free_shape hr
  | mallocShared name size excl noexec =>
    simp only [step] at h
    cases hr : DPMI_mallocShared cfg host s name size excl noexec with
    | error f => rw [hr] at h; cases h
    | ok r => rw [hr] at h; cases h; exact DPMI_mallocShared_shape hr
  | freeShared handle unlnk =>
    simp only [step] at h
    cases hr : DPMI_freeShared cfg host s handle unlnk with
    | error f => rw [hr] at h; cases h
    | ok r => rw [hr] at h; cases h; exact DPMI_freeShared_shape hr
  | freeShPartial handle unlnk =>
    simp only [step] at h
    cases hr : DPMI_freeShPartial cfg host s handle unlnk with
    | error f => rw [hr] at h; cases h
    | ok r => rw [hr] at h; cases h; exact DPMI_freeShPartial_shape hr
  | realloc handle newsize =>
    simp only [step] at h
    cases hr : DPMI_realloc cfg host s handle newsize with
    | error f => rw [hr] at h; cases h
    | ok r => rw [hr] at h; cases h; exact DPMI_realloc_shape hr
  | reallocLinear handle newsize committed =>
    simp only [step] at h
    cases hr : DPMI_reallocLinear cfg host s handle newsize committed with
    | error f => rw [hr] at h; cases h
    | ok r =>
      rw [hr] at h; cases h
      refine DPMI_reallocLinear_shape _ ?_ hr
      intro p b hlk _
      simp only [pool_request, hlk]
  | freeAll =>
    simp only [step, DPMI_freeAll] at h
    obtain ⟨h1, h2⟩ := DPMI_freeAll_loop_shape _ _ _ h
    exact root_step.shrink h1 h2
  | mapConventionalMemory handle offset low_addr cnt =>
    simp only [step] at h
    cases hr : DPMI_MapConventionalMemory cfg host s handle offset low_addr cnt with
    | error f => rw [hr] at h; cases h
    | ok r => rw [hr] at h; cases h; exact DPMI_MapConventionalMemory_shape hr
  | setPageAttributes handle offs attrs count =>
    simp only [step] at h
    cases hr : DPMI_SetPageAttributes cfg host s handle offs attrs count with
    | error f => rw [hr] at h; cases h
    | ok r => rw [hr] at h; cases h; exact DPMI_SetPageAttributes_shape hr

/-! ## Handles -/

theorem map_handle_set (l : List dpmi_pm_block) (p : Nat) (b b' : dpmi_pm_block)
    (hp : l[p]? = some b) (hh : b'.handle = b.handle) :
    (l.set p b').map (fun x : dpmi_pm_block => x.handle) =
      l.map (fun x : dpmi_pm_block => x.handle) := by
  induction l generalizing p with
  | nil => rfl
  | cons a t ih =>
    cases p with
    | zero =>
      simp only [List.getElem?_cons_zero, Option.some.injEq] at hp
      subst hp
      simp only [List.set_cons_zero, List.map_cons, hh]
    | succ k =>
      simp only [List.getElem?_cons_succ] at hp
      simp only [List.set_cons_succ, List.map_cons, ih k hp]

/-- The handle invariant: every handle in the list lies below the counter and
no handle occurs twice. -/
theorem root_step_handles {host : Host} {c : Call} {s s' : State}
    (hs : root_step host c s s') (hw : s.pm_block_handle_used < 4294967295)
    (h1 : ∀ b ∈ s.root, b.handle < s.pm_block_handle_used)
    (h2 : (s.root.map fun x : dpmi_pm_block => x.handle).Nodup) :
    (∀ b ∈ s'.root, b.handle < s'.pm_block_handle_used) ∧
      (s'.root.map fun x : dpmi_pm_block => x.handle).Nodup ∧
      s.pm_block_handle_used ≤ s'.pm_block_handle_used ∧
      (s'.root = s.root ∨ List.Sublist s'.root s.root ∨
        (s'.root.map fun x : dpmi_pm_block => x.handle) =
          (s.root.map fun x : dpmi_pm_block => x.handle) ∨
        ∃ b, s'.root = b :: s.root ∧ b.handle = s.pm_block_handle_used) := by
  cases hs with
  | shrink hsub hc =>
    refine ⟨fun b hb => ?_, ?_, Nat.le_of_eq hc.symm, Or.inr (Or.inl hsub)⟩
    · rw [hc]; exact h1 b (hsub.subset hb)
    · exact h2.sublist (hsub.map _)
  | modify p b b' hp hr hh _ _ _ _ hc =>
    have hm := map_handle_set s.root p b b' hp hh
    rw [← hr] at hm
    refine ⟨fun x hx => ?_, by rw [hm]; exact h2, Nat.le_of_eq hc.symm, Or.inr (Or.inr (Or.inl hm))⟩
    rw [hc]
    rw [hr] at hx
    rcases List.mem_or_eq_of_mem_set hx with hx | hx
    · exact h1 x hx
    · rw [hx, hh]; exact h1 b (mem_of_getElem? hp)
  | resize p b b' sz hp hr hh _ _ _ _ hc =>
    have hm := map_handle_set s.root p b b' hp hh
    rw [← hr] at hm
    refine ⟨fun x hx => ?_, by rw [hm]; exact h2, Nat.le_of_eq hc.symm, Or.inr (Or.inr (Or.inl hm))⟩
    rw [hc]
    rw [hr] at hx
    rcases List.mem_or_eq_of_mem_set hx with hx | hx
    · exact h1 x hx
    · rw [hx, hh]; exact h1 b (mem_of_getElem? hp)
  | create b hr hh hc _ =>
    have hc2 : s'.pm_block_handle_used = s.pm_block_handle_used + 1 := by
      rw [hc]; unfold u32; omega
    refine ⟨fun x hx => ?_, ?_, by omega, Or.inr (Or.inr (Or.inr ⟨b, hr, hh⟩))⟩
    · rw [hr] at hx
      rcases List.mem_cons.1 hx with hx | hx
      · rw [hx, hh, hc2]; omega
      · have := h1 x hx; omega
    · rw [hr, List.map_cons, List.nodup_cons]
      refine ⟨fun hm => ?_, h2⟩
      obtain ⟨x, hx, hxe⟩ := List.mem_map.1 hm
      have := h1 x hx
      omega

theorem ReachableWith_handles {cfg : Config} {s : State} (hr : ReachableWith cfg no_wrap s) :
    (∀ b ∈ s.root, b.handle < s.pm_block_handle_used) ∧
      (s.root.map fun x : dpmi_pm_block => x.handle).Nodup := by
  induction hr with
  | init h objs => exact ⟨fun b hb => (by cases hb), List.nodup_nil⟩
  | call host c _ hside hstep ih =>
    have := root_step_handles (step_root_step hstep) hside ih.1 ih.2
    exact ⟨this.1, this.2.1⟩

theorem lookup_pm_block_head (b : dpmi_pm_block) (rest : List dpmi_pm_block) :
    lookup_pm_block (b :: rest) b.handle = some (0, b) := by
  simp [lookup_pm_block]

theorem demo_kept_malloc (c : Nat) (log : List HostCall) :
    step cfg_demo host_demo2 (demo_kept c log) (Call.malloc 4096) =
      .ok (demo_kept_two c (u32 (c + 1)) log) := by
  have e1 : PAGE_ALIGN 4096 = 4096 := by decide
  have e2 : ¬ (4096 > u32 (sub32 cfg_demo.dpmi_total_memory 4096 + dpmi_reserved_space)) := by
    decide
  have e3 : (4096 : Nat) >>> PAGE_SHIFT = 1 := by decide
  have e4 : u32 (4096 + 4096) = 8192 := by decide
  simp only [step, DPMI_malloc, e1, demo_kept, e2, if_false, e3, e4]
  rfl

theorem demo_empty_malloc :
    step cfg_demo host_demo ⟨[], 0, 0, [], []⟩ (Call.malloc 4096) =
      .ok (demo_kept (u32 (1 + 0)) []) := by
  rfl

theorem demo_kept_free (c c' : Nat) (log : List HostCall) :
    step cfg_demo host_demo2 (demo_kept_two c c' log) (Call.free c) =
      .ok (demo_kept c' (log ++ [HostCall.e_invalidate_full 0x20001000 4096] ++
        [HostCall.smfree false 0x20001000])) := by
  have hl : lookup_pm_block (demo_kept_two c c' log).root c =
      some (0, demo_page_block c 0x20001000) := lookup_pm_block_head (demo_page_block c _) _
  have h1 : free_release (demo_page_block c 0x20001000) =
      .ok [HostCall.smfree false 0x20001000] := rfl
  have e3 : (4096 : Nat) >>> PAGE_SHIFT = 1 := by decide
  have e7 : (9 &&& 7 : Nat) = 1 := by decide
  have h2 : account_pages (demo_page_block c 0x20001000).attrs
      ((demo_page_block c 0x20001000).size >>> PAGE_SHIFT) (demo_kept_two c c' log).mem_allocd =
      .ok 4096 := by
    simp only [demo_page_block, demo_kept_two, e3]
    simp [account_pages, PAGE_SIZE, e7]
  have h3 : ¬ ((demo_page_block c 0x20001000).hwram = true) := by simp [demo_page_block]
  have h4 : ¬ ((demo_page_block c 0x20001000).shmname.isSome = true) := by
    simp [demo_page_block]
  simp only [step, DPMI_free, hl]
  rw [if_neg h3, if_neg h4, h1, h2]
  rfl

theorem demo_kept_reachable (n : Nat) :
    ∃ log, ReachableBy cfg_demo Call.core (demo_kept (u32 (1 + n)) log) := by
  induction n with
  | zero =>
    exact ⟨[], ReachableBy.call host_demo (Call.malloc 4096) (ReachableBy.init 0 []) True.intro
      True.intro (demo_empty_malloc)⟩
  | succ n ih =>
    obtain ⟨log, h⟩ := ih
    refine ⟨log ++ [HostCall.e_invalidate_full 0x20001000 4096] ++
      [HostCall.smfree false 0x20001000], ?_⟩
    have e : u32 (1 + (n + 1)) = u32 (u32 (1 + n) + 1) := by unfold u32; omega
    rw [e]
    exact ReachableBy.call host_demo2 (Call.free (u32 (1 + n)))
      (ReachableBy.call host_demo2 (Call.malloc 4096) h True.intro True.intro
        (demo_kept_malloc (u32 (1 + n)) log)) True.intro True.intro
      (demo_kept_free (u32 (1 + n)) (u32 (u32 (1 + n) + 1)) log)

/-- C14 as stated does not hold: the handle counter is a 32-bit `unsigned int`
and wraps. From the empty root with the counter at `0`, `DPMI_malloc` of one
page creates the block of handle `0`; `2^32 - 1` rounds of `DPMI_malloc`
followed by `DPMI_free` of the new block bring the counter back to `0` while
the first block stays; the next `DPMI_malloc` creates a second block of handle
`0`, which is not greater than the handles handed out before. -/
theorem handle_reused_after_wrap :
    ∃ s, ReachableBy cfg_demo Call.core s ∧
      s.root = [demo_page_block 0 0x20001000, demo_page_block 0 0x20000000] ∧
      ¬ (s.root.map fun b : dpmi_pm_block => b.handle).Nodup := by
  obtain ⟨log, h⟩ := demo_kept_reachable 4294967295
  have e : u32 (1 + 4294967295) = 0 := by decide
  rw [e] at h
  refine ⟨demo_kept_two 0 (u32 (0 + 1)) log,
    ReachableBy.call host_demo2 (Call.malloc 4096) h trivial trivial (demo_kept_malloc _ _),
    rfl, ?_⟩
  simp [demo_kept_two, demo_page_block]

/-! ## Address ranges -/

theorem pairwise_set {α : Type} {R : α → α → Prop} :
    ∀ (l : List α) (p : Nat) (b' : α), l.Pairwise R →
      (∀ i x, i ≠ p → l[i]? = some x → R b' x ∧ R x b') → (l.set p b').Pairwise R
  | [], _, _, _, _ => List.Pairwise.nil
  | a :: t, 0, b', hp, h => by
    rw [List.set_cons_zero]
    rw [List.pairwise_cons] at hp ⊢
    refine ⟨fun x hx => ?_, hp.2⟩
    obtain ⟨i, hi⟩ := List.getElem?_of_mem hx
    exact (h (i + 1) x (by omega) (by simpa using hi)).1
  | a :: t, k + 1, b', hp, h => by
    rw [List.set_cons_succ]
    rw [List.pairwise_cons] at hp ⊢
    refine ⟨fun x hx => ?_, pairwise_set t k b' hp.2 fun i x hi hx => ?_⟩
    · rcases List.mem_or_eq_of_mem_set hx with hx | hx
      · exact hp.1 x hx
      · rw [hx]; exact (h 0 a (by omega) (by simp)).2
    · exact h (i + 1) x (by omega) (by simpa using hx)

theorem apart_symm {a b : dpmi_pm_block} (h : apart a b) : apart b a := by
  intro h1 h2 h3 h4
  have := h h2 h1 h4 h3
  unfold ranges_disjoint at this ⊢
  omega

theorem root_step_apart {host : Host} {c : Call} {s s' : State}
    (hs : root_step host c s s') (hf : pool_fresh host s c)
    (hp : s.root.Pairwise apart) : s'.root.Pairwise apart := by
  cases hs with
  | shrink hsub _ => exact hp.sublist hsub
  | modify p b b' hb hr hh hhw hm hbase hsize hc =>
    rw [hr]
    have hall : ∀ i x, i ≠ p → s.root[i]? = some x → apart b x := by
      intro i x hi hx
      have hpw := List.pairwise_iff_getElem.1 hp
      obtain ⟨hil, hxe⟩ := List.getElem?_eq_some_iff.1 hx
      obtain ⟨hpl, hbe⟩ := List.getElem?_eq_some_iff.1 hb
      rcases Nat.lt_or_gt_of_ne hi with hlt | hgt
      · have := hpw i p hil hpl hlt
        rw [hxe, hbe] at this
        exact apart_symm this
      · have := hpw p i hpl hil hgt
        rw [hxe, hbe] at this
        exact this
    refine pairwise_set _ _ _ hp fun i x hi hx => ?_
    have hbx : apart b' x := by
      intro h1 h2 h3 h4
      rw [hbase, hsize]
      exact hall i x hi hx (hm h1) h2 (by rw [← hhw]; exact h3) h4
    exact ⟨hbx, apart_symm hbx⟩
  | resize p b b' sz hb hr hh hhw hpool hreq hsz hc =>
    rw [hr]
    refine pairwise_set _ _ _ hp fun i x hi hx => ?_
    have hbx : apart b' x := by
      intro h1 h2 h3 h4
      have := hf _ _ _ hpool hreq i x hx (by intro he; cases he; exact hi rfl) h2 h4
      unfold ranges_disjoint at this ⊢
      omega
    exact ⟨hbx, apart_symm hbx⟩
  | create b hr hh hc hor =>
    rw [hr, List.pairwise_cons]
    refine ⟨fun x hx => ?_, hp⟩
    intro h1 h2 h3 h4
    rcases hor with hw | ⟨hpool, hreq⟩
    · rw [hw] at h3; cases h3
    · obtain ⟨i, hi⟩ := List.getElem?_of_mem hx
      exact hf _ _ _ hpool hreq i x hi (by intro he; cases he) h2 h4

theorem ReachableWith_apart {cfg : Config} {s : State}
    (hr : ReachableWith cfg (fun s host c => pool_fresh host s c) s) :
    s.root.Pairwise apart := by
  induction hr with
  | init h objs => exact List.Pairwise.nil
  | call host c _ hside hstep ih => exact root_step_apart (step_root_step hstep) hside ih

theorem pool_fresh_of_no_request {host : Host} {s : State} {c : Call}
    (h : pool_request s c = none) : pool_fresh host s c := by
  intro a sz skip _ hreq
  rw [h] at hreq
  cases hreq

/-- C15 as stated does not hold: hardware-RAM blocks take their base from
`get_hardware_ram`, not from the pool. Mapping the same hardware page twice
(the pool is not consulted, so it hands out no overlapping areas) leaves two
blocks, both marked mapped, with the same range `[0xA0000, 0xA1000)`. -/
theorem hwram_mapped_twice_overlap :
    ReachableWith cfg_demo (fun s host c => pool_fresh host s c) demo_hwram_twice ∧
      ∃ a b, demo_hwram_twice.root = [a, b] ∧ a.mapped = true ∧ b.mapped = true ∧
        a.base = b.base ∧ a.size = 4096 ∧ b.size = 4096 ∧
        ¬ ranges_disjoint a.base a.size b.base b.size := by
  refine ⟨ReachableWith.call host_demo (Call.mapHWRam 0xA0000 4096)
    (ReachableWith.call host_demo (Call.mapHWRam 0xA0000 4096) (ReachableWith.init 0 [])
      (pool_fresh_of_no_request rfl)
      (by rfl : step cfg_demo host_demo demo_empty (Call.mapHWRam 0xA0000 4096) = .ok demo_hwram))
    (pool_fresh_of_no_request rfl) (by rfl), _, _, rfl, rfl, rfl, rfl, rfl, rfl, ?_⟩
  unfold ranges_disjoint demo_hwram_block
  decide

/-- C15 (amended): in every state reached from an empty root by calls of the
interface during each of which the pool hands out no area that meets a mapped
pool-backed block of the root (the block being resized apart), any two
distinct blocks of the root that are both marked mapped and are not
hardware-RAM blocks have disjoint ranges `[base, base + size)`. -/
theorem pool_blocks_disjoint (cfg : Config) (s : State)
    (hr : ReachableWith cfg (fun s host c => pool_fresh host s c) s) :
    ∀ (i j : Nat) (a b : dpmi_pm_block), i ≠ j → s.root[i]? = some a → s.root[j]? = some b →
      a.mapped = true → b.mapped = true → a.hwram = false → b.hwram = false →
      ranges_disjoint a.base a.size b.base b.size := by
  intro i j a b hij ha hb
  have hp := List.pairwise_iff_getElem.1 (ReachableWith_apart hr)
  obtain ⟨hil, hae⟩ := List.getElem?_eq_some_iff.1 ha
  obtain ⟨hjl, hbe⟩ := List.getElem?_eq_some_iff.1 hb
  rcases Nat.lt_or_gt_of_ne hij with hlt | hgt
  · have := hp i j hil hjl hlt
    rw [hae, hbe] at this
    exact this
  · have := hp j i hjl hil hgt
    rw [hae, hbe] at this
    exact apart_symm this

theorem demo_kept_two_reachable :
    ReachableWith cfg_demo (fun s host c => pool_fresh host s c) (demo_kept_two 1 2 []) := by
  refine ReachableWith.call host_demo2 (Call.malloc 4096)
    (ReachableWith.call host_demo (Call.malloc 4096) (ReachableWith.init 0 []) ?_
      (by rfl : step cfg_demo host_demo demo_empty (Call.malloc 4096) = .ok (demo_kept 1 [])))
    ?_ (by rfl)
  · intro a sz skip _ _ i x hx
    simp [demo_empty] at hx
  · intro a sz skip ha hreq i x hx _ _ _
    cases ha
    cases hreq
    cases i with
    | zero =>
      simp only [demo_kept, List.getElem?_cons_zero, Option.some.injEq] at hx
      subst hx
      unfold ranges_disjoint demo_page_block
      decide
    | succ k => simp [demo_kept] at hx

/-- Witness of C15: two one-page blocks granted by the pool at `0x20000000`
and `0x20001000`. -/
theorem pool_blocks_disjoint_witness :
    ReachableWith cfg_demo (fun s host c => pool_fresh host s c) (demo_kept_two 1 2 []) ∧
      ranges_disjoint 0x20001000 4096 0x20000000 4096 :=
  ⟨demo_kept_two_reachable,
    pool_blocks_disjoint cfg_demo (demo_kept_two 1 2 []) demo_kept_two_reachable 0 1
      (demo_page_block 1 0x20001000) (demo_page_block 0 0x20000000) (by decide) rfl rfl rfl rfl
      rfl rfl⟩

/-! ## Conventional-memory mapping and the counter -/

theorem DPMI_MapConventionalMemory_counter {cfg : Config} {host : Host} {s s' : State}
    {handle offset low_addr cnt : Nat} {r : Int}
    (h : DPMI_MapConventionalMemory cfg host s handle offset low_addr cnt = .ok (r, s')) :
    s'.mem_allocd = s.mem_allocd := by
  unfold DPMI_MapConventionalMemory at h
  split at h
  · cases h; rfl
  · dsimp only at h
    split at h
    · cases h; rfl
    · split at h
      · split at h
        · cases h
        · cases h; rfl
      · split at h
        · cases h
        · cases h; rfl

/-- C21: `DPMI_MapConventionalMemory` does not touch the counter. After
`DPMI_malloc` of one page on the empty root (counter one page, one committed
page), mapping that page turns its word from 9 to 10 (commit-type 2) and
leaves the counter at one page although no page is committed any more; the
`DPMI_free` that follows gives nothing back, since it counts the words with
`(w & 7) == 1` only, and leaves an empty root with the counter at one page
instead of the `0` it had before the block was allocated. -/
theorem map_conventional_keeps_counter :
    DPMI_malloc cfg_demo host_demo demo_empty 4096 = .ok (some 0, demo_kept 1 []) ∧
    committed_total (demo_kept 1 []).root = 1 ∧
    DPMI_MapConventionalMemory cfg_demo host_demo (demo_kept 1 []) 0 0 0xA0000 1 =
      .ok (0, demo_mapped) ∧
    committed_total demo_mapped.root = 0 ∧
    demo_mapped.mem_allocd = PAGE_SIZE ∧
    DPMI_free cfg_demo host_demo demo_mapped 0 = .ok (0, demo_mapped_freed) ∧
    demo_mapped_freed.root = [] ∧
    demo_mapped_freed.mem_allocd = PAGE_SIZE ∧ demo_empty.mem_allocd = 0 :=
  ⟨by rfl, by rfl, by rfl, by rfl, by rfl, by rfl, by rfl, by rfl, by rfl⟩

/-! ## Host protection across a resize -/

/-- C23: a resize loses the read-only restriction of a committed page. The
page of a one-page general block is made read-only (word 1, host protection
read and execute); `DPMI_realloc` to two pages then opens the old range for
read, write and execute, and `restore_page_protection` touches uncommitted
pages only: the word of page 0 is still 1, its host protection is read, write
and execute. -/
theorem realloc_drops_read_only :
    step cfg_demo host_demo (demo_kept 1 []) (Call.setPageAttributes 0 0 [1] 1) =
      .ok demo_readonly ∧
    page_prot 0x20000000 demo_readonly.log none = some (word_prot 1) ∧
    DPMI_realloc cfg_demo host_demo demo_readonly 0 8192 = .ok (some 0, demo_readonly_grown) ∧
    demo_readonly_grown.root.map (fun b : dpmi_pm_block => b.attrs) = [[1, 9]] ∧
    page_prot 0x20000000 demo_readonly_grown.log none =
      some (PROT_READ ||| PROT_WRITE ||| PROT_EXEC) ∧
    word_prot 1 = PROT_READ ||| PROT_EXEC ∧
    word_prot 1 ≠ PROT_READ ||| PROT_WRITE ||| PROT_EXEC :=
  ⟨by rfl, by rfl, by rfl, by rfl, by rfl, by decide, by decide⟩

/-! ## The range check of the file backend -/

theorem alias_mapping_file_rejects (mpool_numpages mpool source mapsize : Nat)
    (h1 : mpool ≤ source) (h2 : source - mpool + mapsize < 18446744073709551616) :
    alias_mapping_file mpool_numpages mpool source mapsize = none ↔
      mpool_numpages * PAGE_SIZE ≤ source - mpool + mapsize := by
  unfold alias_mapping_file u64 u64_of_int
  have e : ((source : Int) - (mpool : Int)) = ((source - mpool : Nat) : Int) := by omega
  simp only [e]
  have e2 : (((source - mpool : Nat) : Int) % 18446744073709551616).toNat = source - mpool := by
    omega
  rw [e2, Nat.mod_eq_of_lt h2]
  have e3 : ¬ (((source - mpool : Nat) : Int) < 0) := by omega
  simp only [e3, false_or, ge_iff_le]
  split_ifs with hc
  · simp [hc]
  · simp [hc]

/-- C26: the range check of `alias_mapping_file` is off by one. With the pool
of `8192` pages, the source range of one page that ends at the last byte of
the backing region lies inside the region and is rejected (the page before it
passes); in general, for a source not below the pool base and a sum that does
not wrap, the check rejects exactly when `offs + mapsize` is not less than
`mpool_numpages * PAGE_SIZE`, which includes the contained ranges that end at
the end of the region. -/
theorem alias_last_page_rejected :
    alias_mapping_file 8192 0x7f0000000000 (0x7f0000000000 + 8191 * 4096) 4096 = none ∧
    8191 * 4096 + 4096 ≤ 8192 * PAGE_SIZE ∧
    alias_mapping_file 8192 0x7f0000000000 (0x7f0000000000 + 8190 * 4096) 4096 =
      some (8190 * 4096, 4096) ∧
    ∀ (mpool_numpages mpool offs mapsize : Nat), offs + mapsize = mpool_numpages * PAGE_SIZE →
      offs + mapsize < 18446744073709551616 →
      alias_mapping_file mpool_numpages mpool (mpool + offs) mapsize = none := by
  refine ⟨by rfl, by decide, by rfl, fun n mpool offs mapsize h1 h2 => ?_⟩
  have e : mpool + offs - mpool = offs := by omega
  exact (alias_mapping_file_rejects n mpool (mpool + offs) mapsize (by omega)
    (by rw [e]; exact h2)).2 (by rw [e, h1])

/-! ## Release of a whole root -/

/-- One iteration of the loop of `DPMI_freeAll` removes the head of the list. -/
theorem DPMI_freeAll_loop_step (cfg : Config) (host : Host) (s : State) (b : dpmi_pm_block)
    (rest : List dpmi_pm_block) (hroot : s.root = b :: rest)
    (hlen : b.hwram = false → b.shmname = none → b.size / 4096 ≤ b.attrs.length)
    (hmem : 4096 * freeAll_pages b ≤ s.mem_allocd) :
    ∃ s1, s1.root = rest ∧ s1.mem_allocd + 4096 * freeAll_pages b = s.mem_allocd ∧
      s1.pm_block_handle_used = s.pm_block_handle_used ∧
      ∀ fuel, DPMI_freeAll_loop cfg host (fuel + 1) s = DPMI_freeAll_loop cfg host fuel s1 := by
  obtain ⟨root, mem, cnt, objs, log⟩ := s
  dsimp only at hroot hmem ⊢
  subst hroot
  by_cases hh : b.hwram = true
  · refine ⟨⟨rest, mem, cnt, objs, log⟩, rfl, ?_, rfl, fun fuel => ?_⟩
    · simp [freeAll_pages, hh]
    · simp [DPMI_freeAll_loop, hh, free_pm_block]
  · have hh' : b.hwram = false := by simpa using hh
    by_cases hn : b.shmname.isSome = true
    · have hnn : b.shmname.isNone = false := by
        cases hb : b.shmname with
        | none => rw [hb] at hn; cases hn
        | some x => rfl
      have hfs : ∃ s1 : State, DPMI_freeShared cfg host ⟨b :: rest, mem, cnt, objs, log⟩ b.handle
          true = .ok (0, s1) ∧ s1.root = rest ∧ s1.mem_allocd = mem ∧
          s1.pm_block_handle_used = cnt := by
        unfold DPMI_freeShared
        rw [lookup_pm_block_head]
        simp only [hnn, Bool.false_eq_true, if_false]
        exact ⟨_, rfl, rfl, rfl, rfl⟩
      obtain ⟨s1, h1, h2, h3, h4⟩ := hfs
      refine ⟨s1, h2, ?_, h4, fun fuel => ?_⟩
      · simp [freeAll_pages, hn, h3]
      · simp only [DPMI_freeAll_loop, hh', Bool.false_eq_true, if_false, hn, if_true, h1]
    · have hn' : b.shmname = none := by
        cases hb : b.shmname with
        | none => rfl
        | some x => rw [hb] at hn; exact absurd rfl hn
      have hp : freeAll_pages b =
          ((b.attrs.take (b.size / 4096)).filter fun w => w &&& 7 = 1).length := by
        simp [freeAll_pages, hh', hn']
      rw [hp] at hmem
      obtain ⟨calls, hf⟩ := @DPMI_free_total cfg host ⟨b :: rest, mem, cnt, objs, log⟩ b.handle 0 b
        (lookup_pm_block_head b rest) hh' hn' (hlen hh' hn') hmem
      refine ⟨⟨rest, mem - 4096 *
          ((b.attrs.take (b.size / 4096)).filter fun w => w &&& 7 = 1).length, cnt, objs,
          log ++ [HostCall.e_invalidate_full b.base b.size] ++ calls⟩, rfl, ?_, rfl,
        fun fuel => ?_⟩
      · rw [hp]; dsimp only; omega
      · simp only [DPMI_freeAll_loop, hh', Bool.false_eq_true, if_false, hn, hf]
        rfl

theorem DPMI_freeAll_loop_empties (cfg : Config) (host : Host) :
    ∀ (fuel : Nat) (s : State), s.root.length ≤ fuel →
      (∀ b ∈ s.root, b.hwram = false → b.shmname = none → b.size / 4096 ≤ b.attrs.length) →
      4096 * freeAll_total s.root ≤ s.mem_allocd →
      ∃ s', DPMI_freeAll_loop cfg host fuel s = .ok s' ∧ s'.root = [] ∧
        s'.mem_allocd + 4096 * freeAll_total s.root = s.mem_allocd ∧
        s'.pm_block_handle_used = s.pm_block_handle_used := by
  intro fuel
  induction fuel with
  | zero =>
    intro s hf _ _
    have hr : s.root = [] := List.length_eq_zero.1 (Nat.le_zero.1 hf)
    refine ⟨s, by simp [DPMI_freeAll_loop], hr, ?_, rfl⟩
    rw [hr]; simp [freeAll_total]
  | succ fuel ih =>
    intro s hf hlen hmem
    cases hr : s.root with
    | nil =>
      refine ⟨s, by simp [DPMI_freeAll_loop, hr], hr, ?_, rfl⟩
      simp [freeAll_total]
    | cons b rest =>
      rw [hr] at hf hlen hmem
      have ht : freeAll_total (b :: rest) = freeAll_pages b + freeAll_total rest := by
        simp [freeAll_total]
      rw [ht] at hmem ⊢
      obtain ⟨s1, h1, h2, h3, h4⟩ := DPMI_freeAll_loop_step cfg host s b rest hr
        (hlen b (List.mem_cons_self _ _)) (by omega)
      obtain ⟨s', k1, k2, k3, k4⟩ := ih s1
        (by rw [h1]; simpa using hf)
        (by rw [h1]; exact fun x hx => hlen x (List.mem_cons_of_mem _ hx))
        (by rw [h1]; omega)
      refine ⟨s', by rw [h4, k1], k2, ?_, by rw [k4, h3]⟩
      rw [h1] at k3
      omega

/-- What `DPMI_freeAll` does when the counter covers the blocks: it returns
and leaves the root empty, for a root with any
mix of general, linear, shared (named or partially freed) and hardware-RAM
blocks, provided the blocks that go through `DPMI_free` have an attribute
word for each of their pages and the counter covers their private committed
pages (otherwise `DPMI_free` runs into its assertion). Each iteration of the
loop removes the block at the head of the list, so the loop ends after one
iteration per block, whatever number of iterations it is allowed beyond that;
the counter goes down by the pages given back and the handle counter stays. -/
theorem freeAll_empties_root (cfg : Config) (host : Host) (s : State)
    (hlen : ∀ b ∈ s.root, b.hwram = false → b.shmname = none → b.size / 4096 ≤ b.attrs.length)
    (hmem : 4096 * freeAll_total s.root ≤ s.mem_allocd) :
    (∃ s', DPMI_freeAll cfg host s = .ok s' ∧ s'.root = [] ∧
      s'.mem_allocd + 4096 * freeAll_total s.root = s.mem_allocd ∧
      s'.pm_block_handle_used = s.pm_block_handle_used) ∧
    (∀ fuel, s.root.length ≤ fuel →
      ∃ s', DPMI_freeAll_loop cfg host fuel s = .ok s' ∧ s'.root = [] ∧
        s'.mem_allocd + 4096 * freeAll_total s.root = s.mem_allocd) ∧
    ∀ b rest, s.root = b :: rest →
      ∃ s1, s1.root = rest ∧
        ∀ fuel, DPMI_freeAll_loop cfg host (fuel + 1) s = DPMI_freeAll_loop cfg host fuel s1 := by
  refine ⟨DPMI_freeAll_loop_empties cfg host s.root.length s (Nat.le_refl _) hlen hmem,
    fun fuel hf => ?_, fun b rest hr => ?_⟩
  · obtain ⟨s2, k1, k2, k3, _⟩ := DPMI_freeAll_loop_empties cfg host fuel s hf hlen hmem
    exact ⟨s2, k1, k2, k3⟩
  · have ht : freeAll_total (b :: rest) = freeAll_pages b + freeAll_total rest := by
      simp [freeAll_total]
    rw [hr, ht] at hmem
    obtain ⟨s1, h1, _, _, h4⟩ := DPMI_freeAll_loop_step cfg host s b rest hr
      (hlen b (by rw [hr]; exact List.mem_cons_self _ _)) (by omega)
    exact ⟨s1, h1, h4⟩

/-- An instance of `freeAll_empties_root`: a root with a shared block under
its name and a general block of one page is emptied. -/
theorem freeAll_empties_root_witness :
    ∃ s', DPMI_freeAll cfg_demo host_demo demo_mixed = .ok s' ∧ s'.root = [] ∧
      s'.mem_allocd + 4096 * freeAll_total demo_mixed.root = demo_mixed.mem_allocd ∧
      s'.pm_block_handle_used = demo_mixed.pm_block_handle_used :=
  (freeAll_empties_root cfg_demo host_demo demo_mixed (by decide) (by decide)).1

theorem and_two_pow (x k : Nat) : x &&& 2 ^ k = if x.testBit k then 2 ^ k else 0 := by
  apply Nat.eq_of_testBit_eq
  intro i
  rw [Nat.testBit_and, Nat.testBit_two_pow]
  by_cases hki : k = i
  · subst hki
    cases hx : x.testBit k <;> simp [Nat.testBit_two_pow_self]
  · cases hx : x.testBit k <;> simp [hki, Nat.testBit_two_pow]

theorem and_bit0 (x : Nat) : x &&& 1 = if x.testBit 0 then 1 else 0 := and_two_pow x 0

theorem and_bit3 (x : Nat) : x &&& 8 = if x.testBit 3 then 8 else 0 := and_two_pow x 3

theorem and_bit4 (x : Nat) : x &&& 16 = if x.testBit 4 then 16 else 0 := and_two_pow x 4

theorem and_bit7 (x : Nat) : x &&& 128 = if x.testBit 7 then 128 else 0 := and_two_pow x 7
theorem switch_com_bits {cfg : Config} {mem attr old_attr : Nat} {l : Locals}
    (h : switch_com cfg mem attr old_attr = .ok l) :
    l.prot = 5 ∧ l.word.testBit 3 = old_attr.testBit 3 ∧
    l.word.testBit 7 = old_attr.testBit 7 ∧
    (l.ret0 = false → l.change = (l.word.testBit 0 != old_attr.testBit 0) ∧
      ((attr &&& 3 = 2 ∧ l.com = 0 ∧ l.word.testBit 0 = old_attr.testBit 0) ∨
       (attr &&& 3 ≠ 2 ∧ l.com = if l.word.testBit 0 then 1 else 0))) := by
  unfold switch_com at h
  have t0 : Nat.testBit 65528 0 = false := by decide
  have t3 : Nat.testBit 65528 3 = true := by decide
  have t7 : Nat.testBit 65528 7 = true := by decide
  have u0 : Nat.testBit 1 0 = true := by decide
  have u3 : Nat.testBit 1 3 = false := by decide
  have u7 : Nat.testBit 1 7 = false := by decide
  have p5 : PROT_READ ||| PROT_EXEC = 5 := by decide
  have z1 : (0 &&& 1 : Nat) = 0 := by decide
  have z2 : (1 &&& 1 : Nat) = 1 := by decide
  have z3 : (2 &&& 1 : Nat) = 0 := by decide
  simp only [and_bit0 old_attr, p5] at h
  cases ho : old_attr.testBit 0 <;> simp only [ho] at h <;>
    split_ifs at h <;> cases h <;>
    simp_all [Nat.testBit_and, Nat.testBit_or]
theorem and_bit3_zero (x : Nat) : x &&& 8 = 0 ↔ x.testBit 3 = false := by
  rw [and_bit3]; cases x.testBit 3 <;> simp

theorem and_bit7_zero (x : Nat) : x &&& 128 = 0 ↔ x.testBit 7 = false := by
  rw [and_bit7]; cases x.testBit 7 <;> simp

theorem and_bit4_zero (x : Nat) : x &&& 16 = 0 ↔ x.testBit 4 = false := by
  rw [and_bit4]; cases x.testBit 4 <;> simp

theorem and_bit0_zero (x : Nat) : x &&& 1 = 0 ↔ x.testBit 0 = false := by
  rw [and_bit0]; cases x.testBit 0 <;> simp

theorem rw_bits_bits (attr old_attr : Nat) (l : Locals) (hl : l.ret0 = false)
    (h3 : l.word.testBit 3 = old_attr.testBit 3) :
    (rw_bits attr old_attr l).ret0 = true ∨
    ((rw_bits attr old_attr l).ret0 = false ∧
      (rw_bits attr old_attr l).word.testBit 3 = attr.testBit 3 ∧
      (rw_bits attr old_attr l).word.testBit 0 = l.word.testBit 0 ∧
      (rw_bits attr old_attr l).word.testBit 7 = l.word.testBit 7 ∧
      (rw_bits attr old_attr l).change =
        (l.change || (attr.testBit 3 != old_attr.testBit 3)) ∧
      (rw_bits attr old_attr l).prot =
        (if attr.testBit 3 = true then l.prot ||| PROT_WRITE else l.prot) ∧
      (rw_bits attr old_attr l).com = l.com) := by
  have y0 : Nat.testBit 8 0 = false := by decide
  have y3 : Nat.testBit 8 3 = true := by decide
  have y7 : Nat.testBit 8 7 = false := by decide
  have q0 : Nat.testBit 65527 0 = true := by decide
  have q3 : Nat.testBit 65527 3 = false := by decide
  have q7 : Nat.testBit 65527 7 = true := by decide
  have e8 : ((8 : Nat) = 0) = False := by decide
  have ha := and_bit3 attr
  have ho := and_bit3 old_attr
  unfold rw_bits
  cases a3 : attr.testBit 3 <;> cases o3 : old_attr.testBit 3 <;>
    simp only [a3, o3, Bool.false_eq_true, if_false, if_true] at ha ho h3 <;>
    by_cases hc : l.com = 0 ∧ old_attr &&& 1 = 0 <;>
    simp only [hl, ha, ho, hc, Bool.false_eq_true, if_false, if_true, ne_eq, e8,
      not_true_eq_false, not_false_eq_true] <;>
    simp [h3, y0, y3, y7, q0, q3, q7, Nat.testBit_and, Nat.testBit_or]

theorem nx_bits_bits (attr old_attr : Nat) (l : Locals) (hl : l.ret0 = false)
    (h7 : l.word.testBit 7 = old_attr.testBit 7) :
    (nx_bits attr old_attr l).ret0 = true ∨
    ((nx_bits attr old_attr l).ret0 = false ∧
      (nx_bits attr old_attr l).word.testBit 7 = attr.testBit 7 ∧
      (nx_bits attr old_attr l).word.testBit 0 = l.word.testBit 0 ∧
      (nx_bits attr old_attr l).word.testBit 3 = l.word.testBit 3 ∧
      (nx_bits attr old_attr l).change =
        (l.change || (attr.testBit 7 != old_attr.testBit 7)) ∧
      (nx_bits attr old_attr l).prot =
        (if attr.testBit 7 = true then l.prot &&& 3 else l.prot) ∧
      (nx_bits attr old_attr l).com = l.com) := by
  have n0 : Nat.testBit 128 0 = false := by decide
  have n3 : Nat.testBit 128 3 = false := by decide
  have n7 : Nat.testBit 128 7 = true := by decide
  have m0 : Nat.testBit 65407 0 = true := by decide
  have m3 : Nat.testBit 65407 3 = true := by decide
  have m7 : Nat.testBit 65407 7 = false := by decide
  have e8 : ((128 : Nat) = 0) = False := by decide
  have ha := and_bit7 attr
  have ho := and_bit7 old_attr
  unfold nx_bits
  cases a7 : attr.testBit 7 <;> cases o7 : old_attr.testBit 7 <;>
    simp only [a7, o7, Bool.false_eq_true, if_false, if_true] at ha ho h7 <;>
    by_cases hc : l.com = 0 <;>
    simp only [hl, ha, ho, hc, Bool.false_eq_true, if_false, if_true, ne_eq, e8,
      not_true_eq_false, not_false_eq_true] <;>
    simp [h7, n0, n3, n7, m0, m3, m7, Nat.testBit_and, Nat.testBit_or]

theorem acc_bits_bits (attr : Nat) (l : Locals) (hl : l.ret0 = false)
    (h7 : l.word.testBit 7 = attr.testBit 7) :
    (acc_bits attr l).ret0 = false ∧
      (acc_bits attr l).word.testBit 7 = attr.testBit 7 ∧
      (acc_bits attr l).word.testBit 0 = l.word.testBit 0 ∧
      (acc_bits attr l).word.testBit 3 = l.word.testBit 3 ∧
      (acc_bits attr l).change = l.change ∧ (acc_bits attr l).prot = l.prot ∧
      (acc_bits attr l).com = l.com := by
  have v0 : Nat.testBit 15 0 = true := by decide
  have v3 : Nat.testBit 15 3 = true := by decide
  have v7 : Nat.testBit 15 7 = false := by decide
  have x0 : Nat.testBit 240 0 = false := by decide
  have x3 : Nat.testBit 240 3 = false := by decide
  have x7 : Nat.testBit 240 7 = true := by decide
  unfold acc_bits
  by_cases hc : attr &&& 16 = 0 <;>
    simp only [hl, hc, Bool.false_eq_true, if_false, if_true, ne_eq, not_true_eq_false,
      not_false_eq_true] <;>
    simp [h7, v0, v3, v7, x0, x3, x7, Nat.testBit_and, Nat.testBit_or]
theorem ret0_stays (ptr attr old_attr : Nat) (ok : Bool) (l : Locals) (h : l.ret0 = true) :
    (apply_change ptr ok (acc_bits attr (nx_bits attr old_attr l))).ret = 0 := by
  have e1 : nx_bits attr old_attr l = l := by unfold nx_bits; rw [if_pos h]
  have e2 : acc_bits attr l = l := by unfold acc_bits; rw [if_pos h]
  rw [e1, e2]
  unfold apply_change
  rw [if_pos h]

theorem ret0_stays_nx (ptr attr : Nat) (ok : Bool) (l : Locals) (h : l.ret0 = true) :
    (apply_change ptr ok (acc_bits attr l)).ret = 0 := by
  have e2 : acc_bits attr l = l := by unfold acc_bits; rw [if_pos h]
  rw [e2]
  unfold apply_change
  rw [if_pos h]

theorem apply_change_log (ptr : Nat) (ok : Bool) (l : Locals) (h0 : l.ret0 = false)
    (hret : (apply_change ptr ok l).ret = 1) :
    (apply_change ptr ok l).word = l.word ∧
    (apply_change ptr ok l).log =
      if l.change = true then
        [HostCall.e_invalidate_full ptr PAGE_SIZE,
          HostCall.mprotect_mapping ptr PAGE_SIZE (if l.com ≠ 0 then l.prot else PROT_NONE)]
      else [] := by
  unfold apply_change at hret ⊢
  rw [if_neg (by simp [h0])] at hret ⊢
  cases hc : l.change <;> cases ok <;> by_cases hm : l.com = 0 <;> simp [hc, hm] at hret ⊢
/-- C22 as stated does not hold for a request with commit-type field 2: the
request `2` on the committed read-write word 9 succeeds, clears the
read-write bit (the stored word is 1, commit bit set) and emits one
invalidation and one protection call, whose protection is no-access and not
the read and execute the stored word prescribes. -/
theorem type2_request_gives_no_access :
    SetAttribsForPage cfg_demo 4096 0x20000000 2 9 true =
      .ok ⟨1, 1, 4096, [HostCall.e_invalidate_full 0x20000000 PAGE_SIZE,
        HostCall.mprotect_mapping 0x20000000 PAGE_SIZE PROT_NONE]⟩ ∧
    (1 : Nat) &&& 1 ≠ 0 ∧ word_prot 1 = PROT_READ ||| PROT_EXEC ∧
    PROT_NONE ≠ PROT_READ ||| PROT_EXEC :=
  ⟨by rfl, by decide, by decide, by decide⟩

/-- C22 (amended): a successful `SetAttribsForPage` that changes neither the
commit bit (bit 0) nor the read-write bit nor the no-execute bit of the stored
word emits nothing; otherwise it emits one invalidation of the page followed
by one protection call on the page, whose protection is no-access when the
stored commit bit after the call is 0 or the commit-type field of the request
is 2, and otherwise read, plus write exactly when the stored read-write bit is
set, plus execute exactly when the stored no-execute bit is clear. -/
theorem protection_trace (cfg : Config) (mem ptr attr old_attr : Nat) (ok : Bool)
    (r : PageRes) (h : SetAttribsForPage cfg mem ptr attr old_attr ok = .ok r)
    (hret : r.ret = 1) :
    r.log =
      if r.word &&& 1 = old_attr &&& 1 ∧ r.word &&& 8 = old_attr &&& 8 ∧
          r.word &&& 0x80 = old_attr &&& 0x80 then []
      else [HostCall.e_invalidate_full ptr PAGE_SIZE,
        HostCall.mprotect_mapping ptr PAGE_SIZE
          (if attr &&& 3 = 2 then PROT_NONE else word_prot r.word)] := by
  unfold SetAttribsForPage at h
  cases hs : switch_com cfg mem attr old_attr with
  | error f => rw [hs] at h; cases h
  | ok l =>
    rw [hs] at h
    injection h with h
    subst h
    obtain ⟨hp, h3, h7, hrest⟩ := switch_com_bits hs
    cases hl0 : l.ret0 with
    | true =>
      have e1 : rw_bits attr old_attr l = l := by unfold rw_bits; rw [if_pos hl0]
      rw [e1, ret0_stays ptr attr old_attr ok l hl0] at hret
      exact absurd hret (by decide)
    | false =>
      obtain ⟨hch, hcom⟩ := hrest hl0
      rcases rw_bits_bits attr old_attr l hl0 h3 with hr1 | ⟨r1, a3, a0, a7, ach, apr, aco⟩
      · rw [ret0_stays ptr attr old_attr ok _ hr1] at hret
        exact absurd hret (by decide)
      rcases nx_bits_bits attr old_attr _ r1 (a7.trans h7) with hr2 |
        ⟨r2, b7, b0, b3, bch, bpr, bco⟩
      · rw [ret0_stays_nx ptr attr ok _ hr2] at hret
        exact absurd hret (by decide)
      obtain ⟨r3, c7, c0, c3, cch, cpr, cco⟩ := acc_bits_bits attr _ r2 b7
      obtain ⟨hw, hlog⟩ := apply_change_log ptr ok _ r3 hret
      rw [hlog, hw, cch, bch, ach, hch, cco, bco, aco, cpr, bpr, apr, hp]
      unfold word_prot
      rw [and_bit0 old_attr, and_bit3 old_attr, and_bit7 old_attr, and_bit0, and_bit3, and_bit7,
        c7, c0, c3, b0, b3, a0, a3]
      clear hs hret hp h3 h7 hrest hl0 hch r1 a3 a0 a7 ach apr aco r2 b7 b0 b3 bch bpr bco r3 c7
        c0 c3 cch cpr cco hw hlog
      have p1 : ((5 ||| 2) &&& 3 : Nat) = 3 := by decide
      have p2 : (5 &&& 3 : Nat) = 1 := by decide
      have p3 : (5 ||| 2 : Nat) = 7 := by decide
      have p4 : (1 ||| 2 ||| 4 : Nat) = 7 := by decide
      have p5 : (1 ||| 2 ||| 0 : Nat) = 3 := by decide
      have p6 : (1 ||| 0 ||| 4 : Nat) = 5 := by decide
      have p7 : (1 ||| 0 ||| 0 : Nat) = 1 := by decide
      have p8 : (7 &&& 3 : Nat) = 3 := by decide
      simp only [PROT_NONE, PROT_READ, PROT_WRITE, PROT_EXEC]
      generalize l.word.testBit 0 = w0 at hcom ⊢
      generalize old_attr.testBit 0 = o0 at hcom ⊢
      generalize old_attr.testBit 3 = o3
      generalize old_attr.testBit 7 = o7
      generalize attr.testBit 3 = x3
      generalize attr.testBit 7 = x7
      generalize l.com = com at hcom ⊢
      rcases hcom with ⟨c2, hc, hw0⟩ | ⟨c2, hc⟩
      · subst hc hw0
        rw [if_pos c2]
        cases w0 <;> cases o3 <;> cases o7 <;> cases x3 <;> cases x7 <;> simp
      · subst hc
        rw [if_neg c2]
        cases w0 <;> cases o0 <;> cases o3 <;> cases o7 <;> cases x3 <;> cases x7 <;>
          simp [p1, p2, p3, p4, p5, p6, p7, p8]

/-- Witness of C22: the read-write bit is taken from a committed page by an
attribute-only request; one invalidation and one protection call with read
and execute are emitted. -/
theorem protection_trace_witness :
    (⟨1, 1, 4096, [HostCall.e_invalidate_full 0x20000000 PAGE_SIZE,
        HostCall.mprotect_mapping 0x20000000 PAGE_SIZE 5]⟩ : PageRes).log =
      if (1 : Nat) &&& 1 = 9 &&& 1 ∧ (1 : Nat) &&& 8 = 9 &&& 8 ∧
          (1 : Nat) &&& 0x80 = 9 &&& 0x80 then []
      else [HostCall.e_invalidate_full 0x20000000 PAGE_SIZE,
        HostCall.mprotect_mapping 0x20000000 PAGE_SIZE
          (if (3 : Nat) &&& 3 = 2 then PROT_NONE else word_prot 1)] :=
  protection_trace cfg_demo 4096 0x20000000 3 9 true
    ⟨1, 1, 4096, [HostCall.e_invalidate_full 0x20000000 PAGE_SIZE,
        HostCall.mprotect_mapping 0x20000000 PAGE_SIZE 5]⟩ (by rfl) (by rfl)

/-! ## The page window of the attribute calls -/

theorem switch_com_fault {cfg : Config} {mem attr old_attr : Nat} {g : Fault}
    (h : switch_com cfg mem attr old_attr = .error g) : g = Fault.assertion := by
  unfold switch_com at h
  simp only [and3, and1] at h
  split_ifs at h
  injection h with h
  exact h.symm

theorem SetAttribsForPage_fault {cfg : Config} {mem ptr attr old_attr : Nat} {ok : Bool}
    {f : Fault} (h : SetAttribsForPage cfg mem ptr attr old_attr ok = .error f) :
    f = Fault.assertion := by
  unfold SetAttribsForPage at h
  cases hs : switch_com cfg mem attr old_attr with
  | ok l => rw [hs] at h; cases h
  | error g =>
    rw [hs] at h
    injection h with h
    rw [← h]
    exact switch_com_fault hs

theorem getElem?_set_other (l : List Nat) (k j v : Nat) (h : j ≠ k) :
    (l.set k v)[j]? = l[j]? := by
  rw [List.getElem?_set]
  rw [if_neg (fun e => h e.symm)]

theorem SetPageAttributes_loop_window (cfg : Config) (host : Host) (base : Nat) (offs : Int)
    (attrs : List Nat) (h0 : 0 ≤ offs) :
    ∀ (n i : Nat) (words : List Nat) (mem : Nat) (log : List HostCall),
      (offs / 4096).toNat + i + n ≤ words.length → i + n ≤ attrs.length →
      SetPageAttributes_loop cfg host base offs attrs n i words mem log ≠
          .error Fault.out_of_bounds ∧
        ∀ r, SetPageAttributes_loop cfg host base offs attrs n i words mem log = .ok r →
          r.2.1.length = words.length ∧
          ∀ j, (j < (offs / 4096).toNat + i ∨ (offs / 4096).toNat + i + n ≤ j) →
            r.2.1[j]? = words[j]? := by
  have hk : 0 ≤ offs / 4096 := Int.ediv_nonneg h0 (by decide)
  intro n
  induction n with
  | zero =>
    intro i words mem log _ _
    simp only [SetPageAttributes_loop]
    refine ⟨fun h => (by cases h), fun r h => ?_⟩
    cases h
    exact ⟨rfl, fun j _ => rfl⟩
  | succ n ih =>
    intro i words mem log hw ha
    have hidx : ¬ (offs / 4096 + (i : Int) < 0) := by omega
    have htn : (offs / 4096 + (i : Int)).toNat = (offs / 4096).toNat + i := by omega
    obtain ⟨w, hwv⟩ : ∃ w, words[(offs / 4096).toNat + i]? = some w := by
      have hlt : (offs / 4096).toNat + i < words.length := by omega
      exact ⟨words[(offs / 4096).toNat + i], List.getElem?_eq_getElem hlt⟩
    obtain ⟨a, hav⟩ : ∃ a, attrs[i]? = some a := by
      have hlt : i < attrs.length := by omega
      exact ⟨attrs[i], List.getElem?_eq_getElem hlt⟩
    simp only [SetPageAttributes_loop, hidx, if_false, htn, hwv, hav]
    by_cases heq : w = a
    · rw [if_pos heq]
      obtain ⟨k1, k2⟩ := ih (i + 1) words mem log (by omega) (by omega)
      refine ⟨k1, fun r hr => ?_⟩
      obtain ⟨k3, k4⟩ := k2 r hr
      exact ⟨k3, fun j hj => k4 j (by omega)⟩
    · rw [if_neg heq]
      by_cases hshr : w &&& ATTR_SHR ≠ 0 ∧ a &&& 7 ≠ 3
      · rw [if_pos hshr]
        refine ⟨fun h => (by cases h), fun r h => ?_⟩
        cases h
        exact ⟨rfl, fun j _ => rfl⟩
      · rw [if_neg hshr]
        cases hp : SetAttribsForPage cfg mem
            (u32_of_int ((base : Int) + offs + ((i <<< PAGE_SHIFT : Nat) : Int))) a w
            (host.mprotect_ok
              (u32_of_int ((base : Int) + offs + ((i <<< PAGE_SHIFT : Nat) : Int)))) with
        | error f =>
          have := SetAttribsForPage_fault hp
          subst this
          exact ⟨fun h => (by cases h), fun r h => (by cases h)⟩
        | ok pr =>
          dsimp only
          by_cases hret : pr.ret = 0
          · rw [if_pos hret]
            refine ⟨fun h => (by cases h), fun r h => ?_⟩
            cases h
            dsimp only
            refine ⟨by simp, fun j hj => getElem?_set_other _ _ _ _ (by omega)⟩
          · rw [if_neg hret]
            obtain ⟨k1, k2⟩ := ih (i + 1) (words.set ((offs / 4096).toNat + i) pr.word)
              pr.mem_allocd (log ++ pr.log) (by simp; omega) (by omega)
            refine ⟨k1, fun r hr => ?_⟩
            obtain ⟨k3, k4⟩ := k2 r hr
            refine ⟨by simpa using k3, fun j hj => ?_⟩
            rw [k4 j (by omega)]
            exact getElem?_set_other _ _ _ _ (by omega)

/-- C25 as stated does not hold: neither call checks the page window. On the
block of three pages of `demo_three`, `DPMI_SetPageAttributes` and
`DPMI_GetPageAttributes` for the one-page window at offset `3 * 4096`, and
`DPMI_SetPageAttributes` at offset `-4096`, do not return their failure value:
they index the attribute array outside its three entries. -/
theorem page_window_not_checked :
    (∀ b ∈ demo_three.root, b.handle = 0 ∧ b.size / PAGE_SIZE = 3 ∧ b.attrs.length = 3) ∧
    DPMI_SetPageAttributes cfg_demo host_demo demo_three 0 12288 [9] 1 =
      .error Fault.out_of_bounds ∧
    DPMI_GetPageAttributes cfg_demo demo_three 0 12288 1 = .error Fault.out_of_bounds ∧
    DPMI_SetPageAttributes cfg_demo host_demo demo_three 0 (-4096) [9] 1 =
      .error Fault.out_of_bounds ∧
    DPMI_SetPageAttributes cfg_demo host_demo demo_three 0 12288 [9] 1 ≠
      .ok (0, demo_three) := by
  refine ⟨?_, by rfl, by rfl, by rfl, ?_⟩
  · intro b hb
    simp only [demo_three, List.mem_singleton] at hb
    subst hb
    exact ⟨rfl, by decide, rfl⟩
  · have e : DPMI_SetPageAttributes cfg_demo host_demo demo_three 0 12288 [9] 1 =
        .error Fault.out_of_bounds := by rfl
    rw [e]
    intro h
    cases h

/-- C25 (amended): for a block with one attribute word per page and a request
with a non-negative offset and a positive count whose page window
`[offs / PAGE_SIZE, offs / PAGE_SIZE + count)` ends within the block's page
count (the caller's array holding `count` words), `DPMI_SetPageAttributes`
does not index outside the attribute array, keeps the number of attribute
words and leaves every word outside the window as it was, and
`DPMI_GetPageAttributes` returns 1 with the words of the window, bit 4
cleared. No check is made: a window that is not within the block is the
caller's to avoid. -/
theorem page_window_in_range (cfg : Config) (host : Host) (s : State) (handle p : Nat)
    (b : dpmi_pm_block) (offs count : Int) (attrs : List Nat)
    (hl : lookup_pm_block s.root handle = some (p, b))
    (hlen : b.attrs.length = b.size / PAGE_SIZE)
    (h0 : 0 ≤ offs) (hc : 0 < count) (hwin : offs / 4096 + count ≤ (b.size / PAGE_SIZE : Nat))
    (hattrs : count.toNat ≤ attrs.length) :
    DPMI_SetPageAttributes cfg host s handle offs attrs count ≠ .error Fault.out_of_bounds ∧
    (∀ r s', DPMI_SetPageAttributes cfg host s handle offs attrs count = .ok (r, s') →
      ∃ b', s'.root[p]? = some b' ∧ b'.attrs.length = b.size / PAGE_SIZE ∧
        ∀ j, (j < (offs / 4096).toNat ∨ (offs / 4096).toNat + count.toNat ≤ j) →
          b'.attrs[j]? = b.attrs[j]?) ∧
    DPMI_GetPageAttributes cfg s handle offs count =
      .ok (1, ((b.attrs.drop (offs / 4096).toNat).take count.toNat).map fun w => w &&& 0xFFEF) := by
  have hk : 0 ≤ offs / 4096 := Int.ediv_nonneg h0 (by decide)
  have hp := (lookup_pm_block_some _ _ _ _ hl).1
  obtain ⟨w1, w2⟩ := SetPageAttributes_loop_window cfg host b.base offs attrs h0 count.toNat 0
    b.attrs s.mem_allocd s.log (by omega) (by omega)
  refine ⟨?_, ?_, ?_⟩
  · unfold DPMI_SetPageAttributes SetPageAttributes
    rw [hl]
    dsimp only
    split_ifs
    · intro h; cases h
    · cases hr : SetPageAttributes_loop cfg host b.base offs attrs count.toNat 0 b.attrs
          s.mem_allocd s.log with
      | error f =>
        intro h
        injection h with h
        subst h
        exact w1 hr
      | ok res => intro h; cases h
  · intro r s' h
    rcases DPMI_SetPageAttributes_cases h with ⟨_, rfl, _⟩ | ⟨p', block, res, hl', hloop, _, rfl⟩
    · exact ⟨b, hp, hlen, fun j _ => rfl⟩
    · rw [hl] at hl'
      cases hl'
      obtain ⟨k1, k2⟩ := w2 res hloop
      refine ⟨{ b with attrs := res.2.1 }, ?_, by dsimp only; rw [k1, hlen], fun j hj => ?_⟩
      · dsimp only
        have hlt : p < s.root.length := (List.getElem?_eq_some_iff.1 hp).1
        simp [List.getElem?_set, hlt]
      · exact k2 j (by omega)
  · unfold DPMI_GetPageAttributes
    rw [hl]
    dsimp only
    rw [if_neg (by omega), if_neg (by omega)]

/-- Witness of C25: the window of page 1 of the three-page block of
`demo_three`. -/
theorem page_window_in_range_witness :
    DPMI_SetPageAttributes cfg_demo host_demo demo_three 0 4096 [0] 1 ≠
      .error Fault.out_of_bounds ∧
    DPMI_GetPageAttributes cfg_demo demo_three 0 4096 1 = .ok (1, [9]) :=
  have h := page_window_in_range cfg_demo host_demo demo_three 0 0 demo_three_block 4096 1 [0]
    (by rfl) (by decide) (by decide) (by decide) (by decide) (by decide)
  ⟨h.1, h.2.2⟩

/-! ## Counters beyond 32 bits -/

theorem demo_undercounted_reachable : Reachable cfg_demo demo_undercounted :=
  ReachableBy.call host_demo (Call.setPageAttributes 1 0 [8] 1)
    (ReachableBy.call host_demo (Call.mapHWRam 0xA0000 4096)
      (ReachableBy.call host_demo (Call.malloc 4096) (ReachableBy.init 0 []) trivial trivial
        (by rfl : step cfg_demo host_demo demo_empty (Call.malloc 4096) = .ok (demo_kept 1 [])))
      trivial trivial
      (by rfl : step cfg_demo host_demo (demo_kept 1 []) (Call.mapHWRam 0xA0000 4096) =
        .ok demo_with_hwram))
    trivial trivial (by rfl)

theorem demo_undercounted_free :
    DPMI_free cfg_demo host_demo demo_undercounted 0 = .error Fault.assertion := by
  rfl

/-- C12: `DPMI_free` neither fails with -1 nor returns 0 in a reachable state.
After `DPMI_malloc` of one page, `DPMI_mapHWRam` of one page and the decommit
of the hardware-RAM page (which was marked committed without being counted),
the counter is `0`; `DPMI_free` of the general block - a known handle, not a
hardware-RAM block, no shared name - reaches `assert(mem_allocd >= PAGE_SIZE)`
for the committed page of the block and stops there. -/
theorem free_stops_in_assertion :
    Reachable cfg_demo demo_undercounted ∧
    lookup_pm_block demo_undercounted.root 0 = some (1, demo_page_block 0 0x20000000) ∧
    (demo_page_block 0 0x20000000).hwram = false ∧
    (demo_page_block 0 0x20000000).shmname = none ∧
    DPMI_free cfg_demo host_demo demo_undercounted 0 = .error Fault.assertion ∧
    ∀ r s', DPMI_free cfg_demo host_demo demo_undercounted 0 ≠ .ok (r, s') := by
  refine ⟨demo_undercounted_reachable, by rfl, by rfl, by rfl, demo_undercounted_free, ?_⟩
  intro r s' h
  rw [demo_undercounted_free] at h
  cases h

/-- C13: `DPMI_free` on the handle of a general block does not remove the
block in the reachable state `demo_undercounted`. The block has one attribute
word per page and one committed private page, but the counter is `0` (the
decommit of a hardware-RAM page, never counted, took the page away): the call
stops in `assert(mem_allocd >= PAGE_SIZE)`, no counter is lowered and no block
is unlinked. -/
theorem free_leaves_block_at_assertion :
    Reachable cfg_demo demo_undercounted ∧
    demo_undercounted.root[1]? = some (demo_page_block 0 0x20000000) ∧
    (demo_page_block 0 0x20000000).linear = false ∧
    (demo_page_block 0 0x20000000).attrs.length =
      (demo_page_block 0 0x20000000).size / PAGE_SIZE ∧
    committed_pages (demo_page_block 0 0x20000000) = 1 ∧
    demo_undercounted.mem_allocd = 0 ∧
    account_pages (demo_page_block 0 0x20000000).attrs 1 demo_undercounted.mem_allocd =
      .error Fault.assertion ∧
    ¬ ∃ s', DPMI_free cfg_demo host_demo demo_undercounted 0 = .ok (0, s') := by
  refine ⟨demo_undercounted_reachable, by rfl, by rfl, by rfl, by rfl, by rfl, by rfl, ?_⟩
  rintro ⟨s', h⟩
  rw [demo_undercounted_free] at h
  cases h

/-- C24: `DPMI_freeAll` does not empty the root of the reachable state
`demo_undercounted`: the first iteration unlinks the hardware-RAM block, the
second calls `DPMI_free` on the general block, which stops in
`assert(mem_allocd >= PAGE_SIZE)` with the general block still in the list. -/
theorem freeAll_stops_in_assertion :
    Reachable cfg_demo demo_undercounted ∧
    DPMI_freeAll cfg_demo host_demo demo_undercounted = .error Fault.assertion ∧
    (∀ fuel, 2 ≤ fuel →
      DPMI_freeAll_loop cfg_demo host_demo fuel demo_undercounted = .error Fault.assertion) ∧
    ∀ s', DPMI_freeAll cfg_demo host_demo demo_undercounted ≠ .ok s' := by
  have e : DPMI_freeAll cfg_demo host_demo demo_undercounted = .error Fault.assertion := by rfl
  refine ⟨demo_undercounted_reachable, e, ?_, ?_⟩
  · intro fuel hf
    obtain ⟨k, rfl⟩ : ∃ k, fuel = k + 2 := ⟨fuel - 2, by omega⟩
    rfl
  · intro s' h
    rw [e] at h
    cases h

/-! ## Sizes above the last page boundary -/

theorem root_step_cons {host : Host} {c : Call} {s s' : State} {b' : dpmi_pm_block}
    (hs : root_step host c s s') (hr : s'.root = b' :: s.root) :
    b'.handle = s.pm_block_handle_used ∧
      s'.pm_block_handle_used = u32 (s.pm_block_handle_used + 1) := by
  cases hs with
  | shrink hsub _ =>
    have := hsub.length_le
    rw [hr] at this
    simp at this
  | modify p b b2 _ hr2 =>
    have := congrArg List.length hr2
    rw [hr] at this
    simp at this
  | resize p b b2 sz _ hr2 =>
    have := congrArg List.length hr2
    rw [hr] at this
    simp at this
  | create b hr2 hh hc _ =>
    rw [hr] at hr2
    cases hr2
    exact ⟨hh, hc⟩

theorem RunWith_handles {cfg : Config} {s : State} {hs : List Nat}
    (hr : RunWith cfg no_wrap s hs) :
    (∀ b ∈ s.root, b.handle ∈ hs) ∧ (∀ h ∈ hs, h < s.pm_block_handle_used) ∧
      hs.Pairwise (fun a b => b < a) ∧
      (s.root.map fun x : dpmi_pm_block => x.handle).Nodup := by
  induction hr with
  | init h objs =>
    exact ⟨fun b hb => (by cases hb), fun h hh => (by cases hh), List.Pairwise.nil,
      List.nodup_nil⟩
  | @call s s' hs host c _ hside hstep ih =>
    obtain ⟨i1, i4, i3, i2⟩ := ih
    have hw : s.pm_block_handle_used < 4294967295 := hside
    have hrs := step_root_step hstep
    have hlt : ∀ b ∈ s.root, b.handle < s.pm_block_handle_used := fun b hb => i4 _ (i1 b hb)
    obtain ⟨k1, k2, k3, k4⟩ := root_step_handles hrs hw hlt i2
    refine ⟨?_, ?_, ?_, k2⟩
    · intro b hb
      rcases k4 with e | hsub | hmap | ⟨b0, hb0, hh0⟩
      · rw [e] at hb
        exact List.mem_append_right _ (i1 b hb)
      · exact List.mem_append_right _ (i1 b (hsub.subset hb))
      · have hm : b.handle ∈ (s'.root.map fun x : dpmi_pm_block => x.handle) :=
          List.mem_map_of_mem _ hb
        rw [hmap] at hm
        obtain ⟨x, hx, hxe⟩ := List.mem_map.1 hm
        rw [← hxe]
        exact List.mem_append_right _ (i1 x hx)
      · rw [hb0] at hb
        rcases List.mem_cons.1 hb with hx | hx
        · obtain ⟨_, hc⟩ := root_step_cons hrs hb0
          have hne : s'.pm_block_handle_used ≠ s.pm_block_handle_used := by
            rw [hc]; unfold u32; omega
          apply List.mem_append_left
          rw [hx, hh0]
          simp [handed_out, hne]
        · exact List.mem_append_right _ (i1 b hx)
    · intro h hh
      rcases List.mem_append.1 hh with hx | hx
      · unfold handed_out at hx
        split_ifs at hx with he
        · cases hx
        · simp only [List.mem_singleton] at hx
          omega
      · have := i4 h hx
        omega
    · unfold handed_out
      split_ifs with he
      · simpa using i3
      · rw [List.singleton_append, List.pairwise_cons]
        exact ⟨fun a ha => i4 a ha, i3⟩

/-- C14 (amended): in every state reached from an empty root by calls of the
interface made while the 32-bit handle counter is below `2^32 - 1` (so that it
does not wrap), no two blocks of the root carry the same handle, every handle
in the root is one of the handles handed out, and every handle handed out is
strictly greater than every handle handed out before it and below the
counter. A further call made while the counter is below `2^32 - 1` either
hands out no handle and leaves in the root only handles that were there, or
puts one new block at the head of the list and hands out its handle, which is
strictly greater than every handle handed out before, whether the block of
that handle is still in the root or was freed. -/
theorem handles_unique (cfg : Config) (s : State) (hs : List Nat)
    (hr : RunWith cfg no_wrap s hs) :
    (s.root.map fun b : dpmi_pm_block => b.handle).Nodup ∧
      (∀ b ∈ s.root, b.handle ∈ hs) ∧
      hs.Pairwise (fun later earlier => earlier < later) ∧
      (∀ h ∈ hs, h < s.pm_block_handle_used) ∧
      ∀ (host : Host) (c : Call) (s' : State),
        s.pm_block_handle_used < 4294967295 → step cfg host s c = .ok s' →
        (handed_out s s' = [] ∧ ∀ b' ∈ s'.root, ∃ b ∈ s.root, b'.handle = b.handle) ∨
        ∃ b', s'.root = b' :: s.root ∧ handed_out s s' = [b'.handle] ∧
          (∀ h ∈ hs, h < b'.handle) ∧ ∀ b ∈ s.root, b.handle < b'.handle := by
  obtain ⟨i1, i4, i3, i2⟩ := RunWith_handles hr
  refine ⟨i2, i1, i3, i4, fun host c s' hw hstep => ?_⟩
  have hrs := step_root_step hstep
  cases hrs with
  | shrink hsub hc =>
    exact Or.inl ⟨by simp [handed_out, hc], fun b' hb' => ⟨b', hsub.subset hb', rfl⟩⟩
  | modify p b b2 hp hr2 hh _ _ _ _ hc =>
    refine Or.inl ⟨by simp [handed_out, hc], fun b' hb' => ?_⟩
    rw [hr2] at hb'
    rcases List.mem_or_eq_of_mem_set hb' with hx | hx
    · exact ⟨b', hx, rfl⟩
    · exact ⟨b, mem_of_getElem? hp, by rw [hx, hh]⟩
  | resize p b b2 sz hp hr2 hh _ _ _ _ hc =>
    refine Or.inl ⟨by simp [handed_out, hc], fun b' hb' => ?_⟩
    rw [hr2] at hb'
    rcases List.mem_or_eq_of_mem_set hb' with hx | hx
    · exact ⟨b', hx, rfl⟩
    · exact ⟨b, mem_of_getElem? hp, by rw [hx, hh]⟩
  | create b hr2 hh hc _ =>
    have hne : s'.pm_block_handle_used ≠ s.pm_block_handle_used := by
      rw [hc]; unfold u32; omega
    refine Or.inr ⟨b, hr2, by simp [handed_out, hne, hh], fun h hm => ?_, fun x hx => ?_⟩
    · rw [hh]; exact i4 h hm
    · rw [hh]; exact i4 _ (i1 x hx)

theorem demo_kept_run : RunWith cfg_demo no_wrap (demo_kept 1 []) [0] :=
  RunWith.call host_demo (Call.malloc 4096) (RunWith.init 0 [])
    (show (0 : Nat) < 4294967295 by decide)
    (by rfl : step cfg_demo host_demo demo_empty (Call.malloc 4096) = .ok (demo_kept 1 []))

theorem demo_kept_two_run : RunWith cfg_demo no_wrap (demo_kept_two 1 2 []) [1, 0] :=
  RunWith.call host_demo2 (Call.malloc 4096) demo_kept_run
    (show (1 : Nat) < 4294967295 by decide)
    (by rfl : step cfg_demo host_demo2 (demo_kept 1 []) (Call.malloc 4096) =
      .ok (demo_kept_two 1 2 []))

/-- Witness of C14: two blocks with the handles `1` and `0`, made by two
`DPMI_malloc` calls; the second `DPMI_malloc` hands out `1`, above the `0`
handed out before. -/
theorem handles_unique_witness :
    RunWith cfg_demo no_wrap (demo_kept_two 1 2 []) [1, 0] ∧
      ((demo_kept_two 1 2 []).root.map fun b : dpmi_pm_block => b.handle) = [1, 0] ∧
      ((demo_kept_two 1 2 []).root.map fun b : dpmi_pm_block => b.handle).Nodup ∧
      (∀ b ∈ (demo_kept_two 1 2 []).root, b.handle ∈ [1, 0]) ∧
      [1, 0].Pairwise (fun later earlier : Nat => earlier < later) ∧
      ((handed_out (demo_kept 1 []) (demo_kept_two 1 2 []) = [] ∧
          ∀ b' ∈ (demo_kept_two 1 2 []).root, ∃ b ∈ (demo_kept 1 []).root,
            b'.handle = b.handle) ∨
        ∃ b', (demo_kept_two 1 2 []).root = b' :: (demo_kept 1 []).root ∧
          handed_out (demo_kept 1 []) (demo_kept_two 1 2 []) = [b'.handle] ∧
          (∀ h ∈ [0], h < b'.handle) ∧ ∀ b ∈ (demo_kept 1 []).root, b.handle < b'.handle) ∧
      handed_out (demo_kept 1 []) (demo_kept_two 1 2 []) = [1] :=
  have h2 := handles_unique cfg_demo (demo_kept_two 1 2 []) [1, 0] demo_kept_two_run
  have h1 := (handles_unique cfg_demo (demo_kept 1 []) [0] demo_kept_run).2.2.2.2 host_demo2
    (Call.malloc 4096) (demo_kept_two 1 2 [])
    (show (1 : Nat) < 4294967295 by decide) (by rfl)
  ⟨demo_kept_two_run, by rfl, h2.1, h2.2.1, h2.2.2.1, h1, by rfl⟩

end Dpmi
